import Mathlib

/-!
miniMD (OpenACC C port): the EAM force kernels and spline tables.

A shallow embedding of `src/force_eam.c`.

Conventions of the embedding.

* `MMD_float` values are elements of an arbitrary linearly ordered field `K`
  with a floor function (the claims are statements of exact arithmetic); every
  definition can be run at `K = ℚ`.
* C `int`s are integers `ℤ`; a C array is a total map `ℤ → K` (or `ℤ → ℤ`) from
  offsets to contents, and a store `a[i] = v` is `Function.update a i v`.
* What the translation unit takes from outside (`sqrt` of `math.h`, the macros
  `PAD`, `DS0`, `DS1` of `types.h`, the build flag `ENABLE_EV_CALCULATION`, the
  contents of freshly allocated blocks, the data delivered by MPI) is gathered
  in `Env` and is a parameter of every kernel.
* `printf` calls are left out, and OpenACC pragmas are read as comments: the
  kernels are the loops a C compiler without OpenACC runs.
-/

set_option linter.unusedSectionVars false

namespace MiniMD

open Function

/-! ## Loops and casts -/

/-- The values taken by the counter of `for(int i = lo; i < hi; i++)`. -/
def loopIdx (lo hi : ℤ) : List ℤ :=
  (List.range (hi - lo).toNat).map (fun (k : ℕ) => lo + (k : ℤ))

/-- The loop `for(int i = lo; i < hi; i++) s = body(i, s);`. -/
def forLoop {σ : Type} (lo hi : ℤ) (body : ℤ → σ → σ) (s : σ) : σ :=
  (loopIdx lo hi).foldl (fun s i => body i s) s

/-- C cast `(int)(p)` of a floating value: truncation toward zero. -/
def cTrunc {K : Type} [LinearOrderedField K] [FloorRing K] (p : K) : ℤ :=
  if 0 ≤ p then ⌊p⌋ else ⌈p⌉

/-! ## Data model -/

/-- What `force_eam.c` uses but does not define. -/
structure Env (K : Type) where
  /-- `sqrt` of `math.h`. -/
  sqrt : K → K
  /-- Stride of the position and force arrays (`types.h`). -/
  PAD : ℤ
  /-- Outer stride macro of the neighbour list (`types.h`). -/
  DS0 : ℤ → ℤ → ℤ
  /-- Inner stride macro of the neighbour list (`types.h`). -/
  DS1 : ℤ → ℤ → ℤ
  /-- Whether the build defines `ENABLE_EV_CALCULATION`. -/
  ENABLE_EV_CALCULATION : Bool
  /-- Contents of the block returned by `malloc` for `rho`. -/
  malloc_rho : ℤ → K
  /-- Contents of the block returned by `malloc` for `fp`. -/
  malloc_fp : ℤ → K
  /-- Contents of `buf_recv` once the receive posted for swap `iswap` completed. -/
  mpi_recv : ℤ → ℤ → K

/-- The fields of `Atom` read or written by the EAM kernels. -/
structure Atom (K : Type) where
  x : ℤ → K
  f : ℤ → K
  d_x : ℤ → K
  d_f : ℤ → K
  nlocal : ℤ
  nghost : ℤ
  nmax : ℤ

/-- The fields of `Neighbor` read by the EAM kernels. -/
structure Neighbor where
  neighbors : ℤ → ℤ
  numneigh : ℤ → ℤ
  d_neighbors : ℤ → ℤ
  d_numneigh : ℤ → ℤ
  maxneighs : ℤ
  nmax : ℤ
  halfneigh : ℤ

/-- The fields of `Comm` used by `ForceEAM_communicate`. -/
structure Comm (K : Type) where
  nswap : ℤ
  sendnum : ℤ → ℤ
  recvnum : ℤ → ℤ
  firstrecv : ℤ → ℤ
  sendproc : ℤ → ℤ
  recvproc : ℤ → ℤ
  sendlist : ℤ → ℤ → ℤ
  buf_send : ℤ → K
  buf_recv : ℤ → K

/-- The fields of `ForceEAM` used by the kernels and the spline set-up. -/
structure ForceEAM (K : Type) where
  cutforcesq : K
  rdr : K
  rdrho : K
  nr : ℤ
  nrho : ℤ
  evflag : ℤ
  me : ℤ
  nmax : ℤ
  omp_num_threads : ℤ
  rho : ℤ → K
  fp : ℤ → K
  rhor_spline : ℤ → K
  frho_spline : ℤ → K
  z2r_spline : ℤ → K
  d_rhor_spline : ℤ → K
  d_frho_spline : ℤ → K
  d_z2r_spline : ℤ → K
  virial : K
  eng_vdwl : K

/-! ## Spline rows -/

section Spline

variable {K : Type} [LinearOrderedField K] [FloorRing K]

/-- The value cubic `((s[m*7+3]*p + s[m*7+4])*p + s[m*7+5])*p + s[m*7+6]`. -/
def splineValue (s : ℤ → K) (m : ℤ) (p : K) : K :=
  ((s (m * 7 + 3) * p + s (m * 7 + 4)) * p + s (m * 7 + 5)) * p + s (m * 7 + 6)

/-- The derivative quadratic `(s[m*7+0]*p + s[m*7+1])*p + s[m*7+2]`. -/
def splineDeriv (s : ℤ → K) (m : ℤ) (p : K) : K :=
  (s (m * 7 + 0) * p + s (m * 7 + 1)) * p + s (m * 7 + 2)

/-- Row and fraction of the pair tables for a distance `r`:
`p = r*rdr + 1.0; m = (int)(p); m = m < nr-1 ? m : nr-1; p -= m; p = p < 1.0 ? p : 1.0`. -/
def pairLookup (rdr : K) (nr : ℤ) (r : K) : ℤ × K :=
  let p := r * rdr + 1
  let m := cTrunc p
  let m := if m < nr - 1 then m else nr - 1
  let p := p - (m : K)
  let p := if p < 1 then p else 1
  (m, p)

/-- Row and fraction of the embedding table for a density `rho`:
`p = 1.0*rho*rdrho + 1.0; m = (int)(p); m = MAX(1, MIN(m, nrho-1)); p -= m; p = MIN(p, 1.0)`. -/
def embedLookup (rdrho : K) (nrho : ℤ) (rho : K) : ℤ × K :=
  let p := 1 * rho * rdrho + 1
  let m := cTrunc p
  let mn := if m < nrho - 1 then m else nrho - 1
  let m := if 1 > mn then 1 else mn
  let p := p - (m : K)
  let p := if p < 1 then p else 1
  (m, p)

end Spline

/-! ## Spline construction -/

section Interpolate

variable {K : Type} [Field K]

/-- Line 784: `for(m = 1; m <= n; m++) spline[m*7+6] = f[m]`. -/
def interpolateFill (n : ℤ) (f : ℤ → K) (spline : ℤ → K) : ℤ → K :=
  forLoop 1 (n + 1) (fun m s => update s (m * 7 + 6) (f m)) spline

/-- Lines 786 to 789: slot 5 of rows `1`, `2`, `n-1` and `n`, in this order. -/
def interpolateEnds (n : ℤ) (s : ℤ → K) : ℤ → K :=
  let s := update s (1 * 7 + 5) (s (2 * 7 + 6) - s (1 * 7 + 6))
  let s := update s (2 * 7 + 5) (0.5 * (s (3 * 7 + 6) - s (1 * 7 + 6)))
  let s := update s ((n - 1) * 7 + 5) (0.5 * (s (n * 7 + 6) - s ((n - 2) * 7 + 6)))
  update s (n * 7 + 5) (s (n * 7 + 6) - s ((n - 1) * 7 + 6))

/-- Lines 791 to 793: slot 5 of the rows `3 .. n-2`. -/
def interpolateInner (n : ℤ) (s : ℤ → K) : ℤ → K :=
  forLoop 3 (n - 2 + 1) (fun m s =>
    update s (m * 7 + 5)
      (((s ((m - 2) * 7 + 6) - s ((m + 2) * 7 + 6)) +
        8.0 * (s ((m + 1) * 7 + 6) - s ((m - 1) * 7 + 6))) / 12.0)) s

/-- Lines 795 to 803: slots 4 and 3 of the rows `1 .. n-1`, then of row `n`. -/
def interpolateCubic (n : ℤ) (s : ℤ → K) : ℤ → K :=
  let s := forLoop 1 (n - 1 + 1) (fun m s =>
    let s := update s (m * 7 + 4)
      (3.0 * (s ((m + 1) * 7 + 6) - s (m * 7 + 6)) -
        2.0 * s (m * 7 + 5) - s ((m + 1) * 7 + 5))
    update s (m * 7 + 3)
      (s (m * 7 + 5) + s ((m + 1) * 7 + 5) -
        2.0 * (s ((m + 1) * 7 + 6) - s (m * 7 + 6)))) s
  let s := update s (n * 7 + 4) 0.0
  update s (n * 7 + 3) 0.0

/-- Lines 805 to 809: slots 2, 1 and 0 of the rows `1 .. n`. -/
def interpolateScale (n : ℤ) (delta : K) (s : ℤ → K) : ℤ → K :=
  forLoop 1 (n + 1) (fun m s =>
    let s := update s (m * 7 + 2) (s (m * 7 + 5) / delta)
    let s := update s (m * 7 + 1) (2.0 * s (m * 7 + 4) / delta)
    update s (m * 7 + 0) (3.0 * s (m * 7 + 3) / delta)) s

/-- The function `ForceEAM_interpolate(force_eam, n, delta, f, spline)`: its five groups of
statements in sequence; the result is the contents of `spline` on return. -/
def ForceEAM_interpolate (n : ℤ) (delta : K) (f : ℤ → K) (spline : ℤ → K) : ℤ → K :=
  interpolateScale n delta
    (interpolateCubic n (interpolateInner n (interpolateEnds n (interpolateFill n f spline))))

end Interpolate

/-! ## Halo exchange of `fp` -/

section Communicate

variable {K : Type}

/-- The function `ForceEAM_pack_comm`: `buf[i] = fp[asendlist[iswap][i]]` for `i < n`; the
result is the contents of `buf` on return. -/
def ForceEAM_pack_comm (force_eam : ForceEAM K) (n iswap : ℤ) (buf : ℤ → K)
    (asendlist : ℤ → ℤ → ℤ) : ℤ → K :=
  forLoop 0 n (fun i buf => update buf i (force_eam.fp (asendlist iswap i))) buf

/-- The function `ForceEAM_unpack_comm`: `for(i = first; i < last; i++) fp[i] = buf[m++]`. -/
def ForceEAM_unpack_comm (force_eam : ForceEAM K) (n first : ℤ) (buf : ℤ → K) :
    ForceEAM K :=
  let last := first + n
  let r := forLoop first last
    (fun i (s : (ℤ → K) × ℤ) => (update s.1 i (buf s.2), s.2 + 1)) (force_eam.fp, 0)
  { force_eam with fp := r.1 }

/-- One iteration of the swap loop of `ForceEAM_communicate`. -/
def communicateSwap (E : Env K) (iswap : ℤ) (s : ForceEAM K × Comm K) :
    ForceEAM K × Comm K :=
  let force_eam := s.1
  let comm := s.2
  let comm := { comm with
    buf_send := ForceEAM_pack_comm force_eam (comm.sendnum iswap) iswap comm.buf_send
      comm.sendlist }
  if comm.sendproc iswap ≠ force_eam.me then
    let comm := { comm with buf_recv := E.mpi_recv iswap }
    (ForceEAM_unpack_comm force_eam (comm.recvnum iswap) (comm.firstrecv iswap)
      comm.buf_recv, comm)
  else
    (ForceEAM_unpack_comm force_eam (comm.recvnum iswap) (comm.firstrecv iswap)
      comm.buf_send, comm)

/-- The function `ForceEAM_communicate(force_eam, atom, comm)`: the loop over the swaps. -/
def ForceEAM_communicate (E : Env K) (force_eam : ForceEAM K) (comm : Comm K) :
    ForceEAM K × Comm K :=
  forLoop 0 comm.nswap (communicateSwap E) (force_eam, comm)

end Communicate

/-! ## Half-list kernel -/

section Kernels

variable {K : Type} [LinearOrderedField K] [FloorRing K]

/-- Squared distance of atoms `i` and `j` as both kernels compute it:
`delx*delx + dely*dely + delz*delz`. -/
def rsqOf (E : Env K) (x : ℤ → K) (i j : ℤ) : K :=
  let delx := x (i * E.PAD + 0) - x (j * E.PAD + 0)
  let dely := x (i * E.PAD + 1) - x (j * E.PAD + 1)
  let delz := x (i * E.PAD + 2) - x (j * E.PAD + 2)
  delx * delx + dely * dely + delz * delz

/-- The loop zeroing the force array at the start of the half-list kernel. -/
def zeroForces (E : Env K) (nall : ℤ) (f : ℤ → K) : ℤ → K :=
  forLoop 0 nall (fun i f =>
    let f := update f (i * E.PAD + 0) 0
    let f := update f (i * E.PAD + 1) 0
    update f (i * E.PAD + 2) 0) f

/-- Body of the `jj` loop of the density pass of the half-list kernel, after
`j = neighs[jj]`; the state is `(rhoi, rho)`. -/
def halfDensityStep (E : Env K) (force_eam : ForceEAM K) (x : ℤ → K) (nlocal i : ℤ)
    (j : ℤ) (s : K × (ℤ → K)) : K × (ℤ → K) :=
  let rsq := rsqOf E x i j
  if rsq < force_eam.cutforcesq then
    let mp := pairLookup force_eam.rdr force_eam.nr (E.sqrt rsq)
    let rhoi := s.1 + splineValue force_eam.rhor_spline mp.1 mp.2
    if j < nlocal then
      (rhoi, update s.2 j (s.2 j + splineValue force_eam.rhor_spline mp.1 mp.2))
    else (rhoi, s.2)
  else s

/-- Body of the `i` loop of the density pass of the half-list kernel; the state
is `rho`. -/
def halfDensityAtom (E : Env K) (force_eam : ForceEAM K) (x : ℤ → K) (nlocal : ℤ)
    (neighbor : Neighbor) (i : ℤ) (rho : ℤ → K) : ℤ → K :=
  let neighs := fun jj => neighbor.neighbors (i * neighbor.maxneighs + jj)
  let numneigh := neighbor.numneigh i
  let s := forLoop 0 numneigh
    (fun jj => halfDensityStep E force_eam x nlocal i (neighs jj)) (0.0, rho)
  update s.2 i (s.2 i + s.1)

/-- Body of the embedding loop of the half-list kernel; the state is
`(fp, evdwl)` and `rho` is read. -/
def halfEmbedAtom (force_eam : ForceEAM K) (rho : ℤ → K) (i : ℤ) (s : (ℤ → K) × K) :
    (ℤ → K) × K :=
  let mp := embedLookup force_eam.rdrho force_eam.nrho (rho i)
  let fp := update s.1 i (splineDeriv force_eam.frho_spline mp.1 mp.2)
  if force_eam.evflag ≠ 0 then
    (fp, s.2 + splineValue force_eam.frho_spline mp.1 mp.2)
  else (fp, s.2)

/-- State of the `jj` loop of the force pass of the half-list kernel. -/
structure HalfAcc (K : Type) where
  fx : K
  fy : K
  fz : K
  f : ℤ → K
  virial : K
  evdwl : K

/-- Body of the `jj` loop of the force pass of the half-list kernel, after
`j = neighs[jj]`. -/
def halfForceStep (E : Env K) (force_eam : ForceEAM K) (x : ℤ → K) (nlocal i : ℤ)
    (j : ℤ) (s : HalfAcc K) : HalfAcc K :=
  let delx := x (i * E.PAD + 0) - x (j * E.PAD + 0)
  let dely := x (i * E.PAD + 1) - x (j * E.PAD + 1)
  let delz := x (i * E.PAD + 2) - x (j * E.PAD + 2)
  let rsq := delx * delx + dely * dely + delz * delz
  if rsq < force_eam.cutforcesq then
    let r := E.sqrt rsq
    let mp := pairLookup force_eam.rdr force_eam.nr r
    let rhoip := splineDeriv force_eam.rhor_spline mp.1 mp.2
    let z2p := splineDeriv force_eam.z2r_spline mp.1 mp.2
    let z2 := splineValue force_eam.z2r_spline mp.1 mp.2
    let recip := 1 / r
    let phi := z2 * recip
    let phip := z2p * recip - phi * recip
    let psip := force_eam.fp i * rhoip + force_eam.fp j * rhoip + phip
    let fpair := -psip * recip
    let fx := s.fx + delx * fpair
    let fy := s.fy + dely * fpair
    let fz := s.fz + delz * fpair
    let f := if j < nlocal then
        let f := update s.f (j * E.PAD + 0) (s.f (j * E.PAD + 0) - delx * fpair)
        let f := update f (j * E.PAD + 1) (f (j * E.PAD + 1) - dely * fpair)
        update f (j * E.PAD + 2) (f (j * E.PAD + 2) - delz * fpair)
      else s.f
    let fpair := if j < nlocal then fpair else fpair * 0.5
    let virial := if force_eam.evflag ≠ 0 then
        s.virial + (delx * delx * fpair + dely * dely * fpair + delz * delz * fpair)
      else s.virial
    let evdwl := if j < nlocal then s.evdwl + phi else s.evdwl + 0.5 * phi
    { fx := fx, fy := fy, fz := fz, f := f, virial := virial, evdwl := evdwl }
  else s

/-- Body of the `i` loop of the force pass of the half-list kernel; the state is
`(f, virial, evdwl)`. -/
def halfForceAtom (E : Env K) (force_eam : ForceEAM K) (x : ℤ → K) (nlocal : ℤ)
    (neighbor : Neighbor) (i : ℤ) (s : (ℤ → K) × K × K) : (ℤ → K) × K × K :=
  let neighs := fun jj => neighbor.neighbors (i * neighbor.maxneighs + jj)
  let numneigh := neighbor.numneigh i
  let a := forLoop 0 numneigh
    (fun jj => halfForceStep E force_eam x nlocal i (neighs jj))
    { fx := 0, fy := 0, fz := 0, f := s.1, virial := s.2.1, evdwl := s.2.2 }
  let f := update a.f (i * E.PAD + 0) (a.f (i * E.PAD + 0) + a.fx)
  let f := update f (i * E.PAD + 1) (f (i * E.PAD + 1) + a.fy)
  let f := update f (i * E.PAD + 2) (f (i * E.PAD + 2) + a.fz)
  (f, a.virial, a.evdwl)

/-- The function `ForceEAM_compute_halfneigh(force_eam, atom, neighbor, comm, me)`; the result
is the three objects it writes to. -/
def ForceEAM_compute_halfneigh (E : Env K) (force_eam : ForceEAM K) (atom : Atom K)
    (neighbor : Neighbor) (comm : Comm K) : ForceEAM K × Atom K × Comm K :=
  let evdwl : K := 0.0
  let force_eam := { force_eam with virial := 0 }
  let force_eam :=
    if atom.nmax > force_eam.nmax then
      { force_eam with nmax := atom.nmax, rho := E.malloc_rho, fp := E.malloc_fp }
    else force_eam
  let x := atom.x
  let nlocal := atom.nlocal
  let f := zeroForces E (atom.nlocal + atom.nghost) atom.f
  let rho := forLoop 0 nlocal (fun i rho => update rho i 0.0) force_eam.rho
  let rho := forLoop 0 nlocal (halfDensityAtom E force_eam x nlocal neighbor) rho
  let force_eam := { force_eam with rho := rho }
  let e := forLoop 0 nlocal (halfEmbedAtom force_eam rho) (force_eam.fp, evdwl)
  let force_eam := { force_eam with fp := e.1 }
  let evdwl := e.2
  let c := ForceEAM_communicate E force_eam comm
  let force_eam := c.1
  let comm := c.2
  let r := forLoop 0 nlocal (halfForceAtom E force_eam x nlocal neighbor)
    (f, force_eam.virial, evdwl)
  ({ force_eam with virial := r.2.1, eng_vdwl := r.2.2 }, { atom with f := r.1 }, comm)

/-! ## Full-list kernel -/

/-- Body of the `jj` loop of the first kernel of the full-list routine, after
`j = neighs[jj*DS1]`; the state is `rhoi`. -/
def fullDensityStep (E : Env K) (force_eam : ForceEAM K) (x : ℤ → K) (i : ℤ)
    (j : ℤ) (rhoi : K) : K :=
  let rsq := rsqOf E x i j
  if rsq < force_eam.cutforcesq then
    let mp := pairLookup force_eam.rdr force_eam.nr (E.sqrt rsq)
    rhoi + splineValue force_eam.d_rhor_spline mp.1 mp.2
  else rhoi

/-- Body of the `i` loop of the first kernel of the full-list routine; the state
is `(fp, evdwl)`.  The names `evflag` and `frho_spline` of the block under
`ENABLE_EV_CALCULATION` are read as the members of `force_eam`. -/
def fullDensityAtom (E : Env K) (force_eam : ForceEAM K) (x : ℤ → K)
    (neighbor : Neighbor) (i : ℤ) (s : (ℤ → K) × K) : (ℤ → K) × K :=
  let neighs := fun jj => neighbor.d_neighbors
    (i * E.DS0 neighbor.nmax neighbor.maxneighs + jj * E.DS1 neighbor.nmax neighbor.maxneighs)
  let jnum := neighbor.d_numneigh i
  let rhoi := forLoop 0 jnum (fun jj => fullDensityStep E force_eam x i (neighs jj)) 0
  let mp := embedLookup force_eam.rdrho force_eam.nrho rhoi
  let fp := update s.1 i (splineDeriv force_eam.d_frho_spline mp.1 mp.2)
  if E.ENABLE_EV_CALCULATION = true ∧ force_eam.evflag ≠ 0 then
    (fp, s.2 + splineValue force_eam.frho_spline mp.1 mp.2)
  else (fp, s.2)

/-- State of the `jj` loop of the second kernel of the full-list routine. -/
structure FullAcc (K : Type) where
  fx : K
  fy : K
  fz : K
  t_virial : K
  evdwl : K

/-- Body of the `jj` loop of the second kernel of the full-list routine, after
`j = neighs[jj*DS1]`. -/
def fullForceStep (E : Env K) (force_eam : ForceEAM K) (x : ℤ → K) (i : ℤ)
    (j : ℤ) (s : FullAcc K) : FullAcc K :=
  let delx := x (i * E.PAD + 0) - x (j * E.PAD + 0)
  let dely := x (i * E.PAD + 1) - x (j * E.PAD + 1)
  let delz := x (i * E.PAD + 2) - x (j * E.PAD + 2)
  let rsq := delx * delx + dely * dely + delz * delz
  if rsq < force_eam.cutforcesq then
    let r := E.sqrt rsq
    let mp := pairLookup force_eam.rdr force_eam.nr r
    let rhoip := splineDeriv force_eam.d_rhor_spline mp.1 mp.2
    let z2p := splineDeriv force_eam.d_z2r_spline mp.1 mp.2
    let z2 := splineValue force_eam.d_z2r_spline mp.1 mp.2
    let recip := 1 / r
    let phi := z2 * recip
    let phip := z2p * recip - phi * recip
    let psip := force_eam.fp i * rhoip + force_eam.fp j * rhoip + phip
    let fpair := -psip * recip
    let fx := s.fx + delx * fpair
    let fy := s.fy + dely * fpair
    let fz := s.fz + delz * fpair
    let fpair := fpair * 0.5
    if E.ENABLE_EV_CALCULATION = true ∧ force_eam.evflag ≠ 0 then
      { fx := fx, fy := fy, fz := fz,
        t_virial := s.t_virial +
          (delx * delx * fpair + dely * dely * fpair + delz * delz * fpair),
        evdwl := s.evdwl + 0.5 * phi }
    else { fx := fx, fy := fy, fz := fz, t_virial := s.t_virial, evdwl := s.evdwl }
  else s

/-- Body of the `i` loop of the second kernel of the full-list routine; the state
is `(f, t_virial, evdwl)`. -/
def fullForceAtom (E : Env K) (force_eam : ForceEAM K) (x : ℤ → K)
    (neighbor : Neighbor) (i : ℤ) (s : (ℤ → K) × K × K) : (ℤ → K) × K × K :=
  let neighs := fun jj => neighbor.d_neighbors
    (i * E.DS0 neighbor.nmax neighbor.maxneighs + jj * E.DS1 neighbor.nmax neighbor.maxneighs)
  let numneigh := neighbor.d_numneigh i
  let a := forLoop 0 numneigh (fun jj => fullForceStep E force_eam x i (neighs jj))
    { fx := 0.0, fy := 0.0, fz := 0.0, t_virial := s.2.1, evdwl := s.2.2 }
  let f := update s.1 (i * E.PAD + 0) a.fx
  let f := update f (i * E.PAD + 1) a.fy
  let f := update f (i * E.PAD + 2) a.fz
  (f, a.t_virial, a.evdwl)

/-- The function `ForceEAM_compute_fullneigh(force_eam, atom, neighbor, comm, me)`; the result
is the three objects it writes to.  The device block `d_fp` is allocated and
never read, so it has no field here. -/
def ForceEAM_compute_fullneigh (E : Env K) (force_eam : ForceEAM K) (atom : Atom K)
    (neighbor : Neighbor) (comm : Comm K) : ForceEAM K × Atom K × Comm K :=
  let evdwl : K := 0.0
  let force_eam := { force_eam with virial := 0 }
  let force_eam :=
    if atom.nmax > force_eam.nmax then
      { force_eam with nmax := atom.nmax, fp := E.malloc_fp }
    else force_eam
  let nlocal := atom.nlocal
  let x := atom.d_x
  let f := atom.d_f
  let k := forLoop 0 nlocal (fullDensityAtom E force_eam x neighbor) (force_eam.fp, evdwl)
  let force_eam := { force_eam with fp := k.1 }
  let evdwl := k.2
  let c := ForceEAM_communicate E force_eam comm
  let force_eam := c.1
  let comm := c.2
  let t_virial : K := 0
  let r := forLoop 0 nlocal (fullForceAtom E force_eam x neighbor) (f, t_virial, evdwl)
  ({ force_eam with
      virial := force_eam.virial + r.2.1,
      eng_vdwl := force_eam.eng_vdwl + 2.0 * r.2.2 },
    { atom with d_f := r.1 }, comm)

/-! ## Single pair -/

/-- The function
`ForceEAM_single(force_eam, i, j, itype, jtype, rsq, factor_coul, factor_lj, &fforce)`;
the result is the returned `phi` and the stored `*fforce`.  `coeff[k]` is
`spline[m*7 + 0 + k]`. -/
def ForceEAM_single (E : Env K) (force_eam : ForceEAM K) (i j : ℤ) (rsq : K) : K × K :=
  let r := E.sqrt rsq
  let mp := pairLookup force_eam.rdr force_eam.nr r
  let m := mp.1
  let p := mp.2
  let rhoip := (force_eam.rhor_spline (m * 7 + 0 + 0) * p +
    force_eam.rhor_spline (m * 7 + 0 + 1)) * p + force_eam.rhor_spline (m * 7 + 0 + 2)
  let rhojp := (force_eam.rhor_spline (m * 7 + 0 + 0) * p +
    force_eam.rhor_spline (m * 7 + 0 + 1)) * p + force_eam.rhor_spline (m * 7 + 0 + 2)
  let z2p := (force_eam.z2r_spline (m * 7 + 0 + 0) * p +
    force_eam.z2r_spline (m * 7 + 0 + 1)) * p + force_eam.z2r_spline (m * 7 + 0 + 2)
  let z2 := ((force_eam.z2r_spline (m * 7 + 0 + 3) * p +
    force_eam.z2r_spline (m * 7 + 0 + 4)) * p + force_eam.z2r_spline (m * 7 + 0 + 5)) * p +
      force_eam.z2r_spline (m * 7 + 0 + 6)
  let recip := 1.0 / r
  let phi := z2 * recip
  let phip := z2p * recip - phi * recip
  let psip := force_eam.fp i * rhojp + force_eam.fp j * rhoip + phip
  (phi, -psip * recip)

end Kernels

/-! ## Quantities named in the specification

These follow the wording of the specification, not the code; the theorems
compare them with the kernels above. -/

section SpecDefs

variable {K : Type} [LinearOrderedField K] [FloorRing K]

/-- The neighbours of atom `i` in the order the half-list kernel visits them:
`neighbors[i*maxneighs + jj]` for `jj < numneigh[i]`. -/
def halfNeighList (neighbor : Neighbor) (i : ℤ) : List ℤ :=
  (loopIdx 0 (neighbor.numneigh i)).map
    (fun jj => neighbor.neighbors (i * neighbor.maxneighs + jj))

/-- The neighbours of atom `i` in the order the full-list kernel visits them:
`d_neighbors[i*DS0 + jj*DS1]` for `jj < d_numneigh[i]`. -/
def fullNeighList (E : Env K) (neighbor : Neighbor) (i : ℤ) : List ℤ :=
  (loopIdx 0 (neighbor.d_numneigh i)).map
    (fun jj => neighbor.d_neighbors
      (i * E.DS0 neighbor.nmax neighbor.maxneighs + jj * E.DS1 neighbor.nmax neighbor.maxneighs))

/-- Component `d` of `r_ij = x_i - x_j`. -/
def specDel (E : Env K) (x : ℤ → K) (i j d : ℤ) : K :=
  x (i * E.PAD + d) - x (j * E.PAD + d)

/-- The squared distance `|r_ij|^2`. -/
def specRsq (E : Env K) (x : ℤ → K) (i j : ℤ) : K :=
  specDel E x i j 0 ^ 2 + specDel E x i j 1 ^ 2 + specDel E x i j 2 ^ 2

/-- The neighbours in `l` that lie within the force cutoff of atom `i`
(strictly: `|r_ij|^2 < cutforcesq`). -/
def withinCutoff (E : Env K) (cutforcesq : K) (x : ℤ → K) (i : ℤ) (l : List ℤ) : List ℤ :=
  l.filter (fun j => decide (specRsq E x i j < cutforcesq))

/-- The density `ρ(r_ij)` contributed by one neighbour: the value cubic of the
`rhor` table at the row and fraction for `r = sqrt(rsq)`. -/
def specRho (E : Env K) (rdr : K) (nr : ℤ) (rhor : ℤ → K) (x : ℤ → K) (i j : ℤ) : K :=
  let r := E.sqrt (specRsq E x i j)
  splineValue rhor (pairLookup rdr nr r).1 (pairLookup rdr nr r).2

/-- The pair energy `φ = z2 / r`. -/
def specPhi (E : Env K) (rdr : K) (nr : ℤ) (z2r : ℤ → K) (x : ℤ → K) (i j : ℤ) : K :=
  let r := E.sqrt (specRsq E x i j)
  splineValue z2r (pairLookup rdr nr r).1 (pairLookup rdr nr r).2 / r

/-- The pair force factor: `φ = z2/r`, `φ' = z2p/r − φ/r`,
`ψ' = fp_i·rhoip + fp_j·rhoip + φ'`, `f_pair = −ψ'/r`. -/
def specFpair (E : Env K) (rdr : K) (nr : ℤ) (rhor z2r fp : ℤ → K) (x : ℤ → K)
    (i j : ℤ) : K :=
  let r := E.sqrt (specRsq E x i j)
  let m := (pairLookup rdr nr r).1
  let p := (pairLookup rdr nr r).2
  let rhoip := splineDeriv rhor m p
  let z2p := splineDeriv z2r m p
  let z2 := splineValue z2r m p
  let phi := z2 / r
  let phip := z2p / r - phi / r
  let psip := fp i * rhoip + fp j * rhoip + phip
  (-psip) / r

/-- The embedding energy `F(ρ)`: the value cubic of the `frho` table at the
clamped row and fraction for `ρ`. -/
def specEmbed (rdrho : K) (nrho : ℤ) (frho : ℤ → K) (rho : K) : K :=
  splineValue frho (embedLookup rdrho nrho rho).1 (embedLookup rdrho nrho rho).2

/-- The embedding derivative `F'(ρ)`: the derivative quadratic of the `frho`
table at the clamped row and fraction for `ρ`. -/
def specEmbedDeriv (rdrho : K) (nrho : ℤ) (frho : ℤ → K) (rho : K) : K :=
  splineDeriv frho (embedLookup rdrho nrho rho).1 (embedLookup rdrho nrho rho).2

/-- The weight of a listed pair in the half-list energy and virial: `1` for an
owned neighbour, `1/2` for a ghost. -/
def specWeight (nlocal j : ℤ) : K :=
  if j < nlocal then 1 else 1 / 2

/-- The density `ρ_i = Σ_j ρ(r_ij)` over the neighbours in `l` within the cutoff. -/
def specDensity (E : Env K) (cutforcesq rdr : K) (nr : ℤ) (rhor : ℤ → K) (x : ℤ → K)
    (l : List ℤ) (i : ℤ) : K :=
  ((withinCutoff E cutforcesq x i l).map (fun j => specRho E rdr nr rhor x i j)).sum

/-- Component `d` of the force on atom `i`: the sum of `(x_i − x_j)·f_pair` over
the neighbours in `l` within the cutoff. -/
def specForce (E : Env K) (cutforcesq rdr : K) (nr : ℤ) (rhor z2r fp : ℤ → K) (x : ℤ → K)
    (l : List ℤ) (i d : ℤ) : K :=
  ((withinCutoff E cutforcesq x i l).map
    (fun j => specDel E x i j d * specFpair E rdr nr rhor z2r fp x i j)).sum

/-- Component `d` of the total force `Σ_t f_t` over the atoms `0 ≤ t < nall`. -/
def specTotalForce (E : Env K) (nall : ℤ) (f : ℤ → K) (d : ℤ) : K :=
  ((loopIdx 0 nall).map (fun t => f (t * E.PAD + d))).sum

end SpecDefs

/-! ## The kernels stage by stage

Names for the intermediate states of the two kernels; `compute_fullneigh_stages`
and `compute_halfneigh_stages` below show that the kernels are their
composition. -/

section Stages

variable {K : Type} [LinearOrderedField K] [FloorRing K]

/-- The object `force_eam` after `virial = 0` and the reallocation test of the full-list kernel. -/
def fullPrep (E : Env K) (force_eam : ForceEAM K) (atom : Atom K) : ForceEAM K :=
  if atom.nmax > force_eam.nmax then
    { force_eam with virial := 0, nmax := atom.nmax, fp := E.malloc_fp }
  else { force_eam with virial := 0 }

/-- The state `(fp, evdwl)` after the first kernel of the full-list routine. -/
def fullKernel1 (E : Env K) (force_eam : ForceEAM K) (atom : Atom K) (neighbor : Neighbor) :
    (ℤ → K) × K :=
  forLoop 0 atom.nlocal (fullDensityAtom E (fullPrep E force_eam atom) atom.d_x neighbor)
    ((fullPrep E force_eam atom).fp, 0.0)

/-- The pair `(force_eam, comm)` after the halo exchange of the full-list routine. -/
def fullComm (E : Env K) (force_eam : ForceEAM K) (atom : Atom K) (neighbor : Neighbor)
    (comm : Comm K) : ForceEAM K × Comm K :=
  ForceEAM_communicate E
    { fullPrep E force_eam atom with fp := (fullKernel1 E force_eam atom neighbor).1 } comm

/-- The state `(f, t_virial, evdwl)` after the second kernel of the full-list routine. -/
def fullKernel2 (E : Env K) (force_eam : ForceEAM K) (atom : Atom K) (neighbor : Neighbor)
    (comm : Comm K) : (ℤ → K) × K × K :=
  forLoop 0 atom.nlocal
    (fullForceAtom E (fullComm E force_eam atom neighbor comm).1 atom.d_x neighbor)
    (atom.d_f, 0, (fullKernel1 E force_eam atom neighbor).2)

/-- The object `force_eam` after `virial = 0` and the reallocation test of the half-list kernel. -/
def halfPrep (E : Env K) (force_eam : ForceEAM K) (atom : Atom K) : ForceEAM K :=
  if atom.nmax > force_eam.nmax then
    { force_eam with virial := 0, nmax := atom.nmax, rho := E.malloc_rho, fp := E.malloc_fp }
  else { force_eam with virial := 0 }

/-- The array `rho` after the density pass of the half-list kernel. -/
def halfRho (E : Env K) (force_eam : ForceEAM K) (atom : Atom K) (neighbor : Neighbor) :
    ℤ → K :=
  forLoop 0 atom.nlocal
    (halfDensityAtom E (halfPrep E force_eam atom) atom.x atom.nlocal neighbor)
    (forLoop 0 atom.nlocal (fun i rho => update rho i 0.0) (halfPrep E force_eam atom).rho)

/-- The state `(fp, evdwl)` after the embedding loop of the half-list kernel. -/
def halfEmbed (E : Env K) (force_eam : ForceEAM K) (atom : Atom K) (neighbor : Neighbor) :
    (ℤ → K) × K :=
  forLoop 0 atom.nlocal
    (halfEmbedAtom { halfPrep E force_eam atom with rho := halfRho E force_eam atom neighbor }
      (halfRho E force_eam atom neighbor))
    ((halfPrep E force_eam atom).fp, 0.0)

/-- The pair `(force_eam, comm)` after the halo exchange of the half-list kernel. -/
def halfComm (E : Env K) (force_eam : ForceEAM K) (atom : Atom K) (neighbor : Neighbor)
    (comm : Comm K) : ForceEAM K × Comm K :=
  ForceEAM_communicate E
    { halfPrep E force_eam atom with
      rho := halfRho E force_eam atom neighbor,
      fp := (halfEmbed E force_eam atom neighbor).1 } comm

/-- The state `(f, virial, evdwl)` after the force pass of the half-list kernel. -/
def halfForce (E : Env K) (force_eam : ForceEAM K) (atom : Atom K) (neighbor : Neighbor)
    (comm : Comm K) : (ℤ → K) × K × K :=
  forLoop 0 atom.nlocal
    (halfForceAtom E (halfComm E force_eam atom neighbor comm).1 atom.x atom.nlocal neighbor)
    (zeroForces E (atom.nlocal + atom.nghost) atom.f,
      (halfComm E force_eam atom neighbor comm).1.virial,
      (halfEmbed E force_eam atom neighbor).2)

end Stages

/-! ## A small configuration over `ℚ`

Two atoms at distance 1 on the x axis, tables whose slots all hold 1, cutoff 2.
Used to run the kernels on concrete data. -/

section Examples

/-- Exact rational arithmetic: `sqrt` is the rational square root (exact on
squares), stride 3, row-major neighbour lists, no `ENABLE_EV_CALCULATION`. -/
def exEnv : Env ℚ where
  sqrt := Rat.sqrt
  PAD := 3
  DS0 := fun _ maxneighs => maxneighs
  DS1 := fun _ _ => 1
  ENABLE_EV_CALCULATION := false
  malloc_rho := fun _ => 0
  malloc_fp := fun _ => 0
  mpi_recv := fun _ _ => 0

/-- A spline table whose seven slots hold 1 in every row. -/
def exTable : ℤ → ℚ := fun _ => 1

/-- Force parameters: `cutforcesq = 4`, unit grid spacings, ten rows per table. -/
def exForce (evflag : ℤ) : ForceEAM ℚ where
  cutforcesq := 4
  rdr := 1
  rdrho := 1
  nr := 10
  nrho := 10
  evflag := evflag
  me := 0
  nmax := 10
  omp_num_threads := 1
  rho := fun _ => 0
  fp := fun _ => 0
  rhor_spline := exTable
  frho_spline := exTable
  z2r_spline := exTable
  d_rhor_spline := exTable
  d_frho_spline := exTable
  d_z2r_spline := exTable
  virial := 0
  eng_vdwl := 0

/-- Atom 0 at the origin and atom 1 at `(1, 0, 0)`, both owned, no ghosts. -/
def exAtom : Atom ℚ where
  x := fun k => if k = 3 then 1 else 0
  f := fun _ => 0
  d_x := fun k => if k = 3 then 1 else 0
  d_f := fun _ => 0
  nlocal := 2
  nghost := 0
  nmax := 10

/-- Half list: atom 0 lists atom 1.  Full list: each atom lists the other. -/
def exNeighbor : Neighbor where
  neighbors := fun k => if k = 0 then 1 else 0
  numneigh := fun i => if i = 0 then 1 else 0
  d_neighbors := fun k => if k = 0 then 1 else 0
  d_numneigh := fun i => if i = 0 ∨ i = 1 then 1 else 0
  maxneighs := 4
  nmax := 10
  halfneigh := 0

/-- The same two atoms with empty neighbour lists. -/
def exNoNeighbor : Neighbor where
  neighbors := fun _ => 0
  numneigh := fun _ => 0
  d_neighbors := fun _ => 0
  d_numneigh := fun _ => 0
  maxneighs := 4
  nmax := 10
  halfneigh := 0

/-- The two atoms and a ghost, atom 2, at `(5, 0, 0)`. -/
def exAtomFar : Atom ℚ where
  x := fun k => if k = 3 then 1 else if k = 6 then 5 else 0
  f := fun _ => 0
  d_x := fun k => if k = 3 then 1 else if k = 6 then 5 else 0
  d_f := fun _ => 0
  nlocal := 2
  nghost := 1
  nmax := 10

/-- The lists of `exNeighbor` with the far atom 2 appended to the lists of atom 0. -/
def exNeighborFar : Neighbor where
  neighbors := fun k => if k = 0 then 1 else if k = 1 then 2 else 0
  numneigh := fun i => if i = 0 then 2 else 0
  d_neighbors := fun k => if k = 0 then 1 else if k = 1 then 2 else 0
  d_numneigh := fun i => if i = 0 then 2 else if i = 1 then 1 else 0
  maxneighs := 4
  nmax := 10
  halfneigh := 0

/-- A communication plan without swaps (one process, no ghosts). -/
def exComm : Comm ℚ where
  nswap := 0
  sendnum := fun _ => 0
  recvnum := fun _ => 0
  firstrecv := fun _ => 0
  sendproc := fun _ => 0
  recvproc := fun _ => 0
  sendlist := fun _ _ => 0
  buf_send := fun _ => 0
  buf_recv := fun _ => 0

/-- A table of squares, `f[m] = m^2`. -/
def exSquares : ℤ → ℚ := fun m => (m : ℚ) ^ 2

end Examples

/-! ## Reading the potential file -/

section ReadFile

variable {K : Type} [LinearOrderedField K] [FloorRing K]

/-- Counter values of `for(int i = hi; i > lo; i--)`: `hi, hi - 1, ..., lo + 1`. -/
def loopIdxDown (hi lo : ℤ) : List ℤ :=
  (List.range (hi - lo).toNat).map (fun (k : ℕ) => hi - (k : ℤ))

/-- The loop `for(int i = hi; i > lo; i--) body`, as a fold over the counter values. -/
def forLoopDown {σ : Type} (hi lo : ℤ) (body : ℤ → σ → σ) (s : σ) : σ :=
  (loopIdxDown hi lo).foldl (fun s i => body i s) s

/-- The record `struct Funcfl` (`force_eam->funcfl`): the header numbers of a DYNAMO funcfl
file and its three value blocks. -/
structure Funcfl (K : Type) where
  mass : K
  nrho : ℤ
  drho : K
  nr : ℤ
  dr : K
  cut : K
  frho : ℤ → K
  rhor : ℤ → K
  zr : ℤ → K

/-- The function `ForceEAM_read_file(force_eam, filename)`; the result is
`force_eam->funcfl` on return (`force_eam->mass` is set to its `mass`).

The argument `read` stands for the part done by `fopen`, `fgets`, `sscanf`, `ForceEAM_grab`
and `MPI_Bcast`: `none` when rank 0 cannot open the file (`flag = 1`, the function calls
`MPI_Finalize(); exit(0)`, rendered as the result `none`), otherwise the header numbers and
the three blocks of `nrho + 1`, `nr + 1`, `nr + 1` entries as `ForceEAM_grab` filled them,
the values of the file in positions `0 .. n-1`. What is modelled in full is the end of the
function, the three loops `for(int i = n; i > 0; i--) a[i] = a[i - 1]`. -/
def ForceEAM_read_file (read : Option (Funcfl K)) : Option (Funcfl K) :=
  match read with
  | none => none
  | some file =>
    let frho := forLoopDown file.nrho 0 (fun i a => update a i (a (i - 1))) file.frho
    let rhor := forLoopDown file.nr 0 (fun i a => update a i (a (i - 1))) file.rhor
    let zr := forLoopDown file.nr 0 (fun i a => update a i (a (i - 1))) file.zr
    some { file with
      frho := frho
      rhor := rhor
      zr := zr }

end ReadFile

/-! ## The command line of `main` (ljs.c)

The function `main` up to the point where the settings are handed to the simulation
objects (lines 64-439). Words of the command line are strings, `argv` is the list
`argv[0], ..., argv[argc-1]`, and `argv[argc]` is the null pointer. -/

section Main

/-- The integer and string fields of `In` that `main` reads or writes. -/
structure In where
  datafile : Option String
  units : ℤ
  forcetype : ℤ
  nx : ℤ
  ny : ℤ
  nz : ℤ
  ntimes : ℤ
  neigh_every : ℤ
  thermo_nstat : ℤ

/-- What `main` uses and ljs.c does not define: the library functions `atoi` and `getenv`,
the input-file reader `input(&in, file)` (its return value and the contents of `in` after
the call), the constants `FORCELJ` and `FORCEEAM` of force.h, whether variant.h defines
`VARIANT_REFERENCE`, and the rank `me` given by `MPI_Comm_rank`. -/
structure MainEnv where
  atoi : String → ℤ
  getenv : String → Option String
  input : String → ℤ × In
  FORCELJ : ℤ
  FORCEEAM : ℤ
  VARIANT_REFERENCE : Bool
  me : ℤ

/-- The local variables of `main` that the two option loops write, the record `in`, and
the lines printed so far (`out`). -/
structure MainVars where
  inp : In
  num_threads : ℤ
  num_steps : ℤ
  system_size : ℤ
  nx : ℤ
  ny : ℤ
  nz : ℤ
  check_safeexchange : ℤ
  do_safeexchange : ℤ
  use_sse : ℤ
  screen_yaml : ℤ
  yaml_output : ℤ
  halfneigh : ℤ
  numa : ℤ
  device : ℤ
  neighbor_size : ℤ
  input_file : Option String
  ghost_newton : ℤ
  sort : ℤ
  skip_gpu : ℤ
  ngpu : ℤ
  out : List String

/-- How a part of `main` ends: behaviour that C leaves undefined (the null pointer
`argv[argc]` passed to `atoi`, `strcmp` or `strcpy`, a remainder by zero, the `force` pointer
never set), a call of `exit(status)`, or the normal end with a result. -/
inductive Outcome (α : Type) where
  | undefined : Outcome α
  | exited (status : ℤ) : Outcome α
  | done (a : α) : Outcome α

/-- The declarations at the top of `main` (lines 66-88). The fields of `in` other than
`datafile` are not initialised there; they are written by `input` before any use and are
rendered as 0. -/
def mainInit : MainVars where
  inp := {
    datafile := none
    units := 0
    forcetype := 0
    nx := 0
    ny := 0
    nz := 0
    ntimes := 0
    neigh_every := 0
    thermo_nstat := 0 }
  num_threads := 1
  num_steps := -1
  system_size := -1
  nx := -1
  ny := -1
  nz := -1
  check_safeexchange := 0
  do_safeexchange := 0
  use_sse := 0
  screen_yaml := 0
  yaml_output := 0
  halfneigh := 0
  numa := 1
  device := 0
  neighbor_size := -1
  input_file := none
  ghost_newton := 1
  sort := -1
  skip_gpu := 99999999
  ngpu := 2
  out := []

/-- One of the three blocks of the `-dm` branch:
`if((str = getenv(name)) != NULL) { int local_rank = atoi(str); device = local_rank % ngpu;
if(device >= skip_gpu) device++; }`. The operator `%` of C is the remainder of the division
that truncates toward zero; with `ngpu = 0` it is undefined (`none`). -/
def deviceMap (M : MainEnv) (name : String) (v : MainVars) : Option MainVars :=
  match M.getenv name with
  | none => some v
  | some str =>
    let local_rank := M.atoi str
    if v.ngpu = 0 then none
    else
      let device := Int.tmod local_rank v.ngpu
      let device := if device ≥ v.skip_gpu then device + 1 else device
      some { v with device := device }

/-- The body of the `-dm` branch (lines 115-134): the blocks for `SLURM_LOCALID`,
`MV2_COMM_WORLD_LOCAL_RANK` and `OMPI_COMM_WORLD_LOCAL_RANK`, in this order. -/
def deviceMapAll (M : MainEnv) (v : MainVars) : Option MainVars :=
  (deviceMap M "SLURM_LOCALID" v).bind
    (fun v => (deviceMap M "MV2_COMM_WORLD_LOCAL_RANK" v).bind
      (fun v => deviceMap M "OMPI_COMM_WORLD_LOCAL_RANK" v))

/-- The first loop over the command line (lines 93-142), on the words `argv[i], ...,
argv[argc-1]` still to be looked at. A branch `x = atoi(argv[++i]); continue;` takes the next
word as its value and goes on behind it; when there is no next word `argv[++i]` is the null
pointer. A word that matches no branch is passed over. -/
def deviceLoop (M : MainEnv) : List String → MainVars → Outcome MainVars
  | [], v => .done v
  | a :: rest, v =>
    if a = "-t" ∨ a = "--num_threads" then
      match rest with
      | [] => .undefined
      | x :: rest => deviceLoop M rest { v with num_threads := M.atoi x }
    else if a = "-i" ∨ a = "--input_file" then
      match rest with
      | [] => .done { v with input_file := none }
      | x :: rest => deviceLoop M rest { v with input_file := some x }
    else if a = "-d" ∨ a = "--device" then
      match rest with
      | [] => .undefined
      | x :: rest => deviceLoop M rest { v with device := M.atoi x }
    else if a = "-ng" ∨ a = "--num_gpus" then
      match rest with
      | [] => .undefined
      | x :: rest => deviceLoop M rest { v with ngpu := M.atoi x }
    else if a = "--skip_gpu" then
      match rest with
      | [] => .undefined
      | x :: rest => deviceLoop M rest { v with skip_gpu := M.atoi x }
    else if a = "-dm" ∨ a = "--device_map" then
      match deviceMapAll M v with
      | none => .undefined
      | some v => deviceLoop M rest v
    else deviceLoop M rest v

/-- The second loop over the command line (lines 163-310), on the words still to be looked
at; the branches are those of the source, in its order. The branch of `--half_neigh` reads
its value and prints a warning when it is not 0; its assignment to `halfneigh` is commented
out in the source. The branch of `-f` copies the word into `in.datafile` (the copy is taken
to fit the buffer of 1000 bytes). The branch of `-h` prints the help text and calls
`exit(0)`. A word that matches no branch is passed over. -/
def optionLoop (M : MainEnv) : List String → MainVars → Outcome MainVars
  | [], v => .done v
  | a :: rest, v =>
    if a = "-t" ∨ a = "--num_threads" then
      match rest with
      | [] => .undefined
      | x :: rest => optionLoop M rest { v with num_threads := M.atoi x }
    else if a = "--numa" then
      match rest with
      | [] => .undefined
      | x :: rest => optionLoop M rest { v with numa := M.atoi x }
    else if a = "-n" ∨ a = "--nsteps" then
      match rest with
      | [] => .undefined
      | x :: rest => optionLoop M rest { v with num_steps := M.atoi x }
    else if a = "-s" ∨ a = "--size" then
      match rest with
      | [] => .undefined
      | x :: rest => optionLoop M rest { v with system_size := M.atoi x }
    else if a = "-nx" then
      match rest with
      | [] => .undefined
      | x :: rest => optionLoop M rest { v with nx := M.atoi x }
    else if a = "-ny" then
      match rest with
      | [] => .undefined
      | x :: rest => optionLoop M rest { v with ny := M.atoi x }
    else if a = "-nz" then
      match rest with
      | [] => .undefined
      | x :: rest => optionLoop M rest { v with nz := M.atoi x }
    else if a = "-b" ∨ a = "--neigh_bins" then
      match rest with
      | [] => .undefined
      | x :: rest => optionLoop M rest { v with neighbor_size := M.atoi x }
    else if a = "--half_neigh" then
      match rest with
      | [] => .undefined
      | x :: rest =>
        optionLoop M rest
          (if M.atoi x ≠ 0 then
            { v with out := v.out ++
                ["WARNING: The OpenACC variant can only be run with --half_neigh 0! Ignoring user request."] }
          else v)
    else if a = "-sse" then
      match rest with
      | [] => .undefined
      | x :: rest => optionLoop M rest { v with use_sse := M.atoi x }
    else if a = "--check_exchange" then
      optionLoop M rest { v with check_safeexchange := 1 }
    else if a = "--sort" then
      match rest with
      | [] => .undefined
      | x :: rest => optionLoop M rest { v with sort := M.atoi x }
    else if a = "-o" ∨ a = "--yaml_output" then
      match rest with
      | [] => .undefined
      | x :: rest => optionLoop M rest { v with yaml_output := M.atoi x }
    else if a = "--yaml_screen" then
      optionLoop M rest { v with screen_yaml := 1 }
    else if a = "-f" ∨ a = "--data_file" then
      match rest with
      | [] => .undefined
      | x :: rest => optionLoop M rest { v with inp := { v.inp with datafile := some x } }
    else if a = "-u" ∨ a = "--units" then
      match rest with
      | [] => .undefined
      | x :: rest =>
        optionLoop M rest { v with inp := { v.inp with units := if x = "metal" then 1 else 0 } }
    else if a = "-p" ∨ a = "--force" then
      match rest with
      | [] => .undefined
      | x :: rest =>
        optionLoop M rest
          { v with inp := { v.inp with forcetype := if x = "eam" then M.FORCEEAM else M.FORCELJ } }
    else if a = "-gn" ∨ a = "--ghost_newton" then
      match rest with
      | [] => .undefined
      | x :: rest => optionLoop M rest { v with ghost_newton := M.atoi x }
    else if a = "-h" ∨ a = "--help" then .exited 0
    else optionLoop M rest v

/-- The settings `main` has handed to the simulation objects when it starts to create the
system (line 441): the record `in`, the device, and the fields of `threads`, `neighbor`,
`comm`, `force`, `integrate` and `thermo` that lines 338-439 set from integers. The field
`force_use_oldcompute` is `some 1` when line 378 stores 1 and `none` when `main` leaves the
field as the allocator set it. -/
structure Settings where
  inp : In
  device : ℤ
  input_file : Option String
  threads_omp_num_threads : ℤ
  neighbor_ghost_newton : ℤ
  neighbor_halfneigh : ℤ
  neighbor_every : ℤ
  comm_check_safeexchange : ℤ
  comm_do_safeexchange : ℤ
  force_use_sse : ℤ
  force_use_oldcompute : Option ℤ
  integrate_ntimes : ℤ
  integrate_sort_every : ℤ
  thermo_nstat : ℤ
  out : List String

/-- Lines 338-347: for EAM a `ghost_newton` of 1 is changed to 0, with a message on rank 0. -/
def eamGhostNewton (M : MainEnv) (v : MainVars) : MainVars :=
  if v.inp.forcetype = M.FORCEEAM then
    if v.ghost_newton = 1 then
      { v with
        ghost_newton := 0
        out := if M.me = 0 then
            v.out ++ ["# EAM currently requires '--ghost_newton 0'; Changing setting now."]
          else v.out }
    else v
  else v

/-- Lines 390-409: the run length and the box size in unit cells. -/
def boxSize (v : MainVars) : In :=
  let inp := v.inp
  let inp := if v.num_steps > 0 then { inp with ntimes := v.num_steps } else inp
  let inp :=
    if v.system_size > 0 then
      { inp with
        nx := v.system_size
        ny := v.system_size
        nz := v.system_size }
    else inp
  if v.nx > 0 then
    let inp := { inp with nx := v.nx }
    let inp :=
      if v.ny > 0 then { inp with ny := v.ny }
      else if v.system_size < 0 then { inp with ny := v.nx }
      else inp
    if v.nz > 0 then { inp with nz := v.nz }
    else if v.system_size < 0 then { inp with nz := v.nx }
    else inp
  else inp

/-- Lines 313-439 of `main`, from the variables left by the option loops. When
`in.forcetype` is neither `FORCEEAM` nor `FORCELJ` the pointer `force` is never set and
`force->threads = ...` is undefined. With `-sse` and `VARIANT_REFERENCE` the program prints
an error and calls `exit(0)`. The bin counts of `neighbor` (lines 411-431) and the
floating-point settings are not part of the record. -/
def mainSettings (M : MainEnv) (v : MainVars) : Outcome Settings :=
  let v := eamGhostNewton M v
  if v.inp.forcetype ≠ M.FORCEEAM ∧ v.inp.forcetype ≠ M.FORCELJ then .undefined
  else if v.use_sse ≠ 0 ∧ M.VARIANT_REFERENCE = true then .exited 0
  else
    let inp := boxSize v
    .done {
      inp := inp
      device := v.device
      input_file := v.input_file
      threads_omp_num_threads := v.num_threads
      neighbor_ghost_newton := v.ghost_newton
      neighbor_halfneigh := v.halfneigh
      neighbor_every := inp.neigh_every
      comm_check_safeexchange := v.check_safeexchange
      comm_do_safeexchange := v.do_safeexchange
      force_use_sse := v.use_sse
      force_use_oldcompute := if v.halfneigh < 0 then some 1 else none
      integrate_ntimes := inp.ntimes
      integrate_sort_every :=
        if v.sort > 0 then v.sort else (if v.sort < 0 then inp.neigh_every else 0)
      thermo_nstat := inp.thermo_nstat
      out := v.out }

/-- The name passed to `input`: `input_file`, or `"in.lj.miniMD"` when it is the null
pointer (lines 153-156). -/
def inputName (input_file : Option String) : String :=
  match input_file with
  | none => "in.lj.miniMD"
  | some file => file

/-- The function `main(argc, argv)` up to line 439: first loop, `input`, second loop,
settings. A result `done s` means that `main` goes on to create the system and to run the
simulation with the settings `s`; that part ends in `return 0` (line 594). `MPI_Init` is
taken to leave `argc` and `argv` as they are. -/
def main (M : MainEnv) (argv : List String) : Outcome Settings :=
  match deviceLoop M argv mainInit with
  | .undefined => .undefined
  | .exited status => .exited status
  | .done v =>
    let r := M.input (inputName v.input_file)
    if r.1 ≠ 0 then .exited 0
    else
      match optionLoop M argv { v with inp := r.2 } with
      | .undefined => .undefined
      | .exited status => .exited status
      | .done v => mainSettings M v

/-- The exit status of the process: the argument of `exit`, or the 0 of `return 0` at the
end of `main` for a run that got through the simulation part. -/
def exitStatus (o : Outcome Settings) : Option ℤ :=
  match o with
  | .undefined => none
  | .exited status => some status
  | .done _ => some 0

end Main

/-! ## Reading a command line -/

section MainSpec

/-- The flags of the second loop whose branch takes the next word as a value. -/
def valueFlags : List String :=
  ["-t", "--num_threads", "--numa", "-n", "--nsteps", "-s", "--size", "-nx", "-ny", "-nz",
   "-b", "--neigh_bins", "--half_neigh", "-sse", "--sort", "-o", "--yaml_output",
   "-f", "--data_file", "-u", "--units", "-p", "--force", "-gn", "--ghost_newton"]

/-- The flags of the first loop whose branch takes the next word as a value. -/
def deviceFlags : List String :=
  ["-t", "--num_threads", "-i", "--input_file", "-d", "--device", "-ng", "--num_gpus",
   "--skip_gpu"]

/-- Every word that one of the two loops of `main` compares `argv[i]` with. -/
def knownFlags : List String :=
  deviceFlags ++ ["-dm", "--device_map"] ++ valueFlags ++
    ["--check_exchange", "--yaml_screen", "-h", "--help"]

/-- The variables after the branch of the value flag `a` of the second loop has read the
value `x`; for a word that is no value flag of that loop, the variables as they are. -/
def optionValue (M : MainEnv) (a x : String) (v : MainVars) : MainVars :=
  if a = "-t" ∨ a = "--num_threads" then { v with num_threads := M.atoi x }
  else if a = "--numa" then { v with numa := M.atoi x }
  else if a = "-n" ∨ a = "--nsteps" then { v with num_steps := M.atoi x }
  else if a = "-s" ∨ a = "--size" then { v with system_size := M.atoi x }
  else if a = "-nx" then { v with nx := M.atoi x }
  else if a = "-ny" then { v with ny := M.atoi x }
  else if a = "-nz" then { v with nz := M.atoi x }
  else if a = "-b" ∨ a = "--neigh_bins" then { v with neighbor_size := M.atoi x }
  else if a = "--half_neigh" then
    (if M.atoi x ≠ 0 then
      { v with out := v.out ++
          ["WARNING: The OpenACC variant can only be run with --half_neigh 0! Ignoring user request."] }
    else v)
  else if a = "-sse" then { v with use_sse := M.atoi x }
  else if a = "--sort" then { v with sort := M.atoi x }
  else if a = "-o" ∨ a = "--yaml_output" then { v with yaml_output := M.atoi x }
  else if a = "-f" ∨ a = "--data_file" then { v with inp := { v.inp with datafile := some x } }
  else if a = "-u" ∨ a = "--units" then
    { v with inp := { v.inp with units := if x = "metal" then 1 else 0 } }
  else if a = "-p" ∨ a = "--force" then
    { v with inp := { v.inp with forcetype := if x = "eam" then M.FORCEEAM else M.FORCELJ } }
  else if a = "-gn" ∨ a = "--ghost_newton" then { v with ghost_newton := M.atoi x }
  else v

/-- The variables after the branch of the value flag `a` of the first loop has read the
value `x`; for a word that is no value flag of that loop, the variables as they are. -/
def deviceValue (M : MainEnv) (a x : String) (v : MainVars) : MainVars :=
  if a = "-t" ∨ a = "--num_threads" then { v with num_threads := M.atoi x }
  else if a = "-i" ∨ a = "--input_file" then { v with input_file := some x }
  else if a = "-d" ∨ a = "--device" then { v with device := M.atoi x }
  else if a = "-ng" ∨ a = "--num_gpus" then { v with ngpu := M.atoi x }
  else if a = "--skip_gpu" then { v with skip_gpu := M.atoi x }
  else v

/-- Spec-side reading of "the flag is given with value `x`": the word after the last
occurrence of one of `names` among the words that the second loop looks at as flags, that
is, the words that are not taken as the value of a value flag before them. -/
def specGiven (names : List String) : List String → Option String
  | [] => none
  | a :: rest =>
    if a ∈ valueFlags then
      match rest with
      | [] => none
      | x :: rest =>
        match specGiven names rest with
        | some y => some y
        | none => if a ∈ names then some x else none
    else specGiven names rest

/-- Spec-side reading of "the number given for the flag": `atoi` of the value the flag is
given with, or `dflt` when the flag is not given. -/
def specValue (M : MainEnv) (names : List String) (dflt : ℤ) (argv : List String) : ℤ :=
  match specGiven names argv with
  | some x => M.atoi x
  | none => dflt

/-- Spec-side reading of "the switch is present": the word occurs among the words that the
second loop looks at as flags. -/
def specPresent (name : String) : List String → Bool
  | [] => false
  | a :: rest =>
    if a ∈ valueFlags then
      match rest with
      | [] => false
      | _ :: rest => specPresent name rest
    else a = name || specPresent name rest

/-- Spec-side reading of "the words before an argument are whole items": each word is a
flag of one of the loops followed by a value that is itself no flag, or a word that takes
no value. An argument that follows such words is not the value of a flag before it. -/
def wholeItems : List String → Bool
  | [] => true
  | a :: rest =>
    if a ∈ deviceFlags ∨ a ∈ valueFlags then
      match rest with
      | [] => false
      | x :: rest => decide (x ∉ knownFlags) && wholeItems rest
    else wholeItems rest

end MainSpec

/-! ## More concrete inputs -/

section Examples2

/-- A communication plan with one swap to self: one value, taken from atom 0, received
into cell 2. -/
def exCommSelf : Comm ℚ where
  nswap := 1
  sendnum := fun _ => 1
  recvnum := fun _ => 1
  firstrecv := fun _ => 2
  sendproc := fun _ => 0
  recvproc := fun _ => 0
  sendlist := fun _ _ => 0
  buf_send := fun _ => 0
  buf_recv := fun _ => 0

/-- The record `in` of the example runs: LJ, a box of 32 cells each way, 100 steps,
neighbour lists rebuilt every 20 steps. -/
def exIn : In where
  datafile := none
  units := 0
  forcetype := 0
  nx := 32
  ny := 32
  nz := 32
  ntimes := 100
  neigh_every := 20
  thermo_nstat := 10

/-- A table for `atoi` on the number words of the example command lines. -/
def exAtoi (s : String) : ℤ :=
  if s = "1" then 1
  else if s = "2" then 2
  else if s = "3" then 3
  else if s = "4" then 4
  else if s = "5" then 5
  else 0

/-- An environment in which `input` succeeds with `exIn`, `FORCELJ = 0`, `FORCEEAM = 1`,
no local-rank variable is set and `VARIANT_REFERENCE` is not defined. -/
def exMain : MainEnv where
  atoi := exAtoi
  getenv := fun _ => none
  input := fun _ => (0, exIn)
  FORCELJ := 0
  FORCEEAM := 1
  VARIANT_REFERENCE := false
  me := 0

/-- The environment `exMain` with an input file that cannot be read: `input` returns 1. -/
def exMainBad : MainEnv where
  atoi := exAtoi
  getenv := fun _ => none
  input := fun _ => (1, exIn)
  FORCELJ := 0
  FORCEEAM := 1
  VARIANT_REFERENCE := false
  me := 0

/-- The environment `exMain` on a node where `SLURM_LOCALID` is 3. -/
def exMainSlurm : MainEnv where
  atoi := exAtoi
  getenv := fun name => if name = "SLURM_LOCALID" then some "3" else none
  input := fun _ => (0, exIn)
  FORCELJ := 0
  FORCEEAM := 1
  VARIANT_REFERENCE := false
  me := 0

end Examples2

/-! ## Dispatch, re-gridding, accesses of the spline builder, range strings -/

section Setup2

variable {K : Type} [LinearOrderedField K] [FloorRing K]

/-- The function `ForceEAM_compute(force_eam, atom, neighbor, comm, me)` (lines 83-96); the
field `omp_num_threads` stands for `force_eam->threads->omp_num_threads`. -/
def ForceEAM_compute (E : Env K) (force_eam : ForceEAM K) (atom : Atom K)
    (neighbor : Neighbor) (comm : Comm K) : ForceEAM K × Atom K × Comm K :=
  if neighbor.halfneigh ≠ 0 then
    if force_eam.omp_num_threads > 1 then (force_eam, atom, comm)
    else ForceEAM_compute_halfneigh E force_eam atom neighbor comm
  else ForceEAM_compute_fullneigh E force_eam atom neighbor comm

/-- Row and offset of the four-point formula of `ForceEAM_file2array` for the grid point
`m`: `r = (m-1)*spacing; p = r/fileSpacing + 1.0; k = (int)(p); k = MIN(k, fileN-2);
k = MAX(k, 2); p -= k; p = MIN(p, 2.0)`, with `MIN(a,b) = (a<b?a:b)` and
`MAX(a,b) = (a>b?a:b)`. -/
def regridRow (spacing fileSpacing : K) (fileN : ℤ) (m : ℤ) : ℤ × K :=
  let r := ((m - 1 : ℤ) : K) * spacing
  let p := r / fileSpacing + 1.0
  let k := cTrunc p
  let k := if k < fileN - 2 then k else fileN - 2
  let k := if k > 2 then k else 2
  let p := p - (k : K)
  let p := if p < 2.0 then p else 2.0
  (k, p)

/-- The block that `ForceEAM_file2array` repeats for `frho`, `rhor`, `zri` and `zrj`: the
weights `cof1 .. cof4` at the offset `p` and the weighted sum of the file entries
`k-1 .. k+2`; `sixth = 1.0 / 6.0`. -/
def regrid (spacing fileSpacing : K) (fileN : ℤ) (table : ℤ → K) (m : ℤ) : K :=
  let sixth : K := 1.0 / 6.0
  let kp := regridRow spacing fileSpacing fileN m
  let k := kp.1
  let p := kp.2
  let cof1 := -sixth * p * (p - 1.0) * (p - 2.0)
  let cof2 := 0.5 * (p * p - 1.0) * (p - 2.0)
  let cof3 := -0.5 * p * (p + 1.0) * (p - 2.0)
  let cof4 := sixth * p * (p * p - 1.0)
  cof1 * table (k - 1) + cof2 * table k + cof3 * table (k + 1) + cof4 * table (k + 2)

/-- The fields of `force_eam` that `ForceEAM_file2array` writes. -/
structure Arrays (K : Type) where
  dr : K
  drho : K
  nr : ℤ
  nrho : ℤ
  frho : ℤ → K
  rhor : ℤ → K
  z2r : ℤ → K

/-- The function `ForceEAM_file2array(force_eam)` (lines 609-748) on the record
`force_eam->funcfl`; the result is the fields it writes. The arguments `frho0`, `rhor0`,
`z2r0` are the contents of the three blocks as `malloc` returns them. -/
def ForceEAM_file2array (file : Funcfl K) (frho0 rhor0 z2r0 : ℤ → K) : Arrays K :=
  let dr : K := if (0.0 : K) > file.dr then 0.0 else file.dr
  let drho : K := if (0.0 : K) > file.drho then 0.0 else file.drho
  let rmax : K := if (0.0 : K) > ((file.nr - 1 : ℤ) : K) * file.dr then 0.0
    else ((file.nr - 1 : ℤ) : K) * file.dr
  let rhomax : K := if (0.0 : K) > ((file.nrho - 1 : ℤ) : K) * file.drho then 0.0
    else ((file.nrho - 1 : ℤ) : K) * file.drho
  let nr := cTrunc (rmax / dr + 0.5)
  let nrho := cTrunc (rhomax / drho + 0.5)
  let frho := forLoop 1 (nrho + 1)
    (fun m a => update a m (regrid drho file.drho file.nrho file.frho m)) frho0
  let rhor := forLoop 1 (nr + 1)
    (fun m a => update a m (regrid dr file.dr file.nr file.rhor m)) rhor0
  let z2r := forLoop 1 (nr + 1)
    (fun m a =>
      let zri := regrid dr file.dr file.nr file.zr m
      let zrj := regrid dr file.dr file.nr file.zr m
      update a m (27.2 * 0.529 * zri * zrj)) z2r0
  { dr := dr
    drho := drho
    nr := nr
    nrho := nrho
    frho := frho
    rhor := rhor
    z2r := z2r }

end Setup2

section Accesses

/-- A record of the accesses of a call: which cells of `spline` have been written in the
call, and whether so far every index was in bounds and every cell read had been written
before. -/
structure Access where
  written : ℤ → Bool
  ok : Bool

/-- One assignment `spline[w] = e` of `ForceEAM_interpolate`, where `e` reads the cells `rs`
of `spline` and the entries `fs` of `f`. In bounds means inside the rows `1 .. n` of
`spline`, the offsets `7 .. 7*(n+1) - 1` of a block of `(n+1)*7` values (lines 757-759),
and inside `1 .. n` for `f`. -/
def assign (n : ℤ) (rs fs : List ℤ) (w : ℤ) (a : Access) : Access :=
  { written := Function.update a.written w true
    ok := a.ok && rs.all (fun r => decide (7 ≤ r ∧ r < 7 * (n + 1)) && a.written r) &&
      fs.all (fun d => decide (1 ≤ d ∧ d ≤ n)) && decide (7 ≤ w ∧ w < 7 * (n + 1)) }

/-- The accesses of line 784. -/
def accessFill (n : ℤ) (a : Access) : Access :=
  forLoop 1 (n + 1) (fun m a => assign n [] [m] (m * 7 + 6) a) a

/-- The accesses of lines 786 to 789. -/
def accessEnds (n : ℤ) (a : Access) : Access :=
  let a := assign n [2 * 7 + 6, 1 * 7 + 6] [] (1 * 7 + 5) a
  let a := assign n [3 * 7 + 6, 1 * 7 + 6] [] (2 * 7 + 5) a
  let a := assign n [n * 7 + 6, (n - 2) * 7 + 6] [] ((n - 1) * 7 + 5) a
  assign n [n * 7 + 6, (n - 1) * 7 + 6] [] (n * 7 + 5) a

/-- The accesses of lines 791 to 793. -/
def accessInner (n : ℤ) (a : Access) : Access :=
  forLoop 3 (n - 2 + 1) (fun m a =>
    assign n [(m - 2) * 7 + 6, (m + 2) * 7 + 6, (m + 1) * 7 + 6, (m - 1) * 7 + 6] []
      (m * 7 + 5) a) a

/-- The accesses of lines 795 to 803. -/
def accessCubic (n : ℤ) (a : Access) : Access :=
  let a := forLoop 1 (n - 1 + 1) (fun m a =>
    let a := assign n [(m + 1) * 7 + 6, m * 7 + 6, m * 7 + 5, (m + 1) * 7 + 5] []
      (m * 7 + 4) a
    assign n [m * 7 + 5, (m + 1) * 7 + 5, (m + 1) * 7 + 6, m * 7 + 6] [] (m * 7 + 3) a) a
  let a := assign n [] [] (n * 7 + 4) a
  assign n [] [] (n * 7 + 3) a

/-- The accesses of lines 805 to 809. -/
def accessScale (n : ℤ) (a : Access) : Access :=
  forLoop 1 (n + 1) (fun m a =>
    let a := assign n [m * 7 + 5] [] (m * 7 + 2) a
    let a := assign n [m * 7 + 4] [] (m * 7 + 1) a
    assign n [m * 7 + 3] [] (m * 7 + 0) a) a

/-- The accesses of a call `ForceEAM_interpolate(force_eam, n, delta, f, spline)`,
statement by statement as in `ForceEAM_interpolate` above. -/
def interpolateAccess (n : ℤ) (a : Access) : Access :=
  accessScale n (accessCubic n (accessInner n (accessEnds n (accessFill n a))))

end Accesses

section Bounds

/-- The function `ForceEAM_bounds(force_eam, str, nmax, &nlo, &nhi)` (lines 983-1004) on a
string given as its characters; the result is `(*nlo, *nhi, printed)`, where `printed`
tells whether the message was printed. The pointer `ptr = strchr(str, '*')` is the rest of
`str` from its first `*` on (empty for the null pointer), `ptr + 1` is its tail, and `atoi`
is the library function. -/
def ForceEAM_bounds (atoi : List Char → ℤ) (str : List Char) (nmax : ℤ) : ℤ × ℤ × Bool :=
  let ptr := str.dropWhile (fun c => c != '*')
  let r : ℤ × ℤ :=
    if ptr = [] then (atoi str, atoi str)
    else if str.length = 1 then (1, nmax)
    else if ptr = str then (1, atoi ptr.tail)
    else if ptr.tail.length = 0 then (atoi str, nmax)
    else (atoi str, atoi ptr.tail)
  (r.1, r.2, decide (r.1 < 1 ∨ r.2 > nmax))

/-- The value of the decimal digits at the start of a string, after `acc`. -/
def exDigits : List Char → ℤ → ℤ
  | [], acc => acc
  | c :: cs, acc => if c.isDigit then exDigits cs (acc * 10 + ((c.toNat - 48 : ℕ) : ℤ)) else acc

/-- An `atoi` for unsigned decimal numbers: the value of the leading digits. -/
def exAtoiChars (s : List Char) : ℤ := exDigits s 0

end Bounds

section Examples3

/-- A potential file with five grid points each way, spacing 1, and squares as values
(entries 1 to 5 after the shift). -/
def exFuncfl : Funcfl ℚ where
  mass := 1
  nrho := 5
  drho := 1
  nr := 5
  dr := 1
  cut := 4
  frho := fun m => (m : ℚ) ^ 2
  rhor := fun m => (m : ℚ) ^ 2
  zr := fun m => (m : ℚ) ^ 2

/-- The force object `exForce 0` with `fp = 1` for every atom. -/
def exForceFp : ForceEAM ℚ :=
  { exForce 0 with fp := fun _ => 1 }

end Examples3

/-! ## Loops -/

theorem loopIdx_mem {lo hi i : ℤ} : i ∈ loopIdx lo hi ↔ lo ≤ i ∧ i < hi := by
  unfold loopIdx
  simp only [List.mem_map, List.mem_range]
  constructor
  · rintro ⟨k, hk, rfl⟩
    have : (k:ℤ) < (hi - lo).toNat := by exact_mod_cast hk
    omega
  · rintro ⟨h1, h2⟩
    exact ⟨(i - lo).toNat, by omega, by omega⟩

theorem loopIdx_empty {lo hi : ℤ} (h : hi ≤ lo) : loopIdx lo hi = [] := by
  unfold loopIdx
  have : (hi - lo).toNat = 0 := by omega
  simp [this]

theorem loopIdx_snoc {lo hi : ℤ} (h : lo ≤ hi) : loopIdx lo (hi + 1) = loopIdx lo hi ++ [hi] := by
  unfold loopIdx
  have : (hi + 1 - lo).toNat = (hi - lo).toNat + 1 := by omega
  rw [this, List.range_succ, List.map_append]
  simp
  omega

theorem loopIdx_append {lo m hi : ℤ} (h1 : lo ≤ m) (h2 : m ≤ hi) :
    loopIdx lo hi = loopIdx lo m ++ loopIdx m hi := by
  obtain ⟨k, rfl⟩ : ∃ k : ℕ, hi = m + k := ⟨(hi - m).toNat, by omega⟩
  induction k with
  | zero => simp [loopIdx_empty (le_refl m)]
  | succ k ih =>
    have e : m + ((k + 1 : ℕ) : ℤ) = (m + k) + 1 := by push_cast; ring
    rw [e, loopIdx_snoc (by omega), loopIdx_snoc (by omega), ih (by omega), List.append_assoc]

section
variable {σ α : Type}

theorem foldl_frame (l : List ℤ) (body : ℤ → σ → σ) (P : σ → α)
    (h : ∀ i ∈ l, ∀ s, P (body i s) = P s) (s0 : σ) :
    P (l.foldl (fun s i => body i s) s0) = P s0 := by
  induction l generalizing s0 with
  | nil => rfl
  | cons a l ih =>
    rw [List.foldl_cons, ih (fun i hi => h i (List.mem_cons_of_mem _ hi)), h a (List.mem_cons_self _ _)]

theorem forLoop_frame (lo hi : ℤ) (body : ℤ → σ → σ) (P : σ → α)
    (h : ∀ i, lo ≤ i → i < hi → ∀ s, P (body i s) = P s) (s0 : σ) :
    P (forLoop lo hi body s0) = P s0 :=
  foldl_frame _ body P (fun i hi s => h i (loopIdx_mem.1 hi).1 (loopIdx_mem.1 hi).2 s) s0

theorem forLoop_empty {lo hi : ℤ} (h : hi ≤ lo) (body : ℤ → σ → σ) (s0 : σ) :
    forLoop lo hi body s0 = s0 := by
  unfold forLoop; rw [loopIdx_empty h]; rfl

theorem forLoop_split {lo m hi : ℤ} (h1 : lo ≤ m) (h2 : m ≤ hi) (body : ℤ → σ → σ) (s0 : σ) :
    forLoop lo hi body s0 = forLoop m hi body (forLoop lo m body s0) := by
  unfold forLoop; rw [loopIdx_append h1 h2, List.foldl_append]

theorem forLoop_last {lo hi : ℤ} (h : lo ≤ hi) (body : ℤ → σ → σ) (s0 : σ) :
    forLoop lo (hi + 1) body s0 = body hi (forLoop lo hi body s0) := by
  unfold forLoop; rw [loopIdx_snoc h, List.foldl_append]; rfl

/-- What a loop leaves in an observable `P` that only iteration `m` touches. -/
theorem forLoop_at {lo m hi : ℤ} (h1 : lo ≤ m) (h2 : m < hi) (body : ℤ → σ → σ) (P : σ → α)
    (h : ∀ i, m < i → i < hi → ∀ s, P (body i s) = P s) (s0 : σ) :
    P (forLoop lo hi body s0) = P (body m (forLoop lo m body s0)) := by
  rw [forLoop_split (show lo ≤ m + 1 by omega) (show m + 1 ≤ hi by omega),
    forLoop_frame (m + 1) hi body P (fun i hi1 hi2 s => h i (by omega) hi2 s),
    forLoop_last h1]
end

section
variable {β : Type}

theorem forLoop_cell_frame (lo hi : ℤ) (body : ℤ → (ℤ → β) → (ℤ → β)) (t : ℤ)
    (h : ∀ i, lo ≤ i → i < hi → ∀ s, body i s t = s t) (s0 : ℤ → β) :
    forLoop lo hi body s0 t = s0 t :=
  forLoop_frame lo hi body (fun s => s t) h s0

theorem forLoop_cell_at {lo m hi : ℤ} (h1 : lo ≤ m) (h2 : m < hi)
    (body : ℤ → (ℤ → β) → (ℤ → β)) (t : ℤ)
    (h : ∀ i, m < i → i < hi → ∀ s, body i s t = s t) (s0 : ℤ → β) :
    forLoop lo hi body s0 t = body m (forLoop lo m body s0) t :=
  forLoop_at h1 h2 body (fun s => s t) h s0
end

/-! ## Spline construction and lookup -/

section
variable {K : Type} [LinearOrderedField K]

omit [LinearOrderedField K] in
theorem interpolateFill_row (n : ℤ) (f spline : ℤ → K) (m : ℤ) (h1 : 1 ≤ m) (h2 : m ≤ n) :
    interpolateFill n f spline (m * 7 + 6) = f m := by
  unfold interpolateFill
  rw [forLoop_cell_at h1 (by omega : m < n + 1)]
  · simp
  · intro i hi1 hi2 s
    rw [update_noteq (by omega)]

theorem interpolateEnds_frame (n : ℤ) (s : ℤ → K) (t : ℤ) (ht : t % 7 ≠ 5) :
    interpolateEnds n s t = s t := by
  unfold interpolateEnds
  rw [update_noteq (by omega), update_noteq (by omega), update_noteq (by omega),
    update_noteq (by omega)]

theorem interpolateInner_frame (n : ℤ) (s : ℤ → K) (t : ℤ) (ht : t % 7 ≠ 5) :
    interpolateInner n s t = s t := by
  unfold interpolateInner
  apply forLoop_cell_frame
  intro i _ _ s
  rw [update_noteq (by omega)]

theorem interpolateInner_outer (n : ℤ) (s : ℤ → K) (m : ℤ) (hm : m < 3 ∨ n - 2 < m) :
    interpolateInner n s (m * 7 + 5) = s (m * 7 + 5) := by
  unfold interpolateInner
  apply forLoop_cell_frame
  intro i _ _ s
  rw [update_noteq (by omega)]

theorem interpolateInner_row (n : ℤ) (s : ℤ → K) (m : ℤ) (h1 : 3 ≤ m) (h2 : m ≤ n - 2) :
    interpolateInner n s (m * 7 + 5) =
      ((s ((m - 2) * 7 + 6) - s ((m + 2) * 7 + 6)) +
        8 * (s ((m + 1) * 7 + 6) - s ((m - 1) * 7 + 6))) / 12 := by
  have hfr : ∀ k t, t % 7 ≠ 5 → forLoop 3 k (fun m (s : ℤ → K) =>
    update s (m * 7 + 5)
      (((s ((m - 2) * 7 + 6) - s ((m + 2) * 7 + 6)) +
        8.0 * (s ((m + 1) * 7 + 6) - s ((m - 1) * 7 + 6))) / 12.0)) s t = s t := by
    intro k t ht
    apply forLoop_cell_frame
    intro i _ _ s
    rw [update_noteq (by omega)]
  unfold interpolateInner
  rw [forLoop_cell_at h1 (by omega : m < n - 2 + 1)]
  · rw [update_same, hfr _ _ (by omega), hfr _ _ (by omega), hfr _ _ (by omega), hfr _ _ (by omega)]
    norm_num
  · intro i hi1 hi2 s
    rw [update_noteq (by omega)]

theorem interpolateCubic_frame (n : ℤ) (s : ℤ → K) (t : ℤ) (ht : t % 7 ≠ 3 ∧ t % 7 ≠ 4) :
    interpolateCubic n s t = s t := by
  unfold interpolateCubic
  rw [update_noteq (by omega), update_noteq (by omega)]
  apply forLoop_cell_frame
  intro i _ _ s
  rw [update_noteq (by omega), update_noteq (by omega)]

theorem interpolateCubic_row (n : ℤ) (s : ℤ → K) (m : ℤ) (h1 : 1 ≤ m) (h2 : m ≤ n - 1) :
    interpolateCubic n s (m * 7 + 4) =
        3 * (s ((m + 1) * 7 + 6) - s (m * 7 + 6)) - 2 * s (m * 7 + 5) - s ((m + 1) * 7 + 5) ∧
    interpolateCubic n s (m * 7 + 3) =
        s (m * 7 + 5) + s ((m + 1) * 7 + 5) - 2 * (s ((m + 1) * 7 + 6) - s (m * 7 + 6)) := by
  have hfr : ∀ k t, (t % 7 ≠ 3 ∧ t % 7 ≠ 4) → forLoop 1 k (fun m (s : ℤ → K) =>
    let s := update s (m * 7 + 4)
      (3.0 * (s ((m + 1) * 7 + 6) - s (m * 7 + 6)) -
        2.0 * s (m * 7 + 5) - s ((m + 1) * 7 + 5))
    update s (m * 7 + 3)
      (s (m * 7 + 5) + s ((m + 1) * 7 + 5) -
        2.0 * (s ((m + 1) * 7 + 6) - s (m * 7 + 6)))) s t = s t := by
    intro k t ht
    apply forLoop_cell_frame
    intro i _ _ s
    rw [update_noteq (by omega), update_noteq (by omega)]
  unfold interpolateCubic
  constructor
  · rw [update_noteq (by omega), update_noteq (by omega),
      forLoop_cell_at h1 (by omega : m < n - 1 + 1)]
    · rw [update_noteq (by omega), update_same, hfr _ _ (by omega), hfr _ _ (by omega),
        hfr _ _ (by omega), hfr _ _ (by omega)]
      norm_num
    · intro i hi1 hi2 s
      rw [update_noteq (by omega), update_noteq (by omega)]
  · rw [update_noteq (by omega), update_noteq (by omega),
      forLoop_cell_at h1 (by omega : m < n - 1 + 1)]
    · rw [update_same, update_noteq (by omega), update_noteq (by omega), update_noteq (by omega),
        update_noteq (by omega), hfr _ _ (by omega), hfr _ _ (by omega),
        hfr _ _ (by omega), hfr _ _ (by omega)]
      norm_num
    · intro i hi1 hi2 s
      rw [update_noteq (by omega), update_noteq (by omega)]

theorem interpolateScale_frame (n : ℤ) (delta : K) (s : ℤ → K) (t : ℤ) (ht : 3 ≤ t % 7) :
    interpolateScale n delta s t = s t := by
  unfold interpolateScale
  apply forLoop_cell_frame
  intro i _ _ s
  rw [update_noteq (by omega), update_noteq (by omega), update_noteq (by omega)]


theorem interpolateEnds_rows (n : ℤ) (hn : 3 ≤ n) (s : ℤ → K) :
    interpolateEnds n s (1 * 7 + 5) = s (2 * 7 + 6) - s (1 * 7 + 6) ∧
    interpolateEnds n s (2 * 7 + 5) = (s (3 * 7 + 6) - s (1 * 7 + 6)) / 2 ∧
    interpolateEnds n s ((n - 1) * 7 + 5) = (s (n * 7 + 6) - s ((n - 2) * 7 + 6)) / 2 ∧
    interpolateEnds n s (n * 7 + 5) = s (n * 7 + 6) - s ((n - 1) * 7 + 6) := by
  unfold interpolateEnds
  refine ⟨?_, ?_, ?_, ?_⟩
  · rw [update_noteq (by omega), update_noteq (by omega), update_noteq (by omega), update_same]
  · rw [update_noteq (by omega)]
    rcases eq_or_ne n 3 with h3 | h3
    · subst h3
      norm_num [update_apply]
      ring
    · rw [update_noteq (by omega), update_same, update_noteq (by omega), update_noteq (by omega)]
      norm_num
      ring
  · rw [update_noteq (by omega), update_same, update_noteq (by omega), update_noteq (by omega),
      update_noteq (by omega), update_noteq (by omega)]
    norm_num
    ring
  · rw [update_same, update_noteq (by omega), update_noteq (by omega), update_noteq (by omega),
      update_noteq (by omega), update_noteq (by omega), update_noteq (by omega)]

theorem interpolate_slot6 (n : ℤ) (delta : K) (f spline : ℤ → K) (m : ℤ) (h1 : 1 ≤ m)
    (h2 : m ≤ n) : ForceEAM_interpolate n delta f spline (m * 7 + 6) = f m := by
  unfold ForceEAM_interpolate
  rw [interpolateScale_frame _ _ _ _ (by omega), interpolateCubic_frame _ _ _ (by omega),
    interpolateInner_frame _ _ _ (by omega), interpolateEnds_frame _ _ _ (by omega),
    interpolateFill_row _ _ _ _ h1 h2]

theorem interpolate_slot5 (n : ℤ) (delta : K) (f spline : ℤ → K) (m : ℤ) :
    ForceEAM_interpolate n delta f spline (m * 7 + 5) =
      interpolateInner n (interpolateEnds n (interpolateFill n f spline)) (m * 7 + 5) := by
  unfold ForceEAM_interpolate
  rw [interpolateScale_frame _ _ _ _ (by omega), interpolateCubic_frame _ _ _ (by omega)]

/-- C9: for a table `f[1..n]` with `n ≥ 5`, `ForceEAM_interpolate` stores `f[m]`
in slot 6 of every row `1 ≤ m ≤ n`, and in slot 5 the one-sided differences
`f[2] − f[1]` (row 1) and `f[n] − f[n−1]` (row `n`), the four-point stencil
`((f[m−2] − f[m+2]) + 8·(f[m+1] − f[m−1]))/12` in the rows `3 ≤ m ≤ n−2`, and the
centred difference `(f[m+1] − f[m−1])/2` in the rows 2 and `n−1`. -/
theorem interpolate_first_derivative (n : ℤ) (hn : 5 ≤ n) (delta : K) (f spline : ℤ → K) :
    (∀ m, 1 ≤ m → m ≤ n → ForceEAM_interpolate n delta f spline (m * 7 + 6) = f m) ∧
    ForceEAM_interpolate n delta f spline (1 * 7 + 5) = f 2 - f 1 ∧
    ForceEAM_interpolate n delta f spline (n * 7 + 5) = f n - f (n - 1) ∧
    (∀ m, 3 ≤ m → m ≤ n - 2 → ForceEAM_interpolate n delta f spline (m * 7 + 5) =
      ((f (m - 2) - f (m + 2)) + 8 * (f (m + 1) - f (m - 1))) / 12) ∧
    ForceEAM_interpolate n delta f spline (2 * 7 + 5) = (f (2 + 1) - f (2 - 1)) / 2 ∧
    ForceEAM_interpolate n delta f spline ((n - 1) * 7 + 5) = (f (n - 1 + 1) - f (n - 1 - 1)) / 2 := by
  have hE := interpolateEnds_rows n (by omega) (interpolateFill n f spline)
  have hF := fun m h1 h2 => interpolateFill_row n f spline m h1 h2
  refine ⟨fun m h1 h2 => interpolate_slot6 n delta f spline m h1 h2, ?_, ?_, ?_, ?_, ?_⟩
  · rw [interpolate_slot5, interpolateInner_outer _ _ _ (by omega), hE.1,
      hF 2 (by omega) (by omega), hF 1 (by omega) (by omega)]
  · rw [interpolate_slot5, interpolateInner_outer _ _ _ (by omega), hE.2.2.2,
      hF n (by omega) (by omega), hF (n - 1) (by omega) (by omega)]
  · intro m h1 h2
    rw [interpolate_slot5, interpolateInner_row _ _ _ h1 h2,
      interpolateEnds_frame _ _ _ (by omega), interpolateEnds_frame _ _ _ (by omega),
      interpolateEnds_frame _ _ _ (by omega), interpolateEnds_frame _ _ _ (by omega),
      hF _ (by omega) (by omega), hF _ (by omega) (by omega), hF _ (by omega) (by omega),
      hF _ (by omega) (by omega)]
  · rw [interpolate_slot5, interpolateInner_outer _ _ _ (by omega), hE.2.1,
      hF 3 (by omega) (by omega), hF 1 (by omega) (by omega)]
    norm_num
  · rw [interpolate_slot5, interpolateInner_outer _ _ _ (by omega), hE.2.2.1,
      hF n (by omega) (by omega), hF (n - 2) (by omega) (by omega)]
    have e1 : n - 1 + 1 = n := by ring
    have e2 : n - 1 - 1 = n - 2 := by ring
    rw [e1, e2]

theorem interpolate_cubic (n : ℤ) (delta : K) (f spline : ℤ → K) (m : ℤ) (h1 : 1 ≤ m)
    (h2 : m ≤ n - 1) :
    ForceEAM_interpolate n delta f spline (m * 7 + 4) =
        3 * (f (m + 1) - f m) - 2 * ForceEAM_interpolate n delta f spline (m * 7 + 5) -
          ForceEAM_interpolate n delta f spline ((m + 1) * 7 + 5) ∧
    ForceEAM_interpolate n delta f spline (m * 7 + 3) =
        ForceEAM_interpolate n delta f spline (m * 7 + 5) +
          ForceEAM_interpolate n delta f spline ((m + 1) * 7 + 5) - 2 * (f (m + 1) - f m) := by
  rw [interpolate_slot5, interpolate_slot5]
  have hc := interpolateCubic_row n (interpolateInner n (interpolateEnds n (interpolateFill n f spline))) m h1 h2
  have h6 : ∀ k, 1 ≤ k → k ≤ n →
      interpolateInner n (interpolateEnds n (interpolateFill n f spline)) (k * 7 + 6) = f k := by
    intro k hk1 hk2
    rw [interpolateInner_frame _ _ _ (by omega), interpolateEnds_frame _ _ _ (by omega),
      interpolateFill_row _ _ _ _ hk1 hk2]
  rw [h6 _ (by omega) (by omega), h6 _ (by omega) (by omega)] at hc
  unfold ForceEAM_interpolate
  rw [interpolateScale_frame _ _ _ _ (by omega), interpolateScale_frame _ _ _ _ (by omega)]
  exact hc

/-- C10: for `n ≥ 3` and a row `1 ≤ m ≤ n−1` built by `ForceEAM_interpolate`, the
value cubic `P(p) = ((slot3·p + slot4)·p + slot5)·p + slot6` is the Hermite
interpolant between the knots `m` and `m+1`: `P(0) = f[m]`, `P(1) = f[m+1]`,
`P'(0) = slot5[m]`, `P'(1) = slot5[m+1]`, with
`slot4 = 3·(f[m+1] − f[m]) − 2·s_m − s_{m+1}` and
`slot3 = s_m + s_{m+1} − 2·(f[m+1] − f[m])`; so the value at the end of row `m`
is the value at the start of row `m+1` (and the slopes agree in the same way). -/
theorem interpolate_hermite (n : ℤ) (_hn : 3 ≤ n) (delta : K) (f spline : ℤ → K) (m : ℤ)
    (h1 : 1 ≤ m) (h2 : m ≤ n - 1) :
    (∀ p, splineValue (ForceEAM_interpolate n delta f spline) m p =
      Polynomial.eval p (Polynomial.C (ForceEAM_interpolate n delta f spline (m * 7 + 3)) * Polynomial.X ^ 3 +
        Polynomial.C (ForceEAM_interpolate n delta f spline (m * 7 + 4)) * Polynomial.X ^ 2 +
        Polynomial.C (ForceEAM_interpolate n delta f spline (m * 7 + 5)) * Polynomial.X +
        Polynomial.C (ForceEAM_interpolate n delta f spline (m * 7 + 6)))) ∧
    splineValue (ForceEAM_interpolate n delta f spline) m 0 = f m ∧
    splineValue (ForceEAM_interpolate n delta f spline) m 1 = f (m + 1) ∧
    Polynomial.eval 0 (Polynomial.derivative (Polynomial.C (ForceEAM_interpolate n delta f spline (m * 7 + 3)) * Polynomial.X ^ 3 +
        Polynomial.C (ForceEAM_interpolate n delta f spline (m * 7 + 4)) * Polynomial.X ^ 2 +
        Polynomial.C (ForceEAM_interpolate n delta f spline (m * 7 + 5)) * Polynomial.X +
        Polynomial.C (ForceEAM_interpolate n delta f spline (m * 7 + 6)))) =
      ForceEAM_interpolate n delta f spline (m * 7 + 5) ∧
    Polynomial.eval 1 (Polynomial.derivative (Polynomial.C (ForceEAM_interpolate n delta f spline (m * 7 + 3)) * Polynomial.X ^ 3 +
        Polynomial.C (ForceEAM_interpolate n delta f spline (m * 7 + 4)) * Polynomial.X ^ 2 +
        Polynomial.C (ForceEAM_interpolate n delta f spline (m * 7 + 5)) * Polynomial.X +
        Polynomial.C (ForceEAM_interpolate n delta f spline (m * 7 + 6)))) =
      ForceEAM_interpolate n delta f spline ((m + 1) * 7 + 5) ∧
    ForceEAM_interpolate n delta f spline (m * 7 + 4) =
      3 * (f (m + 1) - f m) - 2 * ForceEAM_interpolate n delta f spline (m * 7 + 5) -
        ForceEAM_interpolate n delta f spline ((m + 1) * 7 + 5) ∧
    ForceEAM_interpolate n delta f spline (m * 7 + 3) =
      ForceEAM_interpolate n delta f spline (m * 7 + 5) + ForceEAM_interpolate n delta f spline ((m + 1) * 7 + 5) -
        2 * (f (m + 1) - f m) ∧
    splineValue (ForceEAM_interpolate n delta f spline) m 1 = splineValue (ForceEAM_interpolate n delta f spline) (m + 1) 0 := by
  have hc := interpolate_cubic n delta f spline m h1 h2
  have hs6 := interpolate_slot6 n delta f spline m h1 (by omega)
  have hs6' := interpolate_slot6 n delta f spline (m + 1) (by omega) (by omega)
  have hc4 := hc.1
  have hc3 := hc.2
  refine ⟨?_, ?_, ?_, ?_, ?_, hc4, hc3, ?_⟩
  · intro p
    simp only [splineValue, Polynomial.eval_add, Polynomial.eval_mul, Polynomial.eval_C,
      Polynomial.eval_pow, Polynomial.eval_X]
    ring
  · simp [splineValue, hs6]
  · simp only [splineValue, hc4, hc3, hs6]
    ring
  · simp
  · simp only [Polynomial.derivative_add, Polynomial.derivative_mul, Polynomial.derivative_C,
      Polynomial.derivative_X_pow, Polynomial.derivative_X, Polynomial.eval_add,
      Polynomial.eval_mul, Polynomial.eval_C, Polynomial.eval_pow, Polynomial.eval_X, hc4, hc3]
    simp
    ring
  · simp only [splineValue, hc4, hc3, hs6, hs6']
    ring

section
variable [FloorRing K]

theorem cTrunc_of_nonneg {p : K} (hp : 0 ≤ p) : cTrunc p = ⌊p⌋ := by
  unfold cTrunc; rw [if_pos hp]

/-- C5: the spline rows are clamped into the table.  For `r ≥ 0`, `rdr > 0` and
`nr ≥ 2` the pair lookup yields `m = min(floor(r·rdr) + 1, nr − 1)` with
`1 ≤ m ≤ nr − 1` and a fraction `0 ≤ p ≤ 1`; for every density `rho` (negative
or beyond the table included), every `rdrho` and `nrho ≥ 2` the embedding lookup
yields a row `1 ≤ m ≤ nrho − 1` and a fraction `p ≤ 1`. -/
theorem lookup_rows_clamped (r rdr : K) (nr : ℤ) (rho rdrho : K) (nrho : ℤ)
    (hr : 0 ≤ r) (hrdr : 0 < rdr) (hnr : 2 ≤ nr) (hnrho : 2 ≤ nrho) :
    ((pairLookup rdr nr r).1 = min (⌊r * rdr⌋ + 1) (nr - 1) ∧
      1 ≤ (pairLookup rdr nr r).1 ∧ (pairLookup rdr nr r).1 ≤ nr - 1 ∧
      0 ≤ (pairLookup rdr nr r).2 ∧ (pairLookup rdr nr r).2 ≤ 1) ∧
    (1 ≤ (embedLookup rdrho nrho rho).1 ∧ (embedLookup rdrho nrho rho).1 ≤ nrho - 1 ∧
      (embedLookup rdrho nrho rho).2 ≤ 1) := by
  have h0 : (0 : K) ≤ r * rdr := mul_nonneg hr hrdr.le
  have hfl : 0 ≤ ⌊r * rdr⌋ := Int.floor_nonneg.2 h0
  have htr : cTrunc (r * rdr + 1) = ⌊r * rdr⌋ + 1 := by
    rw [cTrunc_of_nonneg (by linarith), Int.floor_add_one]
  constructor
  · simp only [pairLookup, htr]
    refine ⟨?_, ?_, ?_, ?_, ?_⟩
    · split_ifs with h
      · exact (min_eq_left h.le).symm
      · exact (min_eq_right (not_lt.1 h)).symm
    · split_ifs <;> omega
    · split_ifs <;> omega
    · split_ifs with h1 h2 h2
      · push_cast
        have := Int.floor_le (r * rdr)
        linarith
      · exact zero_le_one
      · have hle : ((nr - 1 : ℤ) : K) ≤ ((⌊r * rdr⌋ + 1 : ℤ) : K) := by
          exact_mod_cast not_lt.1 h1
        have := Int.floor_le (r * rdr)
        push_cast at hle ⊢
        linarith
      · exact zero_le_one
    · split_ifs with h1 h2 h2
      · exact h2.le
      · exact le_refl _
      · exact h2.le
      · exact le_refl _
  · simp only [embedLookup]
    refine ⟨?_, ?_, ?_⟩
    · split_ifs <;> omega
    · split_ifs <;> omega
    · split_ifs with h1 h2 h3 h3 h2 h3 h3 <;> first | exact le_refl _ | exact le_of_lt (by assumption)
end
end

/-! ## The loop bodies in terms of the specification's quantities -/

section KernelLemmas

variable {K : Type} [LinearOrderedField K] [FloorRing K]

theorem rsqOf_eq (E : Env K) (x : ℤ → K) (i j : ℤ) : rsqOf E x i j = specRsq E x i j := by
  simp only [rsqOf, specRsq, specDel]; ring

theorem foldl_map_loop {σ : Type} (n : ℤ) (neighs : ℤ → ℤ) (step : ℤ → σ → σ) (s : σ) :
    forLoop 0 n (fun jj => step (neighs jj)) s =
      ((loopIdx 0 n).map neighs).foldl (fun s j => step j s) s := by
  unfold forLoop
  rw [List.foldl_map]

/-- Cells of different atoms or components are different when the stride is at least 3. -/
theorem cell_inj {P i i' d d' : ℤ} (hP : 3 ≤ P) (hd : 0 ≤ d ∧ d < 3) (hd' : 0 ≤ d' ∧ d' < 3)
    (h : i * P + d = i' * P + d') : i = i' ∧ d = d' := by
  have hi : i = i' := by
    by_contra hne
    rcases lt_or_gt_of_ne hne with hlt | hgt
    · have : (i' - i) * P ≥ 1 * P := by
        apply mul_le_mul_of_nonneg_right (by omega) (by omega)
      nlinarith
    · have : (i - i') * P ≥ 1 * P := by
        apply mul_le_mul_of_nonneg_right (by omega) (by omega)
      nlinarith
  subst hi
  exact ⟨rfl, by omega⟩

theorem fullForceStep_eq (E : Env K) (fe : ForceEAM K) (x : ℤ → K) (i j : ℤ) (s : FullAcc K) :
    fullForceStep E fe x i j s =
      if specRsq E x i j < fe.cutforcesq then
        { fx := s.fx + specDel E x i j 0 *
            specFpair E fe.rdr fe.nr fe.d_rhor_spline fe.d_z2r_spline fe.fp x i j,
          fy := s.fy + specDel E x i j 1 *
            specFpair E fe.rdr fe.nr fe.d_rhor_spline fe.d_z2r_spline fe.fp x i j,
          fz := s.fz + specDel E x i j 2 *
            specFpair E fe.rdr fe.nr fe.d_rhor_spline fe.d_z2r_spline fe.fp x i j,
          t_virial := if E.ENABLE_EV_CALCULATION = true ∧ fe.evflag ≠ 0 then
              s.t_virial + specRsq E x i j *
                (specFpair E fe.rdr fe.nr fe.d_rhor_spline fe.d_z2r_spline fe.fp x i j / 2)
            else s.t_virial,
          evdwl := if E.ENABLE_EV_CALCULATION = true ∧ fe.evflag ≠ 0 then
              s.evdwl + specPhi E fe.rdr fe.nr fe.d_z2r_spline x i j / 2
            else s.evdwl }
      else s := by
  have hr : x (i * E.PAD + 0) - x (j * E.PAD + 0) = specDel E x i j 0 := rfl
  have hr1 : x (i * E.PAD + 1) - x (j * E.PAD + 1) = specDel E x i j 1 := rfl
  have hr2 : x (i * E.PAD + 2) - x (j * E.PAD + 2) = specDel E x i j 2 := rfl
  have hsq : specDel E x i j 0 * specDel E x i j 0 + specDel E x i j 1 * specDel E x i j 1 +
      specDel E x i j 2 * specDel E x i j 2 = specRsq E x i j := by
    simp only [specRsq]; ring
  unfold fullForceStep
  simp only [hr, hr1, hr2, hsq]
  by_cases hc : specRsq E x i j < fe.cutforcesq
  · simp only [if_pos hc]
    have hfp : -(fe.fp i * splineDeriv fe.d_rhor_spline
          (pairLookup fe.rdr fe.nr (E.sqrt (specRsq E x i j))).1
          (pairLookup fe.rdr fe.nr (E.sqrt (specRsq E x i j))).2 +
        fe.fp j * splineDeriv fe.d_rhor_spline
          (pairLookup fe.rdr fe.nr (E.sqrt (specRsq E x i j))).1
          (pairLookup fe.rdr fe.nr (E.sqrt (specRsq E x i j))).2 +
        (splineDeriv fe.d_z2r_spline (pairLookup fe.rdr fe.nr (E.sqrt (specRsq E x i j))).1
          (pairLookup fe.rdr fe.nr (E.sqrt (specRsq E x i j))).2 * (1 / E.sqrt (specRsq E x i j)) -
          splineValue fe.d_z2r_spline (pairLookup fe.rdr fe.nr (E.sqrt (specRsq E x i j))).1
          (pairLookup fe.rdr fe.nr (E.sqrt (specRsq E x i j))).2 * (1 / E.sqrt (specRsq E x i j)) *
            (1 / E.sqrt (specRsq E x i j)))) * (1 / E.sqrt (specRsq E x i j)) =
        specFpair E fe.rdr fe.nr fe.d_rhor_spline fe.d_z2r_spline fe.fp x i j := by
      simp only [specFpair]; ring
    have hphi : splineValue fe.d_z2r_spline (pairLookup fe.rdr fe.nr (E.sqrt (specRsq E x i j))).1
          (pairLookup fe.rdr fe.nr (E.sqrt (specRsq E x i j))).2 * (1 / E.sqrt (specRsq E x i j)) =
        specPhi E fe.rdr fe.nr fe.d_z2r_spline x i j := by
      simp only [specPhi]; ring
    simp only [hfp]
    simp only [hphi]
    split_ifs with he
    · congr 1
      · rw [← hsq]; norm_num; ring
      · norm_num; ring
    · rfl
  · simp only [if_neg hc]


theorem halfForceStep_eq (E : Env K) (fe : ForceEAM K) (x : ℤ → K) (nlocal i j : ℤ)
    (s : HalfAcc K) :
    halfForceStep E fe x nlocal i j s =
      if specRsq E x i j < fe.cutforcesq then
        { fx := s.fx + specDel E x i j 0 *
            specFpair E fe.rdr fe.nr fe.rhor_spline fe.z2r_spline fe.fp x i j,
          fy := s.fy + specDel E x i j 1 *
            specFpair E fe.rdr fe.nr fe.rhor_spline fe.z2r_spline fe.fp x i j,
          fz := s.fz + specDel E x i j 2 *
            specFpair E fe.rdr fe.nr fe.rhor_spline fe.z2r_spline fe.fp x i j,
          f := if j < nlocal then
              update (update (update s.f
                (j * E.PAD + 0) (s.f (j * E.PAD + 0) - specDel E x i j 0 *
                  specFpair E fe.rdr fe.nr fe.rhor_spline fe.z2r_spline fe.fp x i j))
                (j * E.PAD + 1) (s.f (j * E.PAD + 1) - specDel E x i j 1 *
                  specFpair E fe.rdr fe.nr fe.rhor_spline fe.z2r_spline fe.fp x i j))
                (j * E.PAD + 2) (s.f (j * E.PAD + 2) - specDel E x i j 2 *
                  specFpair E fe.rdr fe.nr fe.rhor_spline fe.z2r_spline fe.fp x i j)
            else s.f,
          virial := if fe.evflag ≠ 0 then
              s.virial + specWeight nlocal j * (specRsq E x i j *
                specFpair E fe.rdr fe.nr fe.rhor_spline fe.z2r_spline fe.fp x i j)
            else s.virial,
          evdwl := s.evdwl + specWeight nlocal j * specPhi E fe.rdr fe.nr fe.z2r_spline x i j }
      else s := by
  have hr : x (i * E.PAD + 0) - x (j * E.PAD + 0) = specDel E x i j 0 := rfl
  have hr1 : x (i * E.PAD + 1) - x (j * E.PAD + 1) = specDel E x i j 1 := rfl
  have hr2 : x (i * E.PAD + 2) - x (j * E.PAD + 2) = specDel E x i j 2 := rfl
  have hsq : specDel E x i j 0 * specDel E x i j 0 + specDel E x i j 1 * specDel E x i j 1 +
      specDel E x i j 2 * specDel E x i j 2 = specRsq E x i j := by
    simp only [specRsq]; ring
  unfold halfForceStep
  simp only [hr, hr1, hr2, hsq]
  by_cases hc : specRsq E x i j < fe.cutforcesq
  · simp only [if_pos hc]
    have hfp : -(fe.fp i * splineDeriv fe.rhor_spline
          (pairLookup fe.rdr fe.nr (E.sqrt (specRsq E x i j))).1
          (pairLookup fe.rdr fe.nr (E.sqrt (specRsq E x i j))).2 +
        fe.fp j * splineDeriv fe.rhor_spline
          (pairLookup fe.rdr fe.nr (E.sqrt (specRsq E x i j))).1
          (pairLookup fe.rdr fe.nr (E.sqrt (specRsq E x i j))).2 +
        (splineDeriv fe.z2r_spline (pairLookup fe.rdr fe.nr (E.sqrt (specRsq E x i j))).1
          (pairLookup fe.rdr fe.nr (E.sqrt (specRsq E x i j))).2 * (1 / E.sqrt (specRsq E x i j)) -
          splineValue fe.z2r_spline (pairLookup fe.rdr fe.nr (E.sqrt (specRsq E x i j))).1
          (pairLookup fe.rdr fe.nr (E.sqrt (specRsq E x i j))).2 * (1 / E.sqrt (specRsq E x i j)) *
            (1 / E.sqrt (specRsq E x i j)))) * (1 / E.sqrt (specRsq E x i j)) =
        specFpair E fe.rdr fe.nr fe.rhor_spline fe.z2r_spline fe.fp x i j := by
      simp only [specFpair]; ring
    have hphi : splineValue fe.z2r_spline (pairLookup fe.rdr fe.nr (E.sqrt (specRsq E x i j))).1
          (pairLookup fe.rdr fe.nr (E.sqrt (specRsq E x i j))).2 * (1 / E.sqrt (specRsq E x i j)) =
        specPhi E fe.rdr fe.nr fe.z2r_spline x i j := by
      simp only [specPhi]; ring
    simp only [hfp]
    simp only [hphi]
    by_cases hj : j < nlocal
    · simp only [if_pos hj, specWeight]
      congr 1
      · rw [update_noteq (by omega), update_noteq (by omega), update_noteq (by omega)]
      · split_ifs
        · rw [← hsq]; ring
        · rfl
      · ring
    · simp only [if_neg hj, specWeight]
      congr 1
      · split_ifs
        · rw [← hsq]; norm_num; ring
        · rfl
      · norm_num
  · simp only [if_neg hc]

theorem halfDensityStep_eq (E : Env K) (fe : ForceEAM K) (x : ℤ → K) (nlocal i j : ℤ)
    (s : K × (ℤ → K)) :
    halfDensityStep E fe x nlocal i j s =
      if specRsq E x i j < fe.cutforcesq then
        (s.1 + specRho E fe.rdr fe.nr fe.rhor_spline x i j,
          if j < nlocal then
            update s.2 j (s.2 j + specRho E fe.rdr fe.nr fe.rhor_spline x i j)
          else s.2)
      else s := by
  unfold halfDensityStep
  simp only [rsqOf_eq, specRho]
  split_ifs <;> rfl

theorem fullDensityStep_eq (E : Env K) (fe : ForceEAM K) (x : ℤ → K) (i j : ℤ) (rhoi : K) :
    fullDensityStep E fe x i j rhoi =
      if specRsq E x i j < fe.cutforcesq then
        rhoi + specRho E fe.rdr fe.nr fe.d_rhor_spline x i j
      else rhoi := by
  unfold fullDensityStep
  simp only [rsqOf_eq, specRho]

/-- The function `ForceEAM_single` returns the pair energy and pair force factor of the
specification. -/
theorem ForceEAM_single_eq (E : Env K) (fe : ForceEAM K) (x : ℤ → K) (i j : ℤ) :
    ForceEAM_single E fe i j (specRsq E x i j) =
      (specPhi E fe.rdr fe.nr fe.z2r_spline x i j,
        specFpair E fe.rdr fe.nr fe.rhor_spline fe.z2r_spline fe.fp x i j) := by
  have h1 : (1.0 : K) = 1 := by norm_num
  unfold ForceEAM_single specPhi specFpair splineValue splineDeriv
  simp only [h1, add_zero, Prod.mk.injEq]
  constructor
  · ring
  · ring

/-- A loop body that does nothing outside the cutoff only sees the neighbours within it. -/
theorem foldl_withinCutoff {σ : Type} (E : Env K) (cut : K) (x : ℤ → K) (i : ℤ)
    (step : ℤ → σ → σ) (h : ∀ j s, ¬ specRsq E x i j < cut → step j s = s) (l : List ℤ) (s : σ) :
    l.foldl (fun s j => step j s) s =
      (withinCutoff E cut x i l).foldl (fun s j => step j s) s := by
  induction l generalizing s with
  | nil => rfl
  | cons a l ih =>
    unfold withinCutoff
    rw [List.foldl_cons, List.filter_cons]
    by_cases hc : specRsq E x i a < cut
    · simp only [hc, decide_True, if_true, List.foldl_cons]
      exact ih _
    · simp only [hc, decide_False, Bool.false_eq_true, if_false]
      rw [h a s hc]
      exact ih _

theorem compute_fullneigh_stages (E : Env K) (fe : ForceEAM K) (atom : Atom K) (nb : Neighbor)
    (comm : Comm K) :
    ForceEAM_compute_fullneigh E fe atom nb comm =
      ({ (fullComm E fe atom nb comm).1 with
          virial := (fullComm E fe atom nb comm).1.virial + (fullKernel2 E fe atom nb comm).2.1,
          eng_vdwl := (fullComm E fe atom nb comm).1.eng_vdwl +
            2.0 * (fullKernel2 E fe atom nb comm).2.2 },
        { atom with d_f := (fullKernel2 E fe atom nb comm).1 },
        (fullComm E fe atom nb comm).2) := by
  unfold ForceEAM_compute_fullneigh fullKernel2 fullComm fullKernel1 fullPrep
  by_cases h : atom.nmax > fe.nmax
  · simp only [if_pos h]
  · simp only [if_neg h]

theorem compute_halfneigh_stages (E : Env K) (fe : ForceEAM K) (atom : Atom K) (nb : Neighbor)
    (comm : Comm K) :
    ForceEAM_compute_halfneigh E fe atom nb comm =
      ({ (halfComm E fe atom nb comm).1 with
          virial := (halfForce E fe atom nb comm).2.1,
          eng_vdwl := (halfForce E fe atom nb comm).2.2 },
        { atom with f := (halfForce E fe atom nb comm).1 },
        (halfComm E fe atom nb comm).2) := by
  unfold ForceEAM_compute_halfneigh halfForce halfComm halfEmbed halfRho halfPrep
  by_cases h : atom.nmax > fe.nmax
  · simp only [if_pos h]
  · simp only [if_neg h]

theorem forLoop_inv {σ : Type} (Q : σ → Prop) (lo hi : ℤ) (body : ℤ → σ → σ)
    (h : ∀ i, lo ≤ i → i < hi → ∀ s, Q s → Q (body i s)) (s0 : σ) (h0 : Q s0) :
    Q (forLoop lo hi body s0) := by
  unfold forLoop
  have : ∀ l : List ℤ, (∀ i ∈ l, lo ≤ i ∧ i < hi) → ∀ s, Q s →
      Q (l.foldl (fun s i => body i s) s) := by
    intro l
    induction l with
    | nil => intro _ s hs; exact hs
    | cons a l ih =>
      intro hl s hs
      rw [List.foldl_cons]
      exact ih (fun i hi => hl i (List.mem_cons_of_mem _ hi)) _
        (h a (hl a (List.mem_cons_self _ _)).1 (hl a (List.mem_cons_self _ _)).2 s hs)
  exact this _ (fun i hi => loopIdx_mem.1 hi) s0 h0

/-- The halo exchange changes no field of `force_eam` other than `fp`. -/
theorem communicate_fields (E : Env K) (fe : ForceEAM K) (comm : Comm K) :
    (ForceEAM_communicate E fe comm).1 =
      { fe with fp := (ForceEAM_communicate E fe comm).1.fp } := by
  unfold ForceEAM_communicate
  apply forLoop_inv (fun s : ForceEAM K × Comm K => s.1 = { fe with fp := s.1.fp })
  · intro i _ _ s hs
    unfold communicateSwap ForceEAM_unpack_comm
    simp only
    split_ifs
    · simp only; rw [hs]
    · simp only; rw [hs]
  · rfl

theorem withinCutoff_cons_pos (E : Env K) (cut : K) (x : ℤ → K) (i a : ℤ) (l : List ℤ)
    (h : specRsq E x i a < cut) :
    withinCutoff E cut x i (a :: l) = a :: withinCutoff E cut x i l := by
  unfold withinCutoff
  rw [List.filter_cons]
  simp [h]

theorem withinCutoff_cons_neg (E : Env K) (cut : K) (x : ℤ → K) (i a : ℤ) (l : List ℤ)
    (h : ¬ specRsq E x i a < cut) :
    withinCutoff E cut x i (a :: l) = withinCutoff E cut x i l := by
  unfold withinCutoff
  rw [List.filter_cons]
  simp [h]

theorem fullForce_fold (E : Env K) (fe : ForceEAM K) (x : ℤ → K) (i : ℤ) (l : List ℤ)
    (s : FullAcc K) :
    l.foldl (fun s j => fullForceStep E fe x i j s) s =
      { fx := s.fx + specForce E fe.cutforcesq fe.rdr fe.nr fe.d_rhor_spline fe.d_z2r_spline
          fe.fp x l i 0,
        fy := s.fy + specForce E fe.cutforcesq fe.rdr fe.nr fe.d_rhor_spline fe.d_z2r_spline
          fe.fp x l i 1,
        fz := s.fz + specForce E fe.cutforcesq fe.rdr fe.nr fe.d_rhor_spline fe.d_z2r_spline
          fe.fp x l i 2,
        t_virial := if E.ENABLE_EV_CALCULATION = true ∧ fe.evflag ≠ 0 then
            s.t_virial + ((withinCutoff E fe.cutforcesq x i l).map (fun j => specRsq E x i j *
              (specFpair E fe.rdr fe.nr fe.d_rhor_spline fe.d_z2r_spline fe.fp x i j / 2))).sum
          else s.t_virial,
        evdwl := if E.ENABLE_EV_CALCULATION = true ∧ fe.evflag ≠ 0 then
            s.evdwl + ((withinCutoff E fe.cutforcesq x i l).map
              (fun j => specPhi E fe.rdr fe.nr fe.d_z2r_spline x i j / 2)).sum
          else s.evdwl } := by
  induction l generalizing s with
  | nil => simp [specForce, withinCutoff]
  | cons a l ih =>
    rw [List.foldl_cons, ih, fullForceStep_eq]
    by_cases hc : specRsq E x i a < fe.cutforcesq
    · simp only [if_pos hc, specForce, withinCutoff_cons_pos _ _ _ _ _ _ hc, List.map_cons,
        List.sum_cons]
      congr 1
      · ring
      · ring
      · ring
      · split_ifs
        · ring
        · rfl
      · split_ifs
        · ring
        · rfl
    · simp only [if_neg hc, specForce, withinCutoff_cons_neg _ _ _ _ _ _ hc]

theorem fullForceAtom_eq (E : Env K) (fe : ForceEAM K) (x : ℤ → K) (nb : Neighbor) (i : ℤ)
    (s : (ℤ → K) × K × K) :
    fullForceAtom E fe x nb i s =
      (update (update (update s.1
          (i * E.PAD + 0) (specForce E fe.cutforcesq fe.rdr fe.nr fe.d_rhor_spline
            fe.d_z2r_spline fe.fp x (fullNeighList E nb i) i 0))
          (i * E.PAD + 1) (specForce E fe.cutforcesq fe.rdr fe.nr fe.d_rhor_spline
            fe.d_z2r_spline fe.fp x (fullNeighList E nb i) i 1))
          (i * E.PAD + 2) (specForce E fe.cutforcesq fe.rdr fe.nr fe.d_rhor_spline
            fe.d_z2r_spline fe.fp x (fullNeighList E nb i) i 2),
        if E.ENABLE_EV_CALCULATION = true ∧ fe.evflag ≠ 0 then
            s.2.1 + ((withinCutoff E fe.cutforcesq x i (fullNeighList E nb i)).map
              (fun j => specRsq E x i j *
                (specFpair E fe.rdr fe.nr fe.d_rhor_spline fe.d_z2r_spline fe.fp x i j / 2))).sum
          else s.2.1,
        if E.ENABLE_EV_CALCULATION = true ∧ fe.evflag ≠ 0 then
            s.2.2 + ((withinCutoff E fe.cutforcesq x i (fullNeighList E nb i)).map
              (fun j => specPhi E fe.rdr fe.nr fe.d_z2r_spline x i j / 2)).sum
          else s.2.2) := by
  unfold fullForceAtom
  simp only [foldl_map_loop, fullForce_fold]
  have h0 : (0.0 : K) = 0 := by norm_num
  simp only [h0, zero_add]
  rfl

/-- The force cell `(i, d)` after the second kernel of the full-list routine. -/
theorem fullForce_loop_cell (E : Env K) (fe : ForceEAM K) (x : ℤ → K) (nb : Neighbor)
    (nlocal : ℤ) (s0 : (ℤ → K) × K × K) (hP : 3 ≤ E.PAD) (i : ℤ) (h0 : 0 ≤ i)
    (h1 : i < nlocal) (d : ℤ) (hd : 0 ≤ d ∧ d < 3) :
    (forLoop 0 nlocal (fullForceAtom E fe x nb) s0).1 (i * E.PAD + d) =
      specForce E fe.cutforcesq fe.rdr fe.nr fe.d_rhor_spline fe.d_z2r_spline fe.fp x
        (fullNeighList E nb i) i d := by
  rw [forLoop_at h0 h1 (fullForceAtom E fe x nb) (fun s => s.1 (i * E.PAD + d))]
  · simp only [fullForceAtom_eq]
    obtain ⟨hd0, hd3⟩ := hd
    have : d = 0 ∨ d = 1 ∨ d = 2 := by omega
    rcases this with rfl | rfl | rfl
    · rw [update_noteq (by omega), update_noteq (by omega), update_same]
    · rw [update_noteq (by omega), update_same]
    · rw [update_same]
  · intro i' hi' _ s
    simp only [fullForceAtom_eq]
    have hne : ∀ d', 0 ≤ d' ∧ d' < 3 → i * E.PAD + d ≠ i' * E.PAD + d' := by
      intro d' hd' h
      have := (cell_inj hP hd hd' h).1
      omega
    rw [update_noteq (hne 2 (by omega)), update_noteq (hne 1 (by omega)),
      update_noteq (hne 0 (by omega))]

/-- C1: for every owned atom `i` (`0 ≤ i < nlocal`) and component `d = 0, 1, 2`,
the full-list kernel leaves in `f[i*PAD + d]` the sum, over the listed neighbours
`j` of `i` with `rsq < cutforcesq`, of `(x_i − x_j)_d · fpair`, where
`fpair = −ψ'/r`, `ψ' = fp[i]·rhoip + fp[j]·rhoip + φ'`, `φ' = z2p/r − φ/r`,
`φ = z2/r`, `r = sqrt(rsq)`, and `rhoip`, `z2p`, `z2` are the spline polynomials
at the clamped row and fraction for `r` (`specForce`, `specFpair`); `fp` is the
array the force pass reads, the stride `PAD` is at least 3. -/
theorem fullneigh_force_is_pair_sum (E : Env K) (fe : ForceEAM K) (atom : Atom K)
    (nb : Neighbor) (comm : Comm K) (hP : 3 ≤ E.PAD) (i : ℤ) (h0 : 0 ≤ i)
    (h1 : i < atom.nlocal) (d : ℤ) (hd : 0 ≤ d ∧ d < 3) :
    (ForceEAM_compute_fullneigh E fe atom nb comm).2.1.d_f (i * E.PAD + d) =
      specForce E fe.cutforcesq fe.rdr fe.nr fe.d_rhor_spline fe.d_z2r_spline
        (ForceEAM_compute_fullneigh E fe atom nb comm).1.fp atom.d_x
        (fullNeighList E nb i) i d := by
  rw [compute_fullneigh_stages]
  simp only
  unfold fullKernel2
  rw [fullForce_loop_cell E _ _ _ _ _ hP i h0 h1 d hd]
  have hc := communicate_fields E
    { fullPrep E fe atom with fp := (fullKernel1 E fe atom nb).1 } comm
  have hprep : ∀ g : ℤ → K, ({ fullPrep E fe atom with fp := g } : ForceEAM K) =
      { fe with virial := 0,
                nmax := (fullPrep E fe atom).nmax, fp := g } := by
    intro g
    unfold fullPrep
    split_ifs <;> rfl
  unfold fullComm
  rw [hc, hprep]

end KernelLemmas

/-! ## Energy and virial -/

section Energy

variable {K : Type} [LinearOrderedField K] [FloorRing K]

/-- A loop that adds `c i` to an observable `P` in iteration `i` adds their sum. -/
theorem forLoop_sum {σ : Type} (lo hi : ℤ) (body : ℤ → σ → σ) (P : σ → K) (c : ℤ → K)
    (h : ∀ i, lo ≤ i → i < hi → ∀ s, P (body i s) = P s + c i) (s0 : σ) :
    P (forLoop lo hi body s0) = P s0 + ((loopIdx lo hi).map c).sum := by
  unfold forLoop
  have : ∀ l : List ℤ, (∀ i ∈ l, lo ≤ i ∧ i < hi) → ∀ s,
      P (l.foldl (fun s i => body i s) s) = P s + (l.map c).sum := by
    intro l
    induction l with
    | nil => intro _ s; simp
    | cons a l ih =>
      intro hl s
      rw [List.foldl_cons, ih (fun i hi => hl i (List.mem_cons_of_mem _ hi)),
        h a (hl a (List.mem_cons_self _ _)).1 (hl a (List.mem_cons_self _ _)).2,
        List.map_cons, List.sum_cons, add_assoc]
  exact this _ (fun i hi => loopIdx_mem.1 hi) s0

theorem forLoop_congr {σ : Type} (lo hi : ℤ) (body body' : ℤ → σ → σ)
    (h : ∀ i, lo ≤ i → i < hi → ∀ s, body i s = body' i s) (s0 : σ) :
    forLoop lo hi body s0 = forLoop lo hi body' s0 := by
  unfold forLoop
  have : ∀ l : List ℤ, (∀ i ∈ l, lo ≤ i ∧ i < hi) → ∀ s,
      l.foldl (fun s i => body i s) s = l.foldl (fun s i => body' i s) s := by
    intro l
    induction l with
    | nil => intro _ s; rfl
    | cons a l ih =>
      intro hl s
      rw [List.foldl_cons, List.foldl_cons,
        h a (hl a (List.mem_cons_self _ _)).1 (hl a (List.mem_cons_self _ _)).2,
        ih (fun i hi => hl i (List.mem_cons_of_mem _ hi))]
  exact this _ (fun i hi => loopIdx_mem.1 hi) s0

/-- Energy and virial accumulated by the `jj` loop of the half-list force pass. -/
theorem halfForce_fold_ev (E : Env K) (fe : ForceEAM K) (x : ℤ → K) (nlocal i : ℤ)
    (l : List ℤ) (s : HalfAcc K) :
    (l.foldl (fun s j => halfForceStep E fe x nlocal i j s) s).virial =
      (if fe.evflag ≠ 0 then
        s.virial + ((withinCutoff E fe.cutforcesq x i l).map (fun j => specWeight nlocal j *
          (specRsq E x i j *
            specFpair E fe.rdr fe.nr fe.rhor_spline fe.z2r_spline fe.fp x i j))).sum
      else s.virial) ∧
    (l.foldl (fun s j => halfForceStep E fe x nlocal i j s) s).evdwl =
      s.evdwl + ((withinCutoff E fe.cutforcesq x i l).map
        (fun j => specWeight nlocal j * specPhi E fe.rdr fe.nr fe.z2r_spline x i j)).sum := by
  induction l generalizing s with
  | nil => simp [withinCutoff]
  | cons a l ih =>
    rw [List.foldl_cons, (ih _).1, (ih _).2, halfForceStep_eq]
    by_cases hc : specRsq E x i a < fe.cutforcesq
    · simp only [if_pos hc, withinCutoff_cons_pos _ _ _ _ _ _ hc, List.map_cons, List.sum_cons]
      constructor
      · split_ifs
        · ring
        · rfl
      · ring
    · simp only [if_neg hc, withinCutoff_cons_neg _ _ _ _ _ _ hc]
      simp

/-- Forces accumulated in `fx`, `fy`, `fz` by the `jj` loop of the half-list force pass. -/
theorem halfForce_fold_acc (E : Env K) (fe : ForceEAM K) (x : ℤ → K) (nlocal i : ℤ)
    (l : List ℤ) (s : HalfAcc K) :
    (l.foldl (fun s j => halfForceStep E fe x nlocal i j s) s).fx =
      s.fx + specForce E fe.cutforcesq fe.rdr fe.nr fe.rhor_spline fe.z2r_spline fe.fp x l i 0 ∧
    (l.foldl (fun s j => halfForceStep E fe x nlocal i j s) s).fy =
      s.fy + specForce E fe.cutforcesq fe.rdr fe.nr fe.rhor_spline fe.z2r_spline fe.fp x l i 1 ∧
    (l.foldl (fun s j => halfForceStep E fe x nlocal i j s) s).fz =
      s.fz + specForce E fe.cutforcesq fe.rdr fe.nr fe.rhor_spline fe.z2r_spline fe.fp x l i 2 := by
  induction l generalizing s with
  | nil => simp [specForce, withinCutoff]
  | cons a l ih =>
    rw [List.foldl_cons, (ih _).1, (ih _).2.1, (ih _).2.2, halfForceStep_eq]
    by_cases hc : specRsq E x i a < fe.cutforcesq
    · simp only [if_pos hc, specForce, withinCutoff_cons_pos _ _ _ _ _ _ hc, List.map_cons,
        List.sum_cons]
      refine ⟨by ring, by ring, by ring⟩
    · simp only [if_neg hc, specForce, withinCutoff_cons_neg _ _ _ _ _ _ hc]
      simp

theorem halfForceAtom_ev (E : Env K) (fe : ForceEAM K) (x : ℤ → K) (nlocal : ℤ)
    (nb : Neighbor) (i : ℤ) (s : (ℤ → K) × K × K) :
    (halfForceAtom E fe x nlocal nb i s).2.1 =
      s.2.1 + (if fe.evflag ≠ 0 then
        ((withinCutoff E fe.cutforcesq x i (halfNeighList nb i)).map (fun j =>
          specWeight nlocal j * (specRsq E x i j *
            specFpair E fe.rdr fe.nr fe.rhor_spline fe.z2r_spline fe.fp x i j))).sum
        else 0) ∧
    (halfForceAtom E fe x nlocal nb i s).2.2 =
      s.2.2 + ((withinCutoff E fe.cutforcesq x i (halfNeighList nb i)).map
        (fun j => specWeight nlocal j * specPhi E fe.rdr fe.nr fe.z2r_spline x i j)).sum := by
  unfold halfForceAtom
  simp only [foldl_map_loop]
  rw [(halfForce_fold_ev _ _ _ _ _ _ _).1, (halfForce_fold_ev _ _ _ _ _ _ _).2]
  constructor
  · split_ifs
    · rfl
    · simp
  · rfl

theorem halfEmbedAtom_evdwl (fe : ForceEAM K) (rho : ℤ → K) (i : ℤ) (s : (ℤ → K) × K) :
    (halfEmbedAtom fe rho i s).2 =
      s.2 + (if fe.evflag ≠ 0 then specEmbed fe.rdrho fe.nrho fe.frho_spline (rho i) else 0) := by
  unfold halfEmbedAtom
  split_ifs
  · rfl
  · simp

theorem halfPrep_fields (E : Env K) (fe : ForceEAM K) (atom : Atom K) :
    halfPrep E fe atom =
      { fe with
        virial := 0, nmax := (halfPrep E fe atom).nmax,
        rho := (halfPrep E fe atom).rho, fp := (halfPrep E fe atom).fp } := by
  unfold halfPrep
  split_ifs <;> rfl

theorem halfComm_fields (E : Env K) (fe : ForceEAM K) (atom : Atom K) (nb : Neighbor)
    (comm : Comm K) :
    (halfComm E fe atom nb comm).1 =
      { fe with
        virial := 0, nmax := (halfPrep E fe atom).nmax,
        rho := halfRho E fe atom nb,
        fp := (halfComm E fe atom nb comm).1.fp } := by
  have h := communicate_fields E
    { halfPrep E fe atom with rho := halfRho E fe atom nb, fp := (halfEmbed E fe atom nb).1 } comm
  unfold halfComm
  rw [h, halfPrep_fields]

/-- What the half-list kernel leaves in `eng_vdwl` and `virial`, for any `evflag`. -/
theorem halfneigh_energy_virial (E : Env K) (fe : ForceEAM K) (atom : Atom K) (nb : Neighbor)
    (comm : Comm K) :
    (ForceEAM_compute_halfneigh E fe atom nb comm).1.eng_vdwl =
      (if fe.evflag ≠ 0 then
        ((loopIdx 0 atom.nlocal).map (fun i => specEmbed fe.rdrho fe.nrho fe.frho_spline
          ((ForceEAM_compute_halfneigh E fe atom nb comm).1.rho i))).sum
        else 0) +
      ((loopIdx 0 atom.nlocal).map (fun i =>
        ((withinCutoff E fe.cutforcesq atom.x i (halfNeighList nb i)).map (fun j =>
          specWeight atom.nlocal j * specPhi E fe.rdr fe.nr fe.z2r_spline atom.x i j)).sum)).sum ∧
    (ForceEAM_compute_halfneigh E fe atom nb comm).1.virial =
      (if fe.evflag ≠ 0 then
        ((loopIdx 0 atom.nlocal).map (fun i =>
          ((withinCutoff E fe.cutforcesq atom.x i (halfNeighList nb i)).map (fun j =>
            specWeight atom.nlocal j * (specRsq E atom.x i j *
              specFpair E fe.rdr fe.nr fe.rhor_spline fe.z2r_spline
                (ForceEAM_compute_halfneigh E fe atom nb comm).1.fp atom.x i j))).sum)).sum
        else 0) := by
  rw [compute_halfneigh_stages]
  simp only
  have hf := halfComm_fields E fe atom nb comm
  have hev : (halfComm E fe atom nb comm).1.evflag = fe.evflag := by rw [hf]
  have hcut : (halfComm E fe atom nb comm).1.cutforcesq = fe.cutforcesq := by rw [hf]
  have hrdr : (halfComm E fe atom nb comm).1.rdr = fe.rdr := by rw [hf]
  have hnr : (halfComm E fe atom nb comm).1.nr = fe.nr := by rw [hf]
  have hrs : (halfComm E fe atom nb comm).1.rhor_spline = fe.rhor_spline := by rw [hf]
  have hzs : (halfComm E fe atom nb comm).1.z2r_spline = fe.z2r_spline := by rw [hf]
  have hvir : (halfComm E fe atom nb comm).1.virial = 0 := by rw [hf]
  have hrho : (halfComm E fe atom nb comm).1.rho = halfRho E fe atom nb := by rw [hf]
  have hp := halfPrep_fields E fe atom
  have hpe : (halfPrep E fe atom).evflag = fe.evflag := by rw [hp]
  have hprd : (halfPrep E fe atom).rdrho = fe.rdrho := by rw [hp]
  have hpn : (halfPrep E fe atom).nrho = fe.nrho := by rw [hp]
  have hpf : (halfPrep E fe atom).frho_spline = fe.frho_spline := by rw [hp]
  constructor
  · unfold halfForce
    rw [forLoop_sum 0 atom.nlocal _ (fun s : (ℤ → K) × K × K => s.2.2) _
      (fun i _ _ s => (halfForceAtom_ev E _ atom.x atom.nlocal nb i s).2)]
    simp only [hcut, hrdr, hnr, hzs, hrho]
    congr 1
    unfold halfEmbed
    have he := forLoop_sum 0 atom.nlocal
      (halfEmbedAtom { halfPrep E fe atom with rho := halfRho E fe atom nb }
        (halfRho E fe atom nb))
      (fun s : (ℤ → K) × K => s.2) _ (fun i _ _ s => halfEmbedAtom_evdwl _ _ i s)
      ((halfPrep E fe atom).fp, 0.0)
    simp only at he
    rw [he]
    simp only [hpe, hprd, hpn, hpf]
    split_ifs
    · norm_num
    · norm_num
  · unfold halfForce
    rw [forLoop_sum 0 atom.nlocal _ (fun s : (ℤ → K) × K × K => s.2.1) _
      (fun i _ _ s => (halfForceAtom_ev E _ atom.x atom.nlocal nb i s).1)]
    simp only [hcut, hrdr, hnr, hzs, hrs, hev, hvir, zero_add]
    split_ifs
    · rfl
    · simp

theorem fullDensity_fold (E : Env K) (fe : ForceEAM K) (x : ℤ → K) (i : ℤ) (l : List ℤ)
    (rhoi : K) :
    l.foldl (fun s j => fullDensityStep E fe x i j s) rhoi =
      rhoi + specDensity E fe.cutforcesq fe.rdr fe.nr fe.d_rhor_spline x l i := by
  induction l generalizing rhoi with
  | nil => simp [specDensity, withinCutoff]
  | cons a l ih =>
    rw [List.foldl_cons, ih, fullDensityStep_eq]
    by_cases hc : specRsq E x i a < fe.cutforcesq
    · simp only [if_pos hc, specDensity, withinCutoff_cons_pos _ _ _ _ _ _ hc, List.map_cons,
        List.sum_cons]
      ring
    · simp only [if_neg hc, specDensity, withinCutoff_cons_neg _ _ _ _ _ _ hc]

theorem fullDensityAtom_eq (E : Env K) (fe : ForceEAM K) (x : ℤ → K) (nb : Neighbor) (i : ℤ)
    (s : (ℤ → K) × K) :
    fullDensityAtom E fe x nb i s =
      (update s.1 i (specEmbedDeriv fe.rdrho fe.nrho fe.d_frho_spline
          (specDensity E fe.cutforcesq fe.rdr fe.nr fe.d_rhor_spline x (fullNeighList E nb i) i)),
        s.2 + (if E.ENABLE_EV_CALCULATION = true ∧ fe.evflag ≠ 0 then
          specEmbed fe.rdrho fe.nrho fe.frho_spline
            (specDensity E fe.cutforcesq fe.rdr fe.nr fe.d_rhor_spline x (fullNeighList E nb i) i)
          else 0)) := by
  unfold fullDensityAtom
  simp only [foldl_map_loop, fullDensity_fold, zero_add]
  split_ifs
  · rfl
  · simp only [add_zero]; rfl

theorem fullPrep_fields (E : Env K) (fe : ForceEAM K) (atom : Atom K) :
    fullPrep E fe atom =
      { fe with
        virial := 0, nmax := (fullPrep E fe atom).nmax, fp := (fullPrep E fe atom).fp } := by
  unfold fullPrep
  split_ifs <;> rfl

theorem fullComm_fields (E : Env K) (fe : ForceEAM K) (atom : Atom K) (nb : Neighbor)
    (comm : Comm K) :
    (fullComm E fe atom nb comm).1 =
      { fe with
        virial := 0, nmax := (fullPrep E fe atom).nmax,
        fp := (fullComm E fe atom nb comm).1.fp } := by
  have h := communicate_fields E
    { fullPrep E fe atom with fp := (fullKernel1 E fe atom nb).1 } comm
  unfold fullComm
  rw [h, fullPrep_fields]

/-- What the full-list kernel leaves in `eng_vdwl` and `virial`. -/
theorem fullneigh_energy_virial (E : Env K) (fe : ForceEAM K) (atom : Atom K) (nb : Neighbor)
    (comm : Comm K) :
    (ForceEAM_compute_fullneigh E fe atom nb comm).1.eng_vdwl =
      fe.eng_vdwl + 2 * (if E.ENABLE_EV_CALCULATION = true ∧ fe.evflag ≠ 0 then
        ((loopIdx 0 atom.nlocal).map (fun i => specEmbed fe.rdrho fe.nrho fe.frho_spline
          (specDensity E fe.cutforcesq fe.rdr fe.nr fe.d_rhor_spline atom.d_x
            (fullNeighList E nb i) i))).sum +
        ((loopIdx 0 atom.nlocal).map (fun i =>
          ((withinCutoff E fe.cutforcesq atom.d_x i (fullNeighList E nb i)).map (fun j =>
            specPhi E fe.rdr fe.nr fe.d_z2r_spline atom.d_x i j / 2)).sum)).sum
        else 0) ∧
    (ForceEAM_compute_fullneigh E fe atom nb comm).1.virial =
      (if E.ENABLE_EV_CALCULATION = true ∧ fe.evflag ≠ 0 then
        ((loopIdx 0 atom.nlocal).map (fun i =>
          ((withinCutoff E fe.cutforcesq atom.d_x i (fullNeighList E nb i)).map (fun j =>
            specRsq E atom.d_x i j *
              (specFpair E fe.rdr fe.nr fe.d_rhor_spline fe.d_z2r_spline
                (ForceEAM_compute_fullneigh E fe atom nb comm).1.fp atom.d_x i j / 2))).sum)).sum
        else 0) := by
  rw [compute_fullneigh_stages]
  simp only
  have hf := fullComm_fields E fe atom nb comm
  have hev : (fullComm E fe atom nb comm).1.evflag = fe.evflag := by rw [hf]
  have hcut : (fullComm E fe atom nb comm).1.cutforcesq = fe.cutforcesq := by rw [hf]
  have hrdr : (fullComm E fe atom nb comm).1.rdr = fe.rdr := by rw [hf]
  have hnr : (fullComm E fe atom nb comm).1.nr = fe.nr := by rw [hf]
  have hrs : (fullComm E fe atom nb comm).1.d_rhor_spline = fe.d_rhor_spline := by rw [hf]
  have hzs : (fullComm E fe atom nb comm).1.d_z2r_spline = fe.d_z2r_spline := by rw [hf]
  have hvir : (fullComm E fe atom nb comm).1.virial = 0 := by rw [hf]
  have heng : (fullComm E fe atom nb comm).1.eng_vdwl = fe.eng_vdwl := by rw [hf]
  have hp := fullPrep_fields E fe atom
  have hpe : (fullPrep E fe atom).evflag = fe.evflag := by rw [hp]
  have hprd : (fullPrep E fe atom).rdrho = fe.rdrho := by rw [hp]
  have hpn : (fullPrep E fe atom).nrho = fe.nrho := by rw [hp]
  have hpf : (fullPrep E fe atom).frho_spline = fe.frho_spline := by rw [hp]
  have hpc : (fullPrep E fe atom).cutforcesq = fe.cutforcesq := by rw [hp]
  have hpr : (fullPrep E fe atom).rdr = fe.rdr := by rw [hp]
  have hpnr : (fullPrep E fe atom).nr = fe.nr := by rw [hp]
  have hprs : (fullPrep E fe atom).d_rhor_spline = fe.d_rhor_spline := by rw [hp]
  have hk1 : (fullKernel1 E fe atom nb).2 =
      if E.ENABLE_EV_CALCULATION = true ∧ fe.evflag ≠ 0 then
        ((loopIdx 0 atom.nlocal).map (fun i => specEmbed fe.rdrho fe.nrho fe.frho_spline
          (specDensity E fe.cutforcesq fe.rdr fe.nr fe.d_rhor_spline atom.d_x
            (fullNeighList E nb i) i))).sum
      else 0 := by
    have he := forLoop_sum 0 atom.nlocal
      (fullDensityAtom E (fullPrep E fe atom) atom.d_x nb)
      (fun s : (ℤ → K) × K => s.2) _
      (fun i _ _ s => congrArg Prod.snd (fullDensityAtom_eq E _ atom.d_x nb i s))
      ((fullPrep E fe atom).fp, 0.0)
    simp only at he
    unfold fullKernel1
    rw [he]
    simp only [hpe, hprd, hpn, hpf, hpc, hpr, hpnr, hprs]
    split_ifs
    · norm_num
    · norm_num
  have hk2e := forLoop_sum 0 atom.nlocal
      (fullForceAtom E (fullComm E fe atom nb comm).1 atom.d_x nb)
      (fun s : (ℤ → K) × K × K => s.2.2)
      (fun i => if E.ENABLE_EV_CALCULATION = true ∧ fe.evflag ≠ 0 then
        ((withinCutoff E fe.cutforcesq atom.d_x i (fullNeighList E nb i)).map (fun j =>
            specPhi E fe.rdr fe.nr fe.d_z2r_spline atom.d_x i j / 2)).sum else 0)
      (fun i _ _ s => by
        rw [fullForceAtom_eq]
        simp only [hev, hcut, hrdr, hnr, hzs]
        split_ifs
        · rfl
        · simp)
      (atom.d_f, 0, (fullKernel1 E fe atom nb).2)
  have hk2v := forLoop_sum 0 atom.nlocal
      (fullForceAtom E (fullComm E fe atom nb comm).1 atom.d_x nb)
      (fun s : (ℤ → K) × K × K => s.2.1)
      (fun i => if E.ENABLE_EV_CALCULATION = true ∧ fe.evflag ≠ 0 then
        ((withinCutoff E fe.cutforcesq atom.d_x i (fullNeighList E nb i)).map (fun j =>
            specRsq E atom.d_x i j *
              (specFpair E fe.rdr fe.nr fe.d_rhor_spline fe.d_z2r_spline
                (fullComm E fe atom nb comm).1.fp atom.d_x i j / 2))).sum else 0)
      (fun i _ _ s => by
        rw [fullForceAtom_eq]
        simp only [hev, hcut, hrdr, hnr, hzs, hrs]
        split_ifs
        · rfl
        · simp)
      (atom.d_f, 0, (fullKernel1 E fe atom nb).2)
  simp only at hk2e hk2v
  constructor
  · unfold fullKernel2
    rw [heng, hk2e, hk1]
    split_ifs
    · norm_num
    · simp
  · unfold fullKernel2
    rw [hvir, hk2v]
    split_ifs
    · simp
    · simp

end Energy

/-! ## The example configuration evaluated -/

theorem rat_sqrt_one : Rat.sqrt 1 = 1 := by
  have h := Rat.sqrt_eq 1
  rw [mul_one, abs_one] at h
  exact h

theorem ex_half_list0 : halfNeighList exNeighbor 0 = [1] := by decide
theorem ex_half_list1 : halfNeighList exNeighbor 1 = [] := by decide

theorem ex_rsq : specRsq exEnv exAtom.x 0 1 = 1 := by
  simp [specRsq, specDel, exEnv, exAtom]

theorem ex_lookup : pairLookup (1 : ℚ) 10 1 = (2, 0) := by
  have h : cTrunc ((1 : ℚ) * 1 + 1) = 2 := by
    unfold cTrunc
    norm_num
  simp only [pairLookup, h]
  norm_num

theorem ex_phi (e : ℤ) :
    specPhi exEnv (exForce e).rdr (exForce e).nr (exForce e).z2r_spline exAtom.x 0 1 = 1 := by
  simp only [specPhi, ex_rsq]
  simp [exEnv, exForce, rat_sqrt_one, ex_lookup, splineValue, exTable]

theorem ex_full_nolist (i : ℤ) : fullNeighList exEnv exNoNeighbor i = [] := by
  simp [fullNeighList, exNoNeighbor, loopIdx]

theorem ex_embed_zero (e : ℤ) :
    specEmbed (exForce e).rdrho (exForce e).nrho (exForce e).frho_spline 0 = 1 := by
  have h : cTrunc ((1 : ℚ) * 0 * 1 + 1) = 1 := by
    unfold cTrunc
    norm_num
  simp only [specEmbed, embedLookup, exForce, h]
  norm_num [splineValue, exTable]

/-! ## Newton's third law in the half-list kernel -/

section Newton

variable {K : Type} [LinearOrderedField K] [FloorRing K]

/-- Writing the cell of atom `j`, component `d'`, changes the total of component
`d` by the change of that cell when `d' = d`, and not at all otherwise. -/
theorem specTotalForce_update (E : Env K) (hP : 3 ≤ E.PAD) (nall : ℤ) (f : ℤ → K) (j : ℤ)
    (hj : 0 ≤ j ∧ j < nall) (d d' : ℤ) (hd : 0 ≤ d ∧ d < 3) (hd' : 0 ≤ d' ∧ d' < 3) (v : K) :
    specTotalForce E nall (update f (j * E.PAD + d') v) d =
      specTotalForce E nall f d + (if d' = d then v - f (j * E.PAD + d) else 0) := by
  unfold specTotalForce
  by_cases hdd : d' = d
  · subst hdd
    rw [if_pos rfl, loopIdx_append (show (0 : ℤ) ≤ j + 1 by omega) (show j + 1 ≤ nall by omega),
      loopIdx_snoc hj.1]
    simp only [List.map_append, List.sum_append, List.map_cons, List.map_nil, List.sum_cons,
      List.sum_nil, update_same]
    have h1 : (loopIdx 0 j).map (fun t => update f (j * E.PAD + d') v (t * E.PAD + d')) =
        (loopIdx 0 j).map (fun t => f (t * E.PAD + d')) := by
      apply List.map_congr_left
      intro t ht
      have := (loopIdx_mem.1 ht).2
      rw [update_noteq]
      intro h
      have := (cell_inj hP hd' hd' h).1
      omega
    have h2 : (loopIdx (j + 1) nall).map (fun t => update f (j * E.PAD + d') v (t * E.PAD + d')) =
        (loopIdx (j + 1) nall).map (fun t => f (t * E.PAD + d')) := by
      apply List.map_congr_left
      intro t ht
      have := (loopIdx_mem.1 ht).1
      rw [update_noteq]
      intro h
      have := (cell_inj hP hd' hd' h).1
      omega
    rw [h1, h2]
    ring
  · rw [if_neg hdd, add_zero]
    congr 1
    apply List.map_congr_left
    intro t _
    rw [update_noteq]
    intro h
    have := (cell_inj hP hd hd' h).2
    omega

theorem zeroForces_cell (E : Env K) (hP : 3 ≤ E.PAD) (nall : ℤ) (f : ℤ → K) (t : ℤ)
    (ht : 0 ≤ t ∧ t < nall) (d : ℤ) (hd : 0 ≤ d ∧ d < 3) :
    zeroForces E nall f (t * E.PAD + d) = 0 := by
  unfold zeroForces
  rw [forLoop_cell_at ht.1 ht.2]
  · have : d = 0 ∨ d = 1 ∨ d = 2 := by omega
    rcases this with rfl | rfl | rfl
    · rw [update_noteq (by omega), update_noteq (by omega), update_same]
    · rw [update_noteq (by omega), update_same]
    · rw [update_same]
  · intro i hi _ s
    have hne : ∀ d', 0 ≤ d' ∧ d' < 3 → t * E.PAD + d ≠ i * E.PAD + d' := by
      intro d' hd' h
      have := (cell_inj hP hd hd' h).1
      omega
    rw [update_noteq (hne 2 (by omega)), update_noteq (hne 1 (by omega)),
      update_noteq (hne 0 (by omega))]

theorem specTotalForce_zeroForces (E : Env K) (hP : 3 ≤ E.PAD) (nall : ℤ) (f : ℤ → K) (d : ℤ)
    (hd : 0 ≤ d ∧ d < 3) : specTotalForce E nall (zeroForces E nall f) d = 0 := by
  unfold specTotalForce
  apply List.sum_eq_zero
  intro v hv
  obtain ⟨t, ht, rfl⟩ := List.mem_map.1 hv
  exact zeroForces_cell E hP nall f t (loopIdx_mem.1 ht) d hd

/-- One step of the `jj` loop for an owned neighbour keeps, in every component,
the total force plus the force accumulated for atom `i`. -/
theorem halfForceStep_total (E : Env K) (hP : 3 ≤ E.PAD) (fe : ForceEAM K) (x : ℤ → K)
    (nlocal nall i j : ℤ) (hj : 0 ≤ j ∧ j < nlocal) (hn : nlocal ≤ nall) (s : HalfAcc K) :
    specTotalForce E nall (halfForceStep E fe x nlocal i j s).f 0 +
        (halfForceStep E fe x nlocal i j s).fx = specTotalForce E nall s.f 0 + s.fx ∧
    specTotalForce E nall (halfForceStep E fe x nlocal i j s).f 1 +
        (halfForceStep E fe x nlocal i j s).fy = specTotalForce E nall s.f 1 + s.fy ∧
    specTotalForce E nall (halfForceStep E fe x nlocal i j s).f 2 +
        (halfForceStep E fe x nlocal i j s).fz = specTotalForce E nall s.f 2 + s.fz := by
  rw [halfForceStep_eq]
  have hj' : 0 ≤ j ∧ j < nall := ⟨hj.1, by omega⟩
  by_cases hc : specRsq E x i j < fe.cutforcesq
  · simp only [if_pos hc, if_pos hj.2]
    refine ⟨?_, ?_, ?_⟩
    · rw [specTotalForce_update E hP nall _ j hj' 0 2 (by omega) (by omega),
        specTotalForce_update E hP nall _ j hj' 0 1 (by omega) (by omega),
        specTotalForce_update E hP nall _ j hj' 0 0 (by omega) (by omega)]
      simp only [if_pos, if_neg (show (2 : ℤ) ≠ 0 by omega), if_neg (show (1 : ℤ) ≠ 0 by omega)]
      ring
    · rw [specTotalForce_update E hP nall _ j hj' 1 2 (by omega) (by omega),
        specTotalForce_update E hP nall _ j hj' 1 1 (by omega) (by omega),
        specTotalForce_update E hP nall _ j hj' 1 0 (by omega) (by omega)]
      simp only [if_pos, if_neg (show (2 : ℤ) ≠ 1 by omega), if_neg (show (0 : ℤ) ≠ 1 by omega)]
      rw [update_noteq (by omega)]
      ring
    · rw [specTotalForce_update E hP nall _ j hj' 2 2 (by omega) (by omega),
        specTotalForce_update E hP nall _ j hj' 2 1 (by omega) (by omega),
        specTotalForce_update E hP nall _ j hj' 2 0 (by omega) (by omega)]
      simp only [if_pos, if_neg (show (1 : ℤ) ≠ 2 by omega), if_neg (show (0 : ℤ) ≠ 2 by omega)]
      rw [update_noteq (by omega), update_noteq (by omega)]
      ring
  · simp only [if_neg hc]
    simp

theorem halfForce_fold_total (E : Env K) (hP : 3 ≤ E.PAD) (fe : ForceEAM K) (x : ℤ → K)
    (nlocal nall i : ℤ) (hn : nlocal ≤ nall) (l : List ℤ)
    (hl : ∀ j ∈ l, 0 ≤ j ∧ j < nlocal) (s : HalfAcc K) :
    specTotalForce E nall (l.foldl (fun s j => halfForceStep E fe x nlocal i j s) s).f 0 +
        (l.foldl (fun s j => halfForceStep E fe x nlocal i j s) s).fx =
      specTotalForce E nall s.f 0 + s.fx ∧
    specTotalForce E nall (l.foldl (fun s j => halfForceStep E fe x nlocal i j s) s).f 1 +
        (l.foldl (fun s j => halfForceStep E fe x nlocal i j s) s).fy =
      specTotalForce E nall s.f 1 + s.fy ∧
    specTotalForce E nall (l.foldl (fun s j => halfForceStep E fe x nlocal i j s) s).f 2 +
        (l.foldl (fun s j => halfForceStep E fe x nlocal i j s) s).fz =
      specTotalForce E nall s.f 2 + s.fz := by
  induction l generalizing s with
  | nil => exact ⟨rfl, rfl, rfl⟩
  | cons a l ih =>
    have hs := halfForceStep_total E hP fe x nlocal nall i a (hl a (List.mem_cons_self _ _)) hn s
    have hi := ih (fun j hj => hl j (List.mem_cons_of_mem _ hj)) (halfForceStep E fe x nlocal i a s)
    rw [List.foldl_cons]
    exact ⟨hi.1.trans hs.1, hi.2.1.trans hs.2.1, hi.2.2.trans hs.2.2⟩

/-- One iteration of the force pass over an atom whose listed neighbours are all
owned leaves the total force unchanged. -/
theorem halfForceAtom_total (E : Env K) (hP : 3 ≤ E.PAD) (fe : ForceEAM K) (x : ℤ → K)
    (nlocal nall : ℤ) (nb : Neighbor) (i : ℤ) (hi : 0 ≤ i ∧ i < nlocal) (hn : nlocal ≤ nall)
    (hl : ∀ j ∈ halfNeighList nb i, 0 ≤ j ∧ j < nlocal) (s : (ℤ → K) × K × K) (d : ℤ)
    (hd : 0 ≤ d ∧ d < 3) :
    specTotalForce E nall (halfForceAtom E fe x nlocal nb i s).1 d =
      specTotalForce E nall s.1 d := by
  have hi' : 0 ≤ i ∧ i < nall := ⟨hi.1, by omega⟩
  have hf := halfForce_fold_total E hP fe x nlocal nall i hn (halfNeighList nb i) hl
    { fx := 0, fy := 0, fz := 0, f := s.1, virial := s.2.1, evdwl := s.2.2 }
  simp only [add_zero] at hf
  unfold halfForceAtom
  simp only [foldl_map_loop]
  unfold halfNeighList at hf
  have : d = 0 ∨ d = 1 ∨ d = 2 := by omega
  rcases this with rfl | rfl | rfl
  · rw [specTotalForce_update E hP nall _ i hi' 0 2 (by omega) (by omega),
      specTotalForce_update E hP nall _ i hi' 0 1 (by omega) (by omega),
      specTotalForce_update E hP nall _ i hi' 0 0 (by omega) (by omega)]
    simp only [if_pos, if_neg (show (2 : ℤ) ≠ 0 by omega), if_neg (show (1 : ℤ) ≠ 0 by omega)]
    rw [← hf.1]
    ring
  · rw [specTotalForce_update E hP nall _ i hi' 1 2 (by omega) (by omega),
      specTotalForce_update E hP nall _ i hi' 1 1 (by omega) (by omega),
      specTotalForce_update E hP nall _ i hi' 1 0 (by omega) (by omega)]
    simp only [if_pos, if_neg (show (2 : ℤ) ≠ 1 by omega), if_neg (show (0 : ℤ) ≠ 1 by omega)]
    rw [update_noteq (by omega), ← hf.2.1]
    ring
  · rw [specTotalForce_update E hP nall _ i hi' 2 2 (by omega) (by omega),
      specTotalForce_update E hP nall _ i hi' 2 1 (by omega) (by omega),
      specTotalForce_update E hP nall _ i hi' 2 0 (by omega) (by omega)]
    simp only [if_pos, if_neg (show (1 : ℤ) ≠ 2 by omega), if_neg (show (0 : ℤ) ≠ 2 by omega)]
    rw [update_noteq (by omega), update_noteq (by omega), ← hf.2.2]
    ring

/-- C3: Newton's third law in the half-list kernel.  When the stride is at least
3, the ghost count is not negative and every neighbour listed for an owned atom
is an owned atom, each component (`d = 0, 1, 2`) of the force summed over all
atoms `0 ≤ t < nlocal + nghost` is exactly zero after the kernel. -/
theorem halfneigh_total_force_zero (E : Env K) (fe : ForceEAM K) (atom : Atom K)
    (nb : Neighbor) (comm : Comm K) (hP : 3 ≤ E.PAD) (hg : 0 ≤ atom.nghost)
    (hl : ∀ i, 0 ≤ i → i < atom.nlocal → ∀ j ∈ halfNeighList nb i, 0 ≤ j ∧ j < atom.nlocal)
    (d : ℤ) (hd : 0 ≤ d ∧ d < 3) :
    specTotalForce E (atom.nlocal + atom.nghost)
      (ForceEAM_compute_halfneigh E fe atom nb comm).2.1.f d = 0 := by
  rw [compute_halfneigh_stages]
  simp only
  unfold halfForce
  rw [forLoop_frame 0 atom.nlocal _
    (fun s : (ℤ → K) × K × K => specTotalForce E (atom.nlocal + atom.nghost) s.1 d)
    (fun i h0 h1 s => halfForceAtom_total E hP _ atom.x atom.nlocal _ nb i ⟨h0, h1⟩
      (by omega) (hl i h0 h1) s d hd)]
  exact specTotalForce_zeroForces E hP _ atom.f d hd

end Newton

/-! ## The cutoff is strict -/

section Cutoff

variable {K : Type} [LinearOrderedField K] [FloorRing K]

/-- Erasing from a list an entry that is not within the cutoff does not change
the entries within the cutoff. -/
theorem withinCutoff_eraseIdx (E : Env K) (cut : K) (x : ℤ → K) (i : ℤ) (l : List ℤ) (k : ℕ)
    (h : ∀ j, l[k]? = some j → ¬ specRsq E x i j < cut) :
    withinCutoff E cut x i (l.eraseIdx k) = withinCutoff E cut x i l := by
  induction l generalizing k with
  | nil => rfl
  | cons a l ih =>
    cases k with
    | zero =>
      have ha : ¬ specRsq E x i a < cut := h a (by simp)
      rw [List.eraseIdx_cons_zero, withinCutoff_cons_neg _ _ _ _ _ _ ha]
    | succ k =>
      rw [List.eraseIdx_cons_succ]
      have hl := ih k (fun j hj => h j (by simpa using hj))
      by_cases ha : specRsq E x i a < cut
      · rw [withinCutoff_cons_pos _ _ _ _ _ _ ha, withinCutoff_cons_pos _ _ _ _ _ _ ha, hl]
      · rw [withinCutoff_cons_neg _ _ _ _ _ _ ha, withinCutoff_cons_neg _ _ _ _ _ _ ha, hl]

theorem halfDensityAtom_withinCutoff (E : Env K) (fe : ForceEAM K) (x : ℤ → K) (nlocal : ℤ)
    (nb : Neighbor) (i : ℤ) (rho : ℤ → K) :
    halfDensityAtom E fe x nlocal nb i rho =
      update ((withinCutoff E fe.cutforcesq x i (halfNeighList nb i)).foldl
          (fun s j => halfDensityStep E fe x nlocal i j s) (0.0, rho)).2 i
        (((withinCutoff E fe.cutforcesq x i (halfNeighList nb i)).foldl
          (fun s j => halfDensityStep E fe x nlocal i j s) (0.0, rho)).2 i +
        ((withinCutoff E fe.cutforcesq x i (halfNeighList nb i)).foldl
          (fun s j => halfDensityStep E fe x nlocal i j s) (0.0, rho)).1) := by
  unfold halfDensityAtom
  simp only [foldl_map_loop]
  rw [foldl_withinCutoff E fe.cutforcesq x i (fun j s => halfDensityStep E fe x nlocal i j s)
    (fun j s hc => by show halfDensityStep E fe x nlocal i j s = s; rw [halfDensityStep_eq, if_neg hc])]
  rfl

theorem halfForceAtom_withinCutoff (E : Env K) (fe : ForceEAM K) (x : ℤ → K) (nlocal : ℤ)
    (nb : Neighbor) (i : ℤ) (s : (ℤ → K) × K × K) :
    halfForceAtom E fe x nlocal nb i s =
      (fun a : HalfAcc K =>
        (update (update (update a.f (i * E.PAD + 0) (a.f (i * E.PAD + 0) + a.fx))
            (i * E.PAD + 1)
            (update a.f (i * E.PAD + 0) (a.f (i * E.PAD + 0) + a.fx) (i * E.PAD + 1) + a.fy))
            (i * E.PAD + 2)
            (update (update a.f (i * E.PAD + 0) (a.f (i * E.PAD + 0) + a.fx))
              (i * E.PAD + 1)
              (update a.f (i * E.PAD + 0) (a.f (i * E.PAD + 0) + a.fx) (i * E.PAD + 1) + a.fy)
              (i * E.PAD + 2) + a.fz),
          a.virial, a.evdwl))
      ((withinCutoff E fe.cutforcesq x i (halfNeighList nb i)).foldl
        (fun s j => halfForceStep E fe x nlocal i j s)
        { fx := 0, fy := 0, fz := 0, f := s.1, virial := s.2.1, evdwl := s.2.2 }) := by
  unfold halfForceAtom
  simp only [foldl_map_loop]
  rw [foldl_withinCutoff E fe.cutforcesq x i (fun j s => halfForceStep E fe x nlocal i j s)
    (fun j s hc => by show halfForceStep E fe x nlocal i j s = s; rw [halfForceStep_eq, if_neg hc])]
  rfl

theorem fullDensityAtom_withinCutoff (E : Env K) (fe : ForceEAM K) (x : ℤ → K)
    (nb nb' : Neighbor) (i : ℤ) (s : (ℤ → K) × K)
    (h : withinCutoff E fe.cutforcesq x i (fullNeighList E nb' i) =
      withinCutoff E fe.cutforcesq x i (fullNeighList E nb i)) :
    fullDensityAtom E fe x nb' i s = fullDensityAtom E fe x nb i s := by
  rw [fullDensityAtom_eq, fullDensityAtom_eq]
  unfold specDensity
  rw [h]

theorem fullForceAtom_withinCutoff (E : Env K) (fe : ForceEAM K) (x : ℤ → K)
    (nb nb' : Neighbor) (i : ℤ) (s : (ℤ → K) × K × K)
    (h : withinCutoff E fe.cutforcesq x i (fullNeighList E nb' i) =
      withinCutoff E fe.cutforcesq x i (fullNeighList E nb i)) :
    fullForceAtom E fe x nb' i s = fullForceAtom E fe x nb i s := by
  rw [fullForceAtom_eq, fullForceAtom_eq]
  unfold specForce
  rw [h]

/-- The half-list kernel depends on the neighbour lists only through their
entries within the cutoff. -/
theorem halfneigh_congr (E : Env K) (fe : ForceEAM K) (atom : Atom K) (nb nb' : Neighbor)
    (comm : Comm K)
    (h : ∀ i, 0 ≤ i → i < atom.nlocal →
      withinCutoff E fe.cutforcesq atom.x i (halfNeighList nb' i) =
        withinCutoff E fe.cutforcesq atom.x i (halfNeighList nb i)) :
    ForceEAM_compute_halfneigh E fe atom nb' comm =
      ForceEAM_compute_halfneigh E fe atom nb comm := by
  have hpc : (halfPrep E fe atom).cutforcesq = fe.cutforcesq := by rw [halfPrep_fields]
  have hrho : halfRho E fe atom nb' = halfRho E fe atom nb := by
    unfold halfRho
    apply forLoop_congr
    intro i h0 h1 s
    rw [halfDensityAtom_withinCutoff, halfDensityAtom_withinCutoff, hpc, h i h0 h1]
  have hemb : halfEmbed E fe atom nb' = halfEmbed E fe atom nb := by
    unfold halfEmbed
    rw [hrho]
  have hcomm : halfComm E fe atom nb' comm = halfComm E fe atom nb comm := by
    unfold halfComm
    rw [hrho, hemb]
  have hcc : (halfComm E fe atom nb comm).1.cutforcesq = fe.cutforcesq := by
    rw [halfComm_fields]
  have hforce : halfForce E fe atom nb' comm = halfForce E fe atom nb comm := by
    unfold halfForce
    rw [hcomm, hemb]
    apply forLoop_congr
    intro i h0 h1 s
    rw [halfForceAtom_withinCutoff, halfForceAtom_withinCutoff, hcc, h i h0 h1]
  rw [compute_halfneigh_stages, compute_halfneigh_stages, hcomm, hforce]

/-- The full-list kernel depends on the neighbour lists only through their
entries within the cutoff. -/
theorem fullneigh_congr (E : Env K) (fe : ForceEAM K) (atom : Atom K) (nb nb' : Neighbor)
    (comm : Comm K)
    (h : ∀ i, 0 ≤ i → i < atom.nlocal →
      withinCutoff E fe.cutforcesq atom.d_x i (fullNeighList E nb' i) =
        withinCutoff E fe.cutforcesq atom.d_x i (fullNeighList E nb i)) :
    ForceEAM_compute_fullneigh E fe atom nb' comm =
      ForceEAM_compute_fullneigh E fe atom nb comm := by
  have hpc : (fullPrep E fe atom).cutforcesq = fe.cutforcesq := by rw [fullPrep_fields]
  have hk1 : fullKernel1 E fe atom nb' = fullKernel1 E fe atom nb := by
    unfold fullKernel1
    apply forLoop_congr
    intro i h0 h1 s
    exact fullDensityAtom_withinCutoff E _ atom.d_x nb nb' i s (by rw [hpc]; exact h i h0 h1)
  have hcomm : fullComm E fe atom nb' comm = fullComm E fe atom nb comm := by
    unfold fullComm
    rw [hk1]
  have hcc : (fullComm E fe atom nb comm).1.cutforcesq = fe.cutforcesq := by
    rw [fullComm_fields]
  have hk2 : fullKernel2 E fe atom nb' comm = fullKernel2 E fe atom nb comm := by
    unfold fullKernel2
    rw [hcomm, hk1]
    apply forLoop_congr
    intro i h0 h1 s
    exact fullForceAtom_withinCutoff E _ atom.d_x nb nb' i s (by rw [hcc]; exact h i h0 h1)
  rw [compute_fullneigh_stages, compute_fullneigh_stages, hcomm, hk2]

/-- C4: the force cutoff is strict in both kernels.  Let the neighbour lists
`nb'` be the lists `nb` with one entry removed from the half list of an atom
`iH` (position `kH`) and one entry removed from the full list of an atom `iF`
(position `kF`), the lists of the other owned atoms being the same, and let the
removed entries `j` have `|r_ij|^2 ≥ cutforcesq` (that is, not
`rsq < cutforcesq`).  Then each kernel returns the same `force_eam` (density,
`fp`, energy, virial), the same atom data (forces) and the same `comm` for `nb'`
as for `nb`.  (A position beyond the end of a list removes nothing.) -/
theorem cutoff_is_strict (E : Env K) (fe : ForceEAM K) (atom : Atom K) (nb nb' : Neighbor)
    (comm : Comm K) (iH : ℤ) (kH : ℕ) (iF : ℤ) (kF : ℕ)
    (hH0 : halfNeighList nb' iH = (halfNeighList nb iH).eraseIdx kH)
    (hH1 : ∀ i, 0 ≤ i → i < atom.nlocal → i ≠ iH → halfNeighList nb' i = halfNeighList nb i)
    (hH2 : ∀ j, (halfNeighList nb iH)[kH]? = some j → ¬ specRsq E atom.x iH j < fe.cutforcesq)
    (hF0 : fullNeighList E nb' iF = (fullNeighList E nb iF).eraseIdx kF)
    (hF1 : ∀ i, 0 ≤ i → i < atom.nlocal → i ≠ iF →
      fullNeighList E nb' i = fullNeighList E nb i)
    (hF2 : ∀ j, (fullNeighList E nb iF)[kF]? = some j →
      ¬ specRsq E atom.d_x iF j < fe.cutforcesq) :
    ForceEAM_compute_halfneigh E fe atom nb' comm =
      ForceEAM_compute_halfneigh E fe atom nb comm ∧
    ForceEAM_compute_fullneigh E fe atom nb' comm =
      ForceEAM_compute_fullneigh E fe atom nb comm := by
  constructor
  · apply halfneigh_congr
    intro i h0 h1
    by_cases hii : i = iH
    · subst hii
      rw [hH0, withinCutoff_eraseIdx _ _ _ _ _ _ hH2]
    · rw [hH1 i h0 h1 hii]
  · apply fullneigh_congr
    intro i h0 h1
    by_cases hii : i = iF
    · subst hii
      rw [hF0, withinCutoff_eraseIdx _ _ _ _ _ _ hF2]
    · rw [hF1 i h0 h1 hii]

end Cutoff

/-! ## Half list against full list -/

section HalfFull

variable {K : Type} [LinearOrderedField K] [FloorRing K]

theorem loopIdx_nodup (lo hi : ℤ) : (loopIdx lo hi).Nodup := by
  unfold loopIdx
  apply List.Nodup.map _ (List.nodup_range _)
  intro a b h
  simpa using h

theorem sum_map_ite_eq_of_nodup {M : Type} [AddCommMonoid M] (l : List ℤ) (hnd : l.Nodup)
    (c : ℤ → M) (j : ℤ) :
    (l.map (fun i => if i = j then c i else 0)).sum = if j ∈ l then c j else 0 := by
  induction l with
  | nil => simp
  | cons a l ih =>
    rw [List.nodup_cons] at hnd
    rw [List.map_cons, List.sum_cons, ih hnd.2]
    by_cases ha : a = j
    · subst ha
      simp [hnd.1]
    · have : j ≠ a := fun h => ha h.symm
      simp [ha, this]

theorem sum_map_flatMap_replicate (l : List ℤ) (c : ℤ → ℕ) (g : ℤ → K) :
    ((l.flatMap (fun i => List.replicate (c i) i)).map g).sum =
      (l.map (fun i => (c i : K) * g i)).sum := by
  induction l with
  | nil => simp
  | cons a l ih =>
    rw [List.flatMap_cons, List.map_append, List.sum_append, ih, List.map_cons, List.sum_cons,
      List.map_replicate, List.sum_replicate, nsmul_eq_mul]

/-- If the full list is, with multiplicities, the half list together with the
atoms whose half list contains `t`, a sum over the full list splits accordingly. -/
theorem sum_full_eq_half_add (n t : ℤ) (LF LH : List ℤ) (L : ℤ → List ℤ) (g : ℤ → K)
    (hc : ∀ j, LF.count j = LH.count j + (if 0 ≤ j ∧ j < n then (L j).count t else 0)) :
    (LF.map g).sum =
      (LH.map g).sum + ((loopIdx 0 n).map (fun i => ((L i).count t : K) * g i)).sum := by
  have hperm : LF.Perm (LH ++ (loopIdx 0 n).flatMap
      (fun i => List.replicate ((L i).count t) i)) := by
    rw [List.perm_iff_count]
    intro j
    rw [hc j, List.count_append, List.count_flatMap]
    congr 1
    have : (List.count j ∘ fun i => List.replicate ((L i).count t) i) =
        fun i => if i = j then (L i).count t else 0 := by
      funext i
      simp only [Function.comp, List.count_replicate]
      by_cases h : i = j
      · simp [h]
      · simp [h]
    rw [this, sum_map_ite_eq_of_nodup _ (loopIdx_nodup 0 n)]
    simp only [loopIdx_mem]
  rw [(hperm.map g).sum_eq, List.map_append, List.sum_append, sum_map_flatMap_replicate]

theorem sum_withinCutoff (E : Env K) (cut : K) (x : ℤ → K) (i : ℤ) (l : List ℤ) (h : ℤ → K) :
    ((withinCutoff E cut x i l).map h).sum =
      (l.map (fun j => if specRsq E x i j < cut then h j else 0)).sum := by
  induction l with
  | nil => rfl
  | cons a l ih =>
    by_cases hc : specRsq E x i a < cut
    · rw [withinCutoff_cons_pos _ _ _ _ _ _ hc, List.map_cons, List.sum_cons, ih, List.map_cons,
        List.sum_cons, if_pos hc]
    · rw [withinCutoff_cons_neg _ _ _ _ _ _ hc, ih, List.map_cons, List.sum_cons, if_neg hc,
        zero_add]

theorem sum_withinCutoff_ite (E : Env K) (cut : K) (x : ℤ → K) (i t : ℤ) (l : List ℤ)
    (h : ℤ → K) :
    ((withinCutoff E cut x i l).map (fun j => if j = t then h j else 0)).sum =
      (l.count t : K) * (if specRsq E x i t < cut then h t else 0) := by
  induction l with
  | nil => simp [withinCutoff]
  | cons a l ih =>
    by_cases ha : a = t
    · subst ha
      by_cases hc : specRsq E x i a < cut
      · rw [withinCutoff_cons_pos _ _ _ _ _ _ hc, List.map_cons, List.sum_cons, ih,
          List.count_cons_self, if_pos rfl, if_pos hc]
        push_cast
        ring
      · rw [withinCutoff_cons_neg _ _ _ _ _ _ hc, ih, if_neg hc]
        simp
    · have hcnt : (a :: l).count t = l.count t := List.count_cons_of_ne (fun h => ha h.symm) l
      by_cases hc : specRsq E x i a < cut
      · rw [withinCutoff_cons_pos _ _ _ _ _ _ hc, List.map_cons, List.sum_cons, ih, if_neg ha,
          zero_add, hcnt]
      · rw [withinCutoff_cons_neg _ _ _ _ _ _ hc, ih, hcnt]

theorem specDel_swap (E : Env K) (x : ℤ → K) (i j d : ℤ) :
    specDel E x i j d = -specDel E x j i d := by
  unfold specDel; ring

theorem specRsq_swap (E : Env K) (x : ℤ → K) (i j : ℤ) : specRsq E x i j = specRsq E x j i := by
  unfold specRsq
  rw [specDel_swap E x i j 0, specDel_swap E x i j 1, specDel_swap E x i j 2]
  ring

theorem specRho_swap (E : Env K) (rdr : K) (nr : ℤ) (rhor x : ℤ → K) (i j : ℤ) :
    specRho E rdr nr rhor x i j = specRho E rdr nr rhor x j i := by
  unfold specRho
  rw [specRsq_swap]

theorem specFpair_swap (E : Env K) (rdr : K) (nr : ℤ) (rhor z2r fp x : ℤ → K) (i j : ℤ) :
    specFpair E rdr nr rhor z2r fp x i j = specFpair E rdr nr rhor z2r fp x j i := by
  unfold specFpair
  rw [specRsq_swap]
  ring

theorem halfDensity_fold (E : Env K) (fe : ForceEAM K) (x : ℤ → K) (nlocal i : ℤ)
    (l : List ℤ) (s : K × (ℤ → K)) :
    (l.foldl (fun s j => halfDensityStep E fe x nlocal i j s) s).1 =
      s.1 + specDensity E fe.cutforcesq fe.rdr fe.nr fe.rhor_spline x l i ∧
    ∀ t, (l.foldl (fun s j => halfDensityStep E fe x nlocal i j s) s).2 t =
      s.2 t + ((withinCutoff E fe.cutforcesq x i l).map (fun j =>
        if j < nlocal ∧ j = t then specRho E fe.rdr fe.nr fe.rhor_spline x i j else 0)).sum := by
  induction l generalizing s with
  | nil => simp [specDensity, withinCutoff]
  | cons a l ih =>
    rw [List.foldl_cons]
    refine ⟨?_, ?_⟩
    · rw [(ih _).1, halfDensityStep_eq]
      by_cases hc : specRsq E x i a < fe.cutforcesq
      · simp only [if_pos hc, specDensity, withinCutoff_cons_pos _ _ _ _ _ _ hc, List.map_cons,
          List.sum_cons]
        ring
      · simp only [if_neg hc, specDensity, withinCutoff_cons_neg _ _ _ _ _ _ hc]
    · intro t
      rw [(ih _).2 t, halfDensityStep_eq]
      by_cases hc : specRsq E x i a < fe.cutforcesq
      · simp only [if_pos hc, withinCutoff_cons_pos _ _ _ _ _ _ hc, List.map_cons, List.sum_cons]
        by_cases hj : a < nlocal
        · simp only [hj, true_and, if_true]
          by_cases hat : a = t
          · subst hat
            rw [update_same, if_pos rfl]
            ring
          · rw [update_noteq (fun h => hat h.symm), if_neg hat]
            ring
        · simp only [hj, false_and, if_false]
          ring
      · simp only [if_neg hc, withinCutoff_cons_neg _ _ _ _ _ _ hc]

theorem halfDensityAtom_cell (E : Env K) (fe : ForceEAM K) (x : ℤ → K) (nlocal : ℤ)
    (nb : Neighbor) (i : ℤ) (rho : ℤ → K) (t : ℤ) :
    halfDensityAtom E fe x nlocal nb i rho t =
      rho t + (((withinCutoff E fe.cutforcesq x i (halfNeighList nb i)).map (fun j =>
        if j < nlocal ∧ j = t then specRho E fe.rdr fe.nr fe.rhor_spline x i j else 0)).sum +
      (if i = t then
        specDensity E fe.cutforcesq fe.rdr fe.nr fe.rhor_spline x (halfNeighList nb i) i
        else 0)) := by
  unfold halfDensityAtom
  simp only [foldl_map_loop]
  have h0 : (0.0 : K) = 0 := by norm_num
  by_cases hit : i = t
  · subst hit
    rw [update_same, (halfDensity_fold _ _ _ _ _ _ _).1, (halfDensity_fold _ _ _ _ _ _ _).2,
      if_pos rfl]
    simp only [h0, zero_add, halfNeighList]
    ring
  · rw [update_noteq (fun h => hit h.symm), (halfDensity_fold _ _ _ _ _ _ _).2, if_neg hit]
    simp only [halfNeighList, add_zero]

/-- The density the half-list kernel stores for an owned atom `t`. -/
theorem halfRho_cell (E : Env K) (fe : ForceEAM K) (atom : Atom K) (nb : Neighbor) (t : ℤ)
    (ht : 0 ≤ t ∧ t < atom.nlocal) :
    halfRho E fe atom nb t =
      ((loopIdx 0 atom.nlocal).map (fun i =>
        ((withinCutoff E fe.cutforcesq atom.x i (halfNeighList nb i)).map (fun j =>
          if j < atom.nlocal ∧ j = t then specRho E fe.rdr fe.nr fe.rhor_spline atom.x i j
          else 0)).sum)).sum +
      specDensity E fe.cutforcesq fe.rdr fe.nr fe.rhor_spline atom.x (halfNeighList nb t) t := by
  have hp := halfPrep_fields E fe atom
  have hpc : (halfPrep E fe atom).cutforcesq = fe.cutforcesq := by rw [hp]
  have hpr : (halfPrep E fe atom).rdr = fe.rdr := by rw [hp]
  have hpn : (halfPrep E fe atom).nr = fe.nr := by rw [hp]
  have hps : (halfPrep E fe atom).rhor_spline = fe.rhor_spline := by rw [hp]
  have hz : forLoop 0 atom.nlocal (fun i rho => update rho i (0.0 : K))
      (halfPrep E fe atom).rho t = 0 := by
    rw [forLoop_cell_at ht.1 ht.2]
    · rw [update_same]; norm_num
    · intro i hi _ s
      rw [update_noteq (by omega)]
  have hs := forLoop_sum 0 atom.nlocal
    (halfDensityAtom E (halfPrep E fe atom) atom.x atom.nlocal nb)
    (fun rho : ℤ → K => rho t) _
    (fun i _ _ s => halfDensityAtom_cell E _ atom.x atom.nlocal nb i s t)
    (forLoop 0 atom.nlocal (fun i rho => update rho i (0.0 : K)) (halfPrep E fe atom).rho)
  simp only at hs
  unfold halfRho
  rw [hs, hz, zero_add]
  simp only [hpc, hpr, hpn, hps]
  have hsplit : ∀ (l : List ℤ) (a b : ℤ → K),
      (l.map (fun i => a i + b i)).sum = (l.map a).sum + (l.map b).sum := by
    intro l a b
    induction l with
    | nil => simp
    | cons c l ih => simp only [List.map_cons, List.sum_cons, ih]; ring
  rw [hsplit, sum_map_ite_eq_of_nodup _ (loopIdx_nodup 0 atom.nlocal), if_pos (loopIdx_mem.2 ht)]

theorem mem_of_mem_withinCutoff (E : Env K) (cut : K) (x : ℤ → K) (i : ℤ) (l : List ℤ) (j : ℤ)
    (h : j ∈ withinCutoff E cut x i l) : j ∈ l := by
  unfold withinCutoff at h
  exact (List.mem_filter.1 h).1

/-- Under the list correspondence, the density stored by the half-list kernel
for an owned atom is the density summed over its full list. -/
theorem halfRho_eq_full (E : Env K) (fe : ForceEAM K) (atom : Atom K) (nbH nbF : Neighbor)
    (hl : ∀ i, 0 ≤ i → i < atom.nlocal → ∀ j ∈ halfNeighList nbH i, 0 ≤ j ∧ j < atom.nlocal)
    (hc : ∀ i, 0 ≤ i → i < atom.nlocal → ∀ j, (fullNeighList E nbF i).count j =
      (halfNeighList nbH i).count j +
        (if 0 ≤ j ∧ j < atom.nlocal then (halfNeighList nbH j).count i else 0))
    (t : ℤ) (ht : 0 ≤ t ∧ t < atom.nlocal) :
    halfRho E fe atom nbH t =
      specDensity E fe.cutforcesq fe.rdr fe.nr fe.rhor_spline atom.x (fullNeighList E nbF t) t := by
  rw [halfRho_cell E fe atom nbH t ht]
  have hreact : (loopIdx 0 atom.nlocal).map (fun i =>
        ((withinCutoff E fe.cutforcesq atom.x i (halfNeighList nbH i)).map (fun j =>
          if j < atom.nlocal ∧ j = t then specRho E fe.rdr fe.nr fe.rhor_spline atom.x i j
          else 0)).sum) =
      (loopIdx 0 atom.nlocal).map (fun i => ((halfNeighList nbH i).count t : K) *
        (if specRsq E atom.x t i < fe.cutforcesq then
          specRho E fe.rdr fe.nr fe.rhor_spline atom.x t i else 0)) := by
    apply List.map_congr_left
    intro i hi
    have hi' := loopIdx_mem.1 hi
    rw [← specRsq_swap E atom.x i t, ← specRho_swap E fe.rdr fe.nr fe.rhor_spline atom.x i t,
      ← sum_withinCutoff_ite E fe.cutforcesq atom.x i t (halfNeighList nbH i)
        (fun j => specRho E fe.rdr fe.nr fe.rhor_spline atom.x i j)]
    congr 1
    apply List.map_congr_left
    intro j hj
    have := (hl i hi'.1 hi'.2 j (mem_of_mem_withinCutoff _ _ _ _ _ _ hj)).2
    simp only [this, true_and]
  rw [hreact]
  unfold specDensity
  rw [sum_withinCutoff, sum_withinCutoff,
    sum_full_eq_half_add atom.nlocal t (fullNeighList E nbF t) (halfNeighList nbH t)
      (fun j => halfNeighList nbH j) _ (hc t ht.1 ht.2)]
  ring

theorem communicate_noswap (E : Env K) (fe : ForceEAM K) (comm : Comm K)
    (h : comm.nswap ≤ 0) : ForceEAM_communicate E fe comm = (fe, comm) := by
  unfold ForceEAM_communicate
  exact forLoop_empty h _ _

theorem halfEmbed_cell (E : Env K) (fe : ForceEAM K) (atom : Atom K) (nb : Neighbor) (t : ℤ)
    (ht : 0 ≤ t ∧ t < atom.nlocal) :
    (halfEmbed E fe atom nb).1 t =
      specEmbedDeriv fe.rdrho fe.nrho fe.frho_spline (halfRho E fe atom nb t) := by
  have hp := halfPrep_fields E fe atom
  have h1 : (halfPrep E fe atom).rdrho = fe.rdrho := by rw [hp]
  have h2 : (halfPrep E fe atom).nrho = fe.nrho := by rw [hp]
  have h3 : (halfPrep E fe atom).frho_spline = fe.frho_spline := by rw [hp]
  unfold halfEmbed
  rw [forLoop_at ht.1 ht.2 _ (fun s : (ℤ → K) × K => s.1 t)]
  · unfold halfEmbedAtom specEmbedDeriv
    simp only [h1, h2, h3]
    split_ifs
    · simp only [update_same]
    · simp only [update_same]
  · intro i hi _ s
    unfold halfEmbedAtom
    simp only
    split_ifs
    · simp only; rw [update_noteq (by omega)]
    · simp only; rw [update_noteq (by omega)]

theorem fullKernel1_cell (E : Env K) (fe : ForceEAM K) (atom : Atom K) (nb : Neighbor) (t : ℤ)
    (ht : 0 ≤ t ∧ t < atom.nlocal) :
    (fullKernel1 E fe atom nb).1 t =
      specEmbedDeriv fe.rdrho fe.nrho fe.d_frho_spline
        (specDensity E fe.cutforcesq fe.rdr fe.nr fe.d_rhor_spline atom.d_x
          (fullNeighList E nb t) t) := by
  have hp := fullPrep_fields E fe atom
  have h1 : (fullPrep E fe atom).rdrho = fe.rdrho := by rw [hp]
  have h2 : (fullPrep E fe atom).nrho = fe.nrho := by rw [hp]
  have h3 : (fullPrep E fe atom).d_frho_spline = fe.d_frho_spline := by rw [hp]
  have h4 : (fullPrep E fe atom).cutforcesq = fe.cutforcesq := by rw [hp]
  have h5 : (fullPrep E fe atom).rdr = fe.rdr := by rw [hp]
  have h6 : (fullPrep E fe atom).nr = fe.nr := by rw [hp]
  have h7 : (fullPrep E fe atom).d_rhor_spline = fe.d_rhor_spline := by rw [hp]
  unfold fullKernel1
  rw [forLoop_at ht.1 ht.2 _ (fun s : (ℤ → K) × K => s.1 t)]
  · simp only [fullDensityAtom_eq, update_same, h1, h2, h3, h4, h5, h6, h7]
  · intro i hi _ s
    simp only [fullDensityAtom_eq]
    rw [update_noteq (by omega)]

theorem halfForce_fold_cell (E : Env K) (hP : 3 ≤ E.PAD) (fe : ForceEAM K) (x : ℤ → K)
    (nlocal i : ℤ) (l : List ℤ) (s : HalfAcc K) (t d : ℤ) (hd : 0 ≤ d ∧ d < 3) :
    (l.foldl (fun s j => halfForceStep E fe x nlocal i j s) s).f (t * E.PAD + d) =
      s.f (t * E.PAD + d) - ((withinCutoff E fe.cutforcesq x i l).map (fun j =>
        if j < nlocal ∧ j = t then
          specDel E x i j d * specFpair E fe.rdr fe.nr fe.rhor_spline fe.z2r_spline fe.fp x i j
        else 0)).sum := by
  induction l generalizing s with
  | nil => simp [withinCutoff]
  | cons a l ih =>
    rw [List.foldl_cons, ih, halfForceStep_eq]
    by_cases hc : specRsq E x i a < fe.cutforcesq
    · simp only [if_pos hc, withinCutoff_cons_pos _ _ _ _ _ _ hc, List.map_cons, List.sum_cons]
      by_cases hj : a < nlocal
      · simp only [hj, true_and, if_true]
        by_cases hat : a = t
        · subst hat
          rw [if_pos rfl]
          have : d = 0 ∨ d = 1 ∨ d = 2 := by omega
          rcases this with rfl | rfl | rfl
          · rw [update_noteq (by omega), update_noteq (by omega), update_same]
            ring
          · rw [update_noteq (by omega), update_same]
            ring
          · rw [update_same]
            ring
        · have hne : ∀ d', 0 ≤ d' ∧ d' < 3 → t * E.PAD + d ≠ a * E.PAD + d' := by
            intro d' hd' h
            exact hat (cell_inj hP hd hd' h).1.symm
          rw [update_noteq (hne 2 (by omega)), update_noteq (hne 1 (by omega)),
            update_noteq (hne 0 (by omega)), if_neg hat]
          ring
      · simp only [hj, false_and, if_false]
        ring
    · simp only [if_neg hc, withinCutoff_cons_neg _ _ _ _ _ _ hc]

theorem halfForceAtom_cell (E : Env K) (hP : 3 ≤ E.PAD) (fe : ForceEAM K) (x : ℤ → K)
    (nlocal : ℤ) (nb : Neighbor) (i : ℤ) (s : (ℤ → K) × K × K) (t d : ℤ)
    (hd : 0 ≤ d ∧ d < 3) :
    (halfForceAtom E fe x nlocal nb i s).1 (t * E.PAD + d) =
      s.1 (t * E.PAD + d) +
        ((if i = t then
          specForce E fe.cutforcesq fe.rdr fe.nr fe.rhor_spline fe.z2r_spline fe.fp x
            (halfNeighList nb i) i d
          else 0) -
        ((withinCutoff E fe.cutforcesq x i (halfNeighList nb i)).map (fun j =>
          if j < nlocal ∧ j = t then
            specDel E x i j d * specFpair E fe.rdr fe.nr fe.rhor_spline fe.z2r_spline fe.fp x i j
          else 0)).sum) := by
  unfold halfForceAtom
  simp only [foldl_map_loop]
  have hacc := halfForce_fold_acc E fe x nlocal i
    ((loopIdx 0 (nb.numneigh i)).map (fun jj => nb.neighbors (i * nb.maxneighs + jj)))
    { fx := 0, fy := 0, fz := 0, f := s.1, virial := s.2.1, evdwl := s.2.2 }
  have hcell := fun d hd => halfForce_fold_cell E hP fe x nlocal i
    ((loopIdx 0 (nb.numneigh i)).map (fun jj => nb.neighbors (i * nb.maxneighs + jj)))
    { fx := 0, fy := 0, fz := 0, f := s.1, virial := s.2.1, evdwl := s.2.2 } t d hd
  simp only [zero_add] at hacc
  by_cases hit : i = t
  · subst hit
    rw [if_pos rfl]
    have : d = 0 ∨ d = 1 ∨ d = 2 := by omega
    rcases this with rfl | rfl | rfl
    · rw [update_noteq (by omega), update_noteq (by omega), update_same, hcell 0 hd, hacc.1]
      unfold halfNeighList
      ring
    · rw [update_noteq (by omega), update_same, update_noteq (by omega), hcell 1 hd, hacc.2.1]
      unfold halfNeighList
      ring
    · rw [update_same, update_noteq (by omega), update_noteq (by omega), hcell 2 hd, hacc.2.2]
      unfold halfNeighList
      ring
  · have hne : ∀ d', 0 ≤ d' ∧ d' < 3 → t * E.PAD + d ≠ i * E.PAD + d' := by
      intro d' hd' h
      exact hit (cell_inj hP hd hd' h).1.symm
    rw [update_noteq (hne 2 (by omega)), update_noteq (hne 1 (by omega)),
      update_noteq (hne 0 (by omega)), hcell d hd, if_neg hit]
    unfold halfNeighList
    ring

theorem specFpair_congr (E : Env K) (rdr : K) (nr : ℤ) (rhor z2r fp fp' x : ℤ → K) (i j : ℤ)
    (hi : fp i = fp' i) (hj : fp j = fp' j) :
    specFpair E rdr nr rhor z2r fp x i j = specFpair E rdr nr rhor z2r fp' x i j := by
  unfold specFpair
  rw [hi, hj]

/-- The force the half-list kernel leaves on an owned atom `t`, for any `fp`
used by the force pass. -/
theorem halfForce_loop_cell (E : Env K) (hP : 3 ≤ E.PAD) (fe : ForceEAM K) (x : ℤ → K)
    (nlocal : ℤ) (nb : Neighbor) (s0 : (ℤ → K) × K × K) (t d : ℤ) (hd : 0 ≤ d ∧ d < 3) :
    (forLoop 0 nlocal (halfForceAtom E fe x nlocal nb) s0).1 (t * E.PAD + d) =
      s0.1 (t * E.PAD + d) + ((loopIdx 0 nlocal).map (fun i =>
        (if i = t then
          specForce E fe.cutforcesq fe.rdr fe.nr fe.rhor_spline fe.z2r_spline fe.fp x
            (halfNeighList nb i) i d
          else 0) -
        ((withinCutoff E fe.cutforcesq x i (halfNeighList nb i)).map (fun j =>
          if j < nlocal ∧ j = t then
            specDel E x i j d * specFpair E fe.rdr fe.nr fe.rhor_spline fe.z2r_spline fe.fp x i j
          else 0)).sum)).sum :=
  forLoop_sum 0 nlocal (halfForceAtom E fe x nlocal nb)
    (fun s : (ℤ → K) × K × K => s.1 (t * E.PAD + d)) _
    (fun i _ _ s => halfForceAtom_cell E hP fe x nlocal nb i s t d hd) s0

/-- Under the list correspondence, the half-list force sum of an owned atom `t`
is the pair sum over its full list. -/
theorem halfForce_sum_eq_full (E : Env K) (fe : ForceEAM K) (x : ℤ → K) (nlocal : ℤ)
    (nbH nbF : Neighbor)
    (hl : ∀ i, 0 ≤ i → i < nlocal → ∀ j ∈ halfNeighList nbH i, 0 ≤ j ∧ j < nlocal)
    (hc : ∀ i, 0 ≤ i → i < nlocal → ∀ j, (fullNeighList E nbF i).count j =
      (halfNeighList nbH i).count j +
        (if 0 ≤ j ∧ j < nlocal then (halfNeighList nbH j).count i else 0))
    (t d : ℤ) (ht : 0 ≤ t ∧ t < nlocal) :
    ((loopIdx 0 nlocal).map (fun i =>
        (if i = t then
          specForce E fe.cutforcesq fe.rdr fe.nr fe.rhor_spline fe.z2r_spline fe.fp x
            (halfNeighList nbH i) i d
          else 0) -
        ((withinCutoff E fe.cutforcesq x i (halfNeighList nbH i)).map (fun j =>
          if j < nlocal ∧ j = t then
            specDel E x i j d * specFpair E fe.rdr fe.nr fe.rhor_spline fe.z2r_spline fe.fp x i j
          else 0)).sum)).sum =
      specForce E fe.cutforcesq fe.rdr fe.nr fe.rhor_spline fe.z2r_spline fe.fp x
        (fullNeighList E nbF t) t d := by
  have hsplit : ∀ (l : List ℤ) (a b : ℤ → K),
      (l.map (fun i => a i - b i)).sum = (l.map a).sum - (l.map b).sum := by
    intro l a b
    induction l with
    | nil => simp
    | cons c l ih => simp only [List.map_cons, List.sum_cons, ih]; ring
  rw [hsplit, sum_map_ite_eq_of_nodup _ (loopIdx_nodup 0 nlocal), if_pos (loopIdx_mem.2 ht)]
  have hreact : (loopIdx 0 nlocal).map (fun i =>
        ((withinCutoff E fe.cutforcesq x i (halfNeighList nbH i)).map (fun j =>
          if j < nlocal ∧ j = t then
            specDel E x i j d * specFpair E fe.rdr fe.nr fe.rhor_spline fe.z2r_spline fe.fp x i j
          else 0)).sum) =
      (loopIdx 0 nlocal).map (fun i => ((halfNeighList nbH i).count t : K) *
        -(if specRsq E x t i < fe.cutforcesq then
          specDel E x t i d * specFpair E fe.rdr fe.nr fe.rhor_spline fe.z2r_spline fe.fp x t i
          else 0)) := by
    apply List.map_congr_left
    intro i hi
    have hi' := loopIdx_mem.1 hi
    have hsw : -(if specRsq E x t i < fe.cutforcesq then
          specDel E x t i d * specFpair E fe.rdr fe.nr fe.rhor_spline fe.z2r_spline fe.fp x t i
          else 0) =
        (if specRsq E x i t < fe.cutforcesq then
          specDel E x i t d * specFpair E fe.rdr fe.nr fe.rhor_spline fe.z2r_spline fe.fp x i t
          else 0) := by
      rw [specRsq_swap E x t i, specDel_swap E x t i d, specFpair_swap E _ _ _ _ _ x t i]
      split_ifs
      · ring
      · ring
    rw [hsw, ← sum_withinCutoff_ite E fe.cutforcesq x i t (halfNeighList nbH i)
      (fun j => specDel E x i j d *
        specFpair E fe.rdr fe.nr fe.rhor_spline fe.z2r_spline fe.fp x i j)]
    congr 1
    apply List.map_congr_left
    intro j hj
    have := (hl i hi'.1 hi'.2 j (mem_of_mem_withinCutoff _ _ _ _ _ _ hj)).2
    simp only [this, true_and]
  rw [hreact]
  unfold specForce
  rw [sum_withinCutoff, sum_withinCutoff,
    sum_full_eq_half_add nlocal t (fullNeighList E nbF t) (halfNeighList nbH t)
      (fun j => halfNeighList nbH j) _ (hc t ht.1 ht.2)]
  have hneg : ∀ (l : List ℤ) (a : ℤ → K) (c : ℤ → K),
      (l.map (fun i => c i * -a i)).sum = -(l.map (fun i => c i * a i)).sum := by
    intro l a c
    induction l with
    | nil => simp
    | cons b l ih => simp only [List.map_cons, List.sum_cons, ih]; ring
  rw [hneg]
  ring

/-- C2: half-list and full-list kernels agree.  Take a configuration without
ghost atoms and without swaps, the same positions on host and device, the same
host and device spline tables, stride at least 3, half lists naming only atoms
of the configuration, and a full list of every atom `i` that contains, with
multiplicity, exactly the atoms of `i`'s half list together with the atoms whose
half list contains `i`.  Then the half-list kernel (on the half lists) and the
full-list kernel (on the full lists) leave the same value in every force
component of every owned atom. -/
theorem half_full_forces_agree (E : Env K) (fe : ForceEAM K) (atom : Atom K)
    (nbH nbF : Neighbor) (comm : Comm K) (hP : 3 ≤ E.PAD)
    (hx : atom.d_x = atom.x)
    (hrs : fe.d_rhor_spline = fe.rhor_spline)
    (hfs : fe.d_frho_spline = fe.frho_spline)
    (hzs : fe.d_z2r_spline = fe.z2r_spline)
    (hg : atom.nghost = 0) (hsw : comm.nswap = 0)
    (hl : ∀ i, 0 ≤ i → i < atom.nlocal →
      ∀ j ∈ halfNeighList nbH i, 0 ≤ j ∧ j < atom.nlocal)
    (hc : ∀ i, 0 ≤ i → i < atom.nlocal → ∀ j, (fullNeighList E nbF i).count j =
      (halfNeighList nbH i).count j +
        (if 0 ≤ j ∧ j < atom.nlocal then (halfNeighList nbH j).count i else 0))
    (t d : ℤ) (ht : 0 ≤ t ∧ t < atom.nlocal) (hd : 0 ≤ d ∧ d < 3) :
    (ForceEAM_compute_halfneigh E fe atom nbH comm).2.1.f (t * E.PAD + d) =
      (ForceEAM_compute_fullneigh E fe atom nbF comm).2.1.d_f (t * E.PAD + d) := by
  -- the full list only names atoms of the configuration
  have hfull : ∀ i, 0 ≤ i → i < atom.nlocal → ∀ j ∈ fullNeighList E nbF i,
      0 ≤ j ∧ j < atom.nlocal := by
    intro i h0 h1 j hj
    have hpos : 0 < (fullNeighList E nbF i).count j := List.count_pos_iff.2 hj
    rw [hc i h0 h1 j] at hpos
    by_cases hr : 0 ≤ j ∧ j < atom.nlocal
    · exact hr
    · rw [if_neg hr, add_zero] at hpos
      exact hl i h0 h1 j (List.count_pos_iff.1 hpos)
  -- the two kernels compute the same `fp` on the atoms of the configuration
  have hHc : halfComm E fe atom nbH comm =
      ({ halfPrep E fe atom with
          rho := halfRho E fe atom nbH, fp := (halfEmbed E fe atom nbH).1 }, comm) := by
    unfold halfComm
    exact communicate_noswap E _ comm (le_of_eq hsw)
  have hFc : fullComm E fe atom nbF comm =
      ({ fullPrep E fe atom with fp := (fullKernel1 E fe atom nbF).1 }, comm) := by
    unfold fullComm
    exact communicate_noswap E _ comm (le_of_eq hsw)
  have hfp : ∀ j, 0 ≤ j ∧ j < atom.nlocal →
      (halfComm E fe atom nbH comm).1.fp j = (fullComm E fe atom nbF comm).1.fp j := by
    intro j hj
    rw [hHc, hFc]
    simp only
    rw [halfEmbed_cell E fe atom nbH j hj, fullKernel1_cell E fe atom nbF j hj,
      halfRho_eq_full E fe atom nbH nbF hl hc j hj, hx, hrs, hfs]
  -- the half-list side
  have hH : (ForceEAM_compute_halfneigh E fe atom nbH comm).2.1.f (t * E.PAD + d) =
      specForce E fe.cutforcesq fe.rdr fe.nr fe.rhor_spline fe.z2r_spline
        (halfComm E fe atom nbH comm).1.fp atom.x (fullNeighList E nbF t) t d := by
    rw [compute_halfneigh_stages]
    simp only
    unfold halfForce
    rw [halfForce_loop_cell E hP _ atom.x atom.nlocal nbH _ t d hd,
      halfForce_sum_eq_full E _ atom.x atom.nlocal nbH nbF hl hc t d ht]
    simp only
    rw [zeroForces_cell E hP _ atom.f t ⟨ht.1, by omega⟩ d hd, zero_add]
    have hf := halfComm_fields E fe atom nbH comm
    have e1 : (halfComm E fe atom nbH comm).1.cutforcesq = fe.cutforcesq := by rw [hf]
    have e2 : (halfComm E fe atom nbH comm).1.rdr = fe.rdr := by rw [hf]
    have e3 : (halfComm E fe atom nbH comm).1.nr = fe.nr := by rw [hf]
    have e4 : (halfComm E fe atom nbH comm).1.rhor_spline = fe.rhor_spline := by rw [hf]
    have e5 : (halfComm E fe atom nbH comm).1.z2r_spline = fe.z2r_spline := by rw [hf]
    rw [e1, e2, e3, e4, e5]
  -- the full-list side
  have hF : (ForceEAM_compute_fullneigh E fe atom nbF comm).2.1.d_f (t * E.PAD + d) =
      specForce E fe.cutforcesq fe.rdr fe.nr fe.rhor_spline fe.z2r_spline
        (fullComm E fe atom nbF comm).1.fp atom.x (fullNeighList E nbF t) t d := by
    rw [compute_fullneigh_stages]
    simp only
    unfold fullKernel2
    rw [fullForce_loop_cell E _ _ _ _ _ hP t ht.1 ht.2 d hd]
    have hf := fullComm_fields E fe atom nbF comm
    have e1 : (fullComm E fe atom nbF comm).1.cutforcesq = fe.cutforcesq := by rw [hf]
    have e2 : (fullComm E fe atom nbF comm).1.rdr = fe.rdr := by rw [hf]
    have e3 : (fullComm E fe atom nbF comm).1.nr = fe.nr := by rw [hf]
    have e4 : (fullComm E fe atom nbF comm).1.d_rhor_spline = fe.d_rhor_spline := by rw [hf]
    have e5 : (fullComm E fe atom nbF comm).1.d_z2r_spline = fe.d_z2r_spline := by rw [hf]
    rw [e1, e2, e3, e4, e5, hx, hrs, hzs]
  rw [hH, hF]
  unfold specForce
  congr 1
  apply List.map_congr_left
  intro j hj
  have hjr := hfull t ht.1 ht.2 j (mem_of_mem_withinCutoff _ _ _ _ _ _ hj)
  rw [specFpair_congr E fe.rdr fe.nr fe.rhor_spline fe.z2r_spline _ _ atom.x t j
    (hfp t ht) (hfp j hjr)]

end HalfFull

/-! ## Energy and virial: the claims -/

section Claims
variable {K : Type} [LinearOrderedField K] [FloorRing K]

/-- C7, as amended: the full-list kernel accumulates energy and virial only in a
build that defines `ENABLE_EV_CALCULATION`.  There, when `evflag` is non-zero, it
adds twice `Σ_i F(ρ_i) + Σ_i Σ_j φ_ij / 2` to `eng_vdwl` (owned `i`, listed `j`
within the cutoff, `ρ_i` the density summed over the same neighbours) and leaves
`Σ_i Σ_j rsq_ij · f_pair_ij / 2` in `virial`; in every other case `eng_vdwl` is
unchanged and `virial` is 0. -/
theorem fullneigh_energy_needs_build_flag (E : Env K) (fe : ForceEAM K) (atom : Atom K)
    (nb : Neighbor) (comm : Comm K) :
    (ForceEAM_compute_fullneigh E fe atom nb comm).1.eng_vdwl =
      fe.eng_vdwl + 2 * (if E.ENABLE_EV_CALCULATION = true ∧ fe.evflag ≠ 0 then
        ((loopIdx 0 atom.nlocal).map (fun i => specEmbed fe.rdrho fe.nrho fe.frho_spline
          (specDensity E fe.cutforcesq fe.rdr fe.nr fe.d_rhor_spline atom.d_x
            (fullNeighList E nb i) i))).sum +
        ((loopIdx 0 atom.nlocal).map (fun i =>
          ((withinCutoff E fe.cutforcesq atom.d_x i (fullNeighList E nb i)).map (fun j =>
            specPhi E fe.rdr fe.nr fe.d_z2r_spline atom.d_x i j / 2)).sum)).sum
        else 0) ∧
    (ForceEAM_compute_fullneigh E fe atom nb comm).1.virial =
      (if E.ENABLE_EV_CALCULATION = true ∧ fe.evflag ≠ 0 then
        ((loopIdx 0 atom.nlocal).map (fun i =>
          ((withinCutoff E fe.cutforcesq atom.d_x i (fullNeighList E nb i)).map (fun j =>
            specRsq E atom.d_x i j *
              (specFpair E fe.rdr fe.nr fe.d_rhor_spline fe.d_z2r_spline
                (ForceEAM_compute_fullneigh E fe atom nb comm).1.fp atom.d_x i j / 2))).sum)).sum
        else 0) :=
  fullneigh_energy_virial E fe atom nb comm

/-- C7, counterexample: in the build without `ENABLE_EV_CALCULATION`, with
`evflag = 1` and two owned atoms without neighbours, the embedding energies sum
to 2 and the full-list kernel leaves `eng_vdwl` at its old value 0, so it is not
the old value plus `Σ_i F(ρ_i)`. -/
theorem fullneigh_embedding_energy_not_accumulated :
    ¬ ((exForce 1).evflag ≠ 0 →
      (ForceEAM_compute_fullneigh exEnv (exForce 1) exAtom exNoNeighbor exComm).1.eng_vdwl =
        (exForce 1).eng_vdwl +
          ((loopIdx 0 exAtom.nlocal).map (fun i =>
            specEmbed (exForce 1).rdrho (exForce 1).nrho (exForce 1).frho_spline
              (specDensity exEnv (exForce 1).cutforcesq (exForce 1).rdr (exForce 1).nr
                (exForce 1).d_rhor_spline exAtom.d_x (fullNeighList exEnv exNoNeighbor i) i))).sum) := by
  intro h
  have h1 := h (by decide)
  rw [(fullneigh_energy_virial exEnv (exForce 1) exAtom exNoNeighbor exComm).1] at h1
  have h2 : loopIdx 0 exAtom.nlocal = [0, 1] := by decide
  have hE : exEnv.ENABLE_EV_CALCULATION = false := rfl
  simp only [h2, hE, List.map_cons, List.map_nil, List.sum_cons, List.sum_nil, ex_full_nolist,
    specDensity, withinCutoff, List.filter_nil, ex_embed_zero] at h1
  norm_num at h1

/-- C8: with `evflag` set, the half-list kernel returns
`eng_vdwl = Σ_i F(ρ_i) + Σ_i Σ_j w_j · φ_ij` and `virial = Σ_i Σ_j w_j · rsq_ij · f_pair_ij`,
the sums over the owned atoms `i` and their listed neighbours `j` within the
cutoff, each listed pair once, with `w_j = 1` for an owned `j` and `1/2` for a
ghost; `ρ_i` is the density the kernel stored for atom `i`. -/
theorem halfneigh_energy_counts_pairs_once (E : Env K) (fe : ForceEAM K) (atom : Atom K)
    (nb : Neighbor) (comm : Comm K) (hev : fe.evflag ≠ 0) :
    (ForceEAM_compute_halfneigh E fe atom nb comm).1.eng_vdwl =
      ((loopIdx 0 atom.nlocal).map (fun i => specEmbed fe.rdrho fe.nrho fe.frho_spline
          ((ForceEAM_compute_halfneigh E fe atom nb comm).1.rho i))).sum +
      ((loopIdx 0 atom.nlocal).map (fun i =>
        ((withinCutoff E fe.cutforcesq atom.x i (halfNeighList nb i)).map (fun j =>
          specWeight atom.nlocal j * specPhi E fe.rdr fe.nr fe.z2r_spline atom.x i j)).sum)).sum ∧
    (ForceEAM_compute_halfneigh E fe atom nb comm).1.virial =
      ((loopIdx 0 atom.nlocal).map (fun i =>
        ((withinCutoff E fe.cutforcesq atom.x i (halfNeighList nb i)).map (fun j =>
          specWeight atom.nlocal j * (specRsq E atom.x i j *
            specFpair E fe.rdr fe.nr fe.rhor_spline fe.z2r_spline
              (ForceEAM_compute_halfneigh E fe atom nb comm).1.fp atom.x i j))).sum)).sum := by
  have h := halfneigh_energy_virial E fe atom nb comm
  rw [if_pos hev, if_pos hev] at h
  exact h

end Claims

/-- C8, witness: the hypothesis holds for the two-atom configuration with `evflag = 1`. -/
theorem halfneigh_energy_counts_pairs_once_witness :
    (exForce 1).evflag ≠ 0 ∧
    ((ForceEAM_compute_halfneigh exEnv (exForce 1) exAtom exNeighbor exComm).1.eng_vdwl =
      ((loopIdx 0 exAtom.nlocal).map (fun i =>
        specEmbed (exForce 1).rdrho (exForce 1).nrho (exForce 1).frho_spline
          ((ForceEAM_compute_halfneigh exEnv (exForce 1) exAtom exNeighbor exComm).1.rho i))).sum +
      ((loopIdx 0 exAtom.nlocal).map (fun i =>
        ((withinCutoff exEnv (exForce 1).cutforcesq exAtom.x i (halfNeighList exNeighbor i)).map
          (fun j => specWeight exAtom.nlocal j *
            specPhi exEnv (exForce 1).rdr (exForce 1).nr (exForce 1).z2r_spline
              exAtom.x i j)).sum)).sum ∧
    (ForceEAM_compute_halfneigh exEnv (exForce 1) exAtom exNeighbor exComm).1.virial =
      ((loopIdx 0 exAtom.nlocal).map (fun i =>
        ((withinCutoff exEnv (exForce 1).cutforcesq exAtom.x i (halfNeighList exNeighbor i)).map
          (fun j => specWeight exAtom.nlocal j * (specRsq exEnv exAtom.x i j *
            specFpair exEnv (exForce 1).rdr (exForce 1).nr (exForce 1).rhor_spline
              (exForce 1).z2r_spline
              (ForceEAM_compute_halfneigh exEnv (exForce 1) exAtom exNeighbor exComm).1.fp
              exAtom.x i j))).sum)).sum) :=
  ⟨by decide, halfneigh_energy_counts_pairs_once exEnv (exForce 1) exAtom exNeighbor exComm
    (by decide)⟩

/-- C6, the code at the failing input: with `evflag = 0`, two owned atoms at
distance 1 and atom 1 in the half list of atom 0, the half-list kernel returns
`eng_vdwl = 1` (the pair energy `φ`), not 0. -/
theorem halfneigh_pair_energy_not_gated :
    (exForce 0).evflag = 0 ∧
    (ForceEAM_compute_halfneigh exEnv (exForce 0) exAtom exNeighbor exComm).1.eng_vdwl = 1 := by
  refine ⟨rfl, ?_⟩
  rw [(halfneigh_energy_virial exEnv (exForce 0) exAtom exNeighbor exComm).1]
  have h2 : loopIdx 0 exAtom.nlocal = [0, 1] := by decide
  have hw : withinCutoff exEnv (exForce 0).cutforcesq exAtom.x 0 [1] = [1] := by
    simp [withinCutoff, ex_rsq, exForce]
  simp only [h2, List.map_cons, List.map_nil, List.sum_cons, List.sum_nil, ex_half_list0,
    ex_half_list1, hw, ex_phi]
  simp [withinCutoff, exForce, specWeight, exAtom]

/-! ## The hypotheses are satisfiable -/

theorem ex_full_list0 : fullNeighList exEnv exNeighbor 0 = [1] := by decide
theorem ex_full_list1 : fullNeighList exEnv exNeighbor 1 = [0] := by decide
theorem ex_nlocal : exAtom.nlocal = 2 := rfl

theorem ex_lists_owned : ∀ i, 0 ≤ i → i < exAtom.nlocal →
    ∀ j ∈ halfNeighList exNeighbor i, 0 ≤ j ∧ j < exAtom.nlocal := by
  intro i h0 h1 j hj
  have hi : i = 0 ∨ i = 1 := by rw [ex_nlocal] at h1; omega
  rcases hi with rfl | rfl
  · rw [ex_half_list0] at hj
    rw [List.mem_singleton] at hj
    subst hj
    decide
  · rw [ex_half_list1] at hj
    exact absurd hj (List.not_mem_nil _)

theorem ex_lists_correspond : ∀ i, 0 ≤ i → i < exAtom.nlocal → ∀ j,
    (fullNeighList exEnv exNeighbor i).count j =
      (halfNeighList exNeighbor i).count j +
        (if 0 ≤ j ∧ j < exAtom.nlocal then (halfNeighList exNeighbor j).count i else 0) := by
  intro i h0 h1 j
  have hi : i = 0 ∨ i = 1 := by rw [ex_nlocal] at h1; omega
  by_cases hj : 0 ≤ j ∧ j < exAtom.nlocal
  · have hj' : j = 0 ∨ j = 1 := by rw [ex_nlocal] at hj; omega
    rcases hi with rfl | rfl <;> rcases hj' with rfl | rfl <;> decide
  · rw [if_neg hj, add_zero]
    have hj0 : j ≠ 0 := by rw [ex_nlocal] at hj; omega
    have hj1 : j ≠ 1 := by rw [ex_nlocal] at hj; omega
    rcases hi with rfl | rfl
    · rw [ex_full_list0, ex_half_list0]
    · rw [ex_full_list1, ex_half_list1]
      simp [hj0]

/-- C1, witness: the hypotheses hold for atom 0, component 0, of the two-atom
configuration. -/
theorem fullneigh_force_is_pair_sum_witness :
    (3 : ℤ) ≤ exEnv.PAD ∧ (0 : ℤ) ≤ 0 ∧ (0 : ℤ) < exAtom.nlocal ∧ ((0 : ℤ) ≤ 0 ∧ (0 : ℤ) < 3) ∧
    (ForceEAM_compute_fullneigh exEnv (exForce 1) exAtom exNeighbor exComm).2.1.d_f
        (0 * exEnv.PAD + 0) =
      specForce exEnv (exForce 1).cutforcesq (exForce 1).rdr (exForce 1).nr
        (exForce 1).d_rhor_spline (exForce 1).d_z2r_spline
        (ForceEAM_compute_fullneigh exEnv (exForce 1) exAtom exNeighbor exComm).1.fp exAtom.d_x
        (fullNeighList exEnv exNeighbor 0) 0 0 :=
  ⟨by decide, by decide, by decide, by decide,
    fullneigh_force_is_pair_sum exEnv (exForce 1) exAtom exNeighbor exComm (by decide) 0
      (by decide) (by decide) 0 (by decide)⟩

/-- C2, witness: the two-atom configuration, whose full lists `[1]`, `[0]`
correspond to the half lists `[1]`, `[]`, satisfies every hypothesis. -/
theorem half_full_forces_agree_witness :
    (3 : ℤ) ≤ exEnv.PAD ∧ exAtom.d_x = exAtom.x ∧
    (exForce 1).d_rhor_spline = (exForce 1).rhor_spline ∧
    (exForce 1).d_frho_spline = (exForce 1).frho_spline ∧
    (exForce 1).d_z2r_spline = (exForce 1).z2r_spline ∧
    exAtom.nghost = 0 ∧ exComm.nswap = 0 ∧
    (∀ i, 0 ≤ i → i < exAtom.nlocal →
      ∀ j ∈ halfNeighList exNeighbor i, 0 ≤ j ∧ j < exAtom.nlocal) ∧
    (∀ i, 0 ≤ i → i < exAtom.nlocal → ∀ j,
      (fullNeighList exEnv exNeighbor i).count j =
        (halfNeighList exNeighbor i).count j +
          (if 0 ≤ j ∧ j < exAtom.nlocal then (halfNeighList exNeighbor j).count i else 0)) ∧
    ((0 : ℤ) ≤ 0 ∧ (0 : ℤ) < exAtom.nlocal) ∧ ((0 : ℤ) ≤ 0 ∧ (0 : ℤ) < 3) ∧
    (ForceEAM_compute_halfneigh exEnv (exForce 1) exAtom exNeighbor exComm).2.1.f
        (0 * exEnv.PAD + 0) =
      (ForceEAM_compute_fullneigh exEnv (exForce 1) exAtom exNeighbor exComm).2.1.d_f
        (0 * exEnv.PAD + 0) :=
  ⟨by decide, rfl, rfl, rfl, rfl, rfl, rfl, ex_lists_owned, ex_lists_correspond, by decide,
    by decide,
    half_full_forces_agree exEnv (exForce 1) exAtom exNeighbor exNeighbor exComm (by decide)
      rfl rfl rfl rfl rfl rfl ex_lists_owned ex_lists_correspond 0 0 (by decide) (by decide)⟩

/-- C3, witness: in the two-atom configuration every listed neighbour is owned. -/
theorem halfneigh_total_force_zero_witness :
    (3 : ℤ) ≤ exEnv.PAD ∧ 0 ≤ exAtom.nghost ∧
    (∀ i, 0 ≤ i → i < exAtom.nlocal →
      ∀ j ∈ halfNeighList exNeighbor i, 0 ≤ j ∧ j < exAtom.nlocal) ∧
    ((0 : ℤ) ≤ 0 ∧ (0 : ℤ) < 3) ∧
    specTotalForce exEnv (exAtom.nlocal + exAtom.nghost)
      (ForceEAM_compute_halfneigh exEnv (exForce 1) exAtom exNeighbor exComm).2.1.f 0 = 0 :=
  ⟨by decide, by decide, ex_lists_owned, by decide,
    halfneigh_total_force_zero exEnv (exForce 1) exAtom exNeighbor exComm (by decide)
      (by decide) ex_lists_owned 0 (by decide)⟩

theorem ex_far_rsq : specRsq exEnv exAtomFar.x 0 2 = 25 := by
  norm_num [specRsq, specDel, exEnv, exAtomFar]

theorem ex_far_half_other : ∀ i, 0 ≤ i → i < exAtomFar.nlocal → i ≠ 0 →
    halfNeighList exNeighbor i = halfNeighList exNeighborFar i := by
  intro i h0 h1 hne
  have hi : i = 1 := by have : exAtomFar.nlocal = 2 := rfl; omega
  subst hi
  decide

theorem ex_far_full_other : ∀ i, 0 ≤ i → i < exAtomFar.nlocal → i ≠ 0 →
    fullNeighList exEnv exNeighbor i = fullNeighList exEnv exNeighborFar i := by
  intro i h0 h1 hne
  have hi : i = 1 := by have : exAtomFar.nlocal = 2 := rfl; omega
  subst hi
  decide

theorem ex_far_half_beyond : ∀ j, (halfNeighList exNeighborFar 0)[1]? = some j →
    ¬ specRsq exEnv exAtomFar.x 0 j < (exForce 1).cutforcesq := by
  intro j hj
  have h : halfNeighList exNeighborFar 0 = [1, 2] := by decide
  rw [h] at hj
  simp at hj
  subst hj
  rw [ex_far_rsq]
  norm_num [exForce]

theorem ex_far_full_beyond : ∀ j, (fullNeighList exEnv exNeighborFar 0)[1]? = some j →
    ¬ specRsq exEnv exAtomFar.d_x 0 j < (exForce 1).cutforcesq := by
  intro j hj
  have h : fullNeighList exEnv exNeighborFar 0 = [1, 2] := by decide
  rw [h] at hj
  simp at hj
  subst hj
  have : exAtomFar.d_x = exAtomFar.x := rfl
  rw [this, ex_far_rsq]
  norm_num [exForce]

/-- C4, witness: atom 2 lies at squared distance 25 from atom 0, beyond
`cutforcesq = 4`; removing it from the lists of atom 0 gives the lists `exNeighbor`. -/
theorem cutoff_is_strict_witness :
    halfNeighList exNeighbor 0 = (halfNeighList exNeighborFar 0).eraseIdx 1 ∧
    (∀ i, 0 ≤ i → i < exAtomFar.nlocal → i ≠ 0 →
      halfNeighList exNeighbor i = halfNeighList exNeighborFar i) ∧
    (∀ j, (halfNeighList exNeighborFar 0)[1]? = some j →
      ¬ specRsq exEnv exAtomFar.x 0 j < (exForce 1).cutforcesq) ∧
    fullNeighList exEnv exNeighbor 0 = (fullNeighList exEnv exNeighborFar 0).eraseIdx 1 ∧
    (∀ i, 0 ≤ i → i < exAtomFar.nlocal → i ≠ 0 →
      fullNeighList exEnv exNeighbor i = fullNeighList exEnv exNeighborFar i) ∧
    (∀ j, (fullNeighList exEnv exNeighborFar 0)[1]? = some j →
      ¬ specRsq exEnv exAtomFar.d_x 0 j < (exForce 1).cutforcesq) ∧
    (ForceEAM_compute_halfneigh exEnv (exForce 1) exAtomFar exNeighbor exComm =
      ForceEAM_compute_halfneigh exEnv (exForce 1) exAtomFar exNeighborFar exComm ∧
    ForceEAM_compute_fullneigh exEnv (exForce 1) exAtomFar exNeighbor exComm =
      ForceEAM_compute_fullneigh exEnv (exForce 1) exAtomFar exNeighborFar exComm) :=
  ⟨by decide, ex_far_half_other, ex_far_half_beyond, by decide, ex_far_full_other,
    ex_far_full_beyond,
    cutoff_is_strict exEnv (exForce 1) exAtomFar exNeighborFar exNeighbor exComm 0 1 0 1
      (by decide) ex_far_half_other ex_far_half_beyond (by decide) ex_far_full_other
      ex_far_full_beyond⟩

/-- C5, witness: `r = 5/2`, `rdr = 1`, `nr = 10` and the negative density `-3`. -/
theorem lookup_rows_clamped_witness :
    (0 : ℚ) ≤ 5 / 2 ∧ (0 : ℚ) < 1 ∧ (2 : ℤ) ≤ 10 ∧ (2 : ℤ) ≤ 10 ∧
    (((pairLookup (1 : ℚ) 10 (5 / 2)).1 = min (⌊(5 / 2 : ℚ) * 1⌋ + 1) (10 - 1) ∧
      1 ≤ (pairLookup (1 : ℚ) 10 (5 / 2)).1 ∧ (pairLookup (1 : ℚ) 10 (5 / 2)).1 ≤ 10 - 1 ∧
      0 ≤ (pairLookup (1 : ℚ) 10 (5 / 2)).2 ∧ (pairLookup (1 : ℚ) 10 (5 / 2)).2 ≤ 1) ∧
    (1 ≤ (embedLookup (1 : ℚ) 10 (-3)).1 ∧ (embedLookup (1 : ℚ) 10 (-3)).1 ≤ 10 - 1 ∧
      (embedLookup (1 : ℚ) 10 (-3)).2 ≤ 1)) :=
  ⟨by norm_num, by norm_num, by decide, by decide,
    lookup_rows_clamped (5 / 2) 1 10 (-3) 1 10 (by norm_num) (by norm_num) (by decide)
      (by decide)⟩

/-- C9, witness: a table of five squares. -/
theorem interpolate_first_derivative_witness :
    (5 : ℤ) ≤ 5 ∧
    ((∀ m, 1 ≤ m → m ≤ 5 → ForceEAM_interpolate 5 (1 : ℚ) exSquares exTable (m * 7 + 6) =
        exSquares m) ∧
    ForceEAM_interpolate 5 (1 : ℚ) exSquares exTable (1 * 7 + 5) = exSquares 2 - exSquares 1 ∧
    ForceEAM_interpolate 5 (1 : ℚ) exSquares exTable (5 * 7 + 5) =
      exSquares 5 - exSquares (5 - 1) ∧
    (∀ m, 3 ≤ m → m ≤ 5 - 2 → ForceEAM_interpolate 5 (1 : ℚ) exSquares exTable (m * 7 + 5) =
      ((exSquares (m - 2) - exSquares (m + 2)) +
        8 * (exSquares (m + 1) - exSquares (m - 1))) / 12) ∧
    ForceEAM_interpolate 5 (1 : ℚ) exSquares exTable (2 * 7 + 5) =
      (exSquares (2 + 1) - exSquares (2 - 1)) / 2 ∧
    ForceEAM_interpolate 5 (1 : ℚ) exSquares exTable ((5 - 1) * 7 + 5) =
      (exSquares (5 - 1 + 1) - exSquares (5 - 1 - 1)) / 2) :=
  ⟨by decide, interpolate_first_derivative 5 (by decide) 1 exSquares exTable⟩

/-- C10, witness: row 1 of a table of three squares. -/
theorem interpolate_hermite_witness :
    (3 : ℤ) ≤ 3 ∧ (1 : ℤ) ≤ 1 ∧ (1 : ℤ) ≤ 3 - 1 ∧
    ((∀ p, splineValue (ForceEAM_interpolate 3 (1 : ℚ) exSquares exTable) 1 p =
      Polynomial.eval p (Polynomial.C (ForceEAM_interpolate 3 (1 : ℚ) exSquares exTable (1 * 7 + 3)) * Polynomial.X ^ 3 +
        Polynomial.C (ForceEAM_interpolate 3 (1 : ℚ) exSquares exTable (1 * 7 + 4)) * Polynomial.X ^ 2 +
        Polynomial.C (ForceEAM_interpolate 3 (1 : ℚ) exSquares exTable (1 * 7 + 5)) * Polynomial.X +
        Polynomial.C (ForceEAM_interpolate 3 (1 : ℚ) exSquares exTable (1 * 7 + 6)))) ∧
    splineValue (ForceEAM_interpolate 3 (1 : ℚ) exSquares exTable) 1 0 = exSquares 1 ∧
    splineValue (ForceEAM_interpolate 3 (1 : ℚ) exSquares exTable) 1 1 = exSquares (1 + 1) ∧
    Polynomial.eval 0 (Polynomial.derivative (Polynomial.C (ForceEAM_interpolate 3 (1 : ℚ) exSquares exTable (1 * 7 + 3)) * Polynomial.X ^ 3 +
        Polynomial.C (ForceEAM_interpolate 3 (1 : ℚ) exSquares exTable (1 * 7 + 4)) * Polynomial.X ^ 2 +
        Polynomial.C (ForceEAM_interpolate 3 (1 : ℚ) exSquares exTable (1 * 7 + 5)) * Polynomial.X +
        Polynomial.C (ForceEAM_interpolate 3 (1 : ℚ) exSquares exTable (1 * 7 + 6)))) =
      ForceEAM_interpolate 3 (1 : ℚ) exSquares exTable (1 * 7 + 5) ∧
    Polynomial.eval 1 (Polynomial.derivative (Polynomial.C (ForceEAM_interpolate 3 (1 : ℚ) exSquares exTable (1 * 7 + 3)) * Polynomial.X ^ 3 +
        Polynomial.C (ForceEAM_interpolate 3 (1 : ℚ) exSquares exTable (1 * 7 + 4)) * Polynomial.X ^ 2 +
        Polynomial.C (ForceEAM_interpolate 3 (1 : ℚ) exSquares exTable (1 * 7 + 5)) * Polynomial.X +
        Polynomial.C (ForceEAM_interpolate 3 (1 : ℚ) exSquares exTable (1 * 7 + 6)))) =
      ForceEAM_interpolate 3 (1 : ℚ) exSquares exTable ((1 + 1) * 7 + 5) ∧
    ForceEAM_interpolate 3 (1 : ℚ) exSquares exTable (1 * 7 + 4) =
      3 * (exSquares (1 + 1) - exSquares 1) - 2 * ForceEAM_interpolate 3 (1 : ℚ) exSquares exTable (1 * 7 + 5) -
        ForceEAM_interpolate 3 (1 : ℚ) exSquares exTable ((1 + 1) * 7 + 5) ∧
    ForceEAM_interpolate 3 (1 : ℚ) exSquares exTable (1 * 7 + 3) =
      ForceEAM_interpolate 3 (1 : ℚ) exSquares exTable (1 * 7 + 5) + ForceEAM_interpolate 3 (1 : ℚ) exSquares exTable ((1 + 1) * 7 + 5) -
        2 * (exSquares (1 + 1) - exSquares 1) ∧
    splineValue (ForceEAM_interpolate 3 (1 : ℚ) exSquares exTable) 1 1 = splineValue (ForceEAM_interpolate 3 (1 : ℚ) exSquares exTable) (1 + 1) 0) :=
  ⟨by decide, by decide, by decide,
    interpolate_hermite 3 (by decide) 1 exSquares exTable 1 (by decide) (by decide)⟩

/-! ## Derivative slots, file shift and halo of `fp` -/

section Tables

variable {K : Type} [LinearOrderedField K] [FloorRing K]

/-- Row `m` of the last loop of `ForceEAM_interpolate`: slots 0, 1, 2 from slots 3, 4, 5. -/
theorem interpolateScale_row (n : ℤ) (delta : K) (s : ℤ → K) (m : ℤ) (h1 : 1 ≤ m) (h2 : m ≤ n) :
    interpolateScale n delta s (m * 7 + 0) = 3 * s (m * 7 + 3) / delta ∧
    interpolateScale n delta s (m * 7 + 1) = 2 * s (m * 7 + 4) / delta ∧
    interpolateScale n delta s (m * 7 + 2) = s (m * 7 + 5) / delta := by
  have hfr := interpolateScale_frame (m - 1) delta s
  unfold interpolateScale at hfr ⊢
  rw [show m - 1 + 1 = m by ring] at hfr
  refine ⟨?_, ?_, ?_⟩
  · rw [forLoop_cell_at (show (1 : ℤ) ≤ m by omega) (show m < n + 1 by omega)]
    · rw [update_same, update_noteq (by omega), update_noteq (by omega), hfr _ (by omega)]
      norm_num
    · intro i hi1 _ s
      rw [update_noteq (by omega), update_noteq (by omega), update_noteq (by omega)]
  · rw [forLoop_cell_at (show (1 : ℤ) ≤ m by omega) (show m < n + 1 by omega)]
    · rw [update_noteq (by omega), update_same, update_noteq (by omega), hfr _ (by omega)]
      norm_num
    · intro i hi1 _ s
      rw [update_noteq (by omega), update_noteq (by omega), update_noteq (by omega)]
  · rw [forLoop_cell_at (show (1 : ℤ) ≤ m by omega) (show m < n + 1 by omega)]
    · rw [update_noteq (by omega), update_noteq (by omega), update_same, hfr _ (by omega)]
    · intro i hi1 _ s
      rw [update_noteq (by omega), update_noteq (by omega), update_noteq (by omega)]

/-- Slots 0, 1, 2 of row `m` of the finished table in terms of its slots 3, 4, 5. -/
theorem interpolate_slots012 (n : ℤ) (delta : K) (f spline : ℤ → K) (m : ℤ) (h1 : 1 ≤ m)
    (h2 : m ≤ n) :
    ForceEAM_interpolate n delta f spline (m * 7 + 0) =
      3 * ForceEAM_interpolate n delta f spline (m * 7 + 3) / delta ∧
    ForceEAM_interpolate n delta f spline (m * 7 + 1) =
      2 * ForceEAM_interpolate n delta f spline (m * 7 + 4) / delta ∧
    ForceEAM_interpolate n delta f spline (m * 7 + 2) =
      ForceEAM_interpolate n delta f spline (m * 7 + 5) / delta := by
  unfold ForceEAM_interpolate
  obtain ⟨a, b, c⟩ := interpolateScale_row n delta
    (interpolateCubic n (interpolateInner n (interpolateEnds n (interpolateFill n f spline))))
    m h1 h2
  rw [a, b, c, interpolateScale_frame _ _ _ _ (by omega), interpolateScale_frame _ _ _ _ (by omega),
    interpolateScale_frame _ _ _ _ (by omega)]
  exact ⟨rfl, rfl, rfl⟩

/-- C11: for every row `1 ≤ m ≤ n` of a table built by `ForceEAM_interpolate` with
`delta ≠ 0`, slot 0 is `3 * slot3 / delta`, slot 1 is `2 * slot4 / delta`, slot 2 is
`slot5 / delta`, and for every `p` the derivative polynomial `(slot0*p + slot1)*p + slot2`
is `1 / delta` times the derivative in `p` of the value cubic
`slot3*p^3 + slot4*p^2 + slot5*p + slot6`. -/
theorem interpolate_derivative_slots (n : ℤ) (delta : K) (hdelta : delta ≠ 0)
    (f spline : ℤ → K) (m : ℤ) (h1 : 1 ≤ m) (h2 : m ≤ n) :
    ForceEAM_interpolate n delta f spline (m * 7 + 0) =
      3 * ForceEAM_interpolate n delta f spline (m * 7 + 3) / delta ∧
    ForceEAM_interpolate n delta f spline (m * 7 + 1) =
      2 * ForceEAM_interpolate n delta f spline (m * 7 + 4) / delta ∧
    ForceEAM_interpolate n delta f spline (m * 7 + 2) =
      ForceEAM_interpolate n delta f spline (m * 7 + 5) / delta ∧
    ∀ p, splineDeriv (ForceEAM_interpolate n delta f spline) m p =
      1 / delta * Polynomial.eval p (Polynomial.derivative
        (Polynomial.C (ForceEAM_interpolate n delta f spline (m * 7 + 3)) * Polynomial.X ^ 3 +
         Polynomial.C (ForceEAM_interpolate n delta f spline (m * 7 + 4)) * Polynomial.X ^ 2 +
         Polynomial.C (ForceEAM_interpolate n delta f spline (m * 7 + 5)) * Polynomial.X +
         Polynomial.C (ForceEAM_interpolate n delta f spline (m * 7 + 6)))) := by
  obtain ⟨a, b, c⟩ := interpolate_slots012 n delta f spline m h1 h2
  refine ⟨a, b, c, fun p => ?_⟩
  unfold splineDeriv
  rw [a, b, c]
  simp only [Polynomial.derivative_add, Polynomial.derivative_mul, Polynomial.derivative_C,
    Polynomial.derivative_X_pow, Polynomial.derivative_X, Polynomial.eval_add,
    Polynomial.eval_mul, Polynomial.eval_C, Polynomial.eval_pow, Polynomial.eval_X]
  field_simp
  ring

theorem loopIdxDown_empty {hi lo : ℤ} (h : hi ≤ lo) : loopIdxDown hi lo = [] := by
  unfold loopIdxDown
  have : (hi - lo).toNat = 0 := by omega
  simp [this]

theorem loopIdxDown_cons {hi lo : ℤ} (h : lo ≤ hi) :
    loopIdxDown (hi + 1) lo = (hi + 1) :: loopIdxDown hi lo := by
  unfold loopIdxDown
  have : (hi + 1 - lo).toNat = (hi - lo).toNat + 1 := by omega
  rw [this, List.range_succ_eq_map, List.map_cons, List.map_map]
  congr 1
  · simp
  · apply List.map_congr_left
    intro k _
    simp only [Function.comp_apply, Nat.cast_succ]
    ring

theorem forLoopDown_empty {σ : Type} {hi lo : ℤ} (h : hi ≤ lo) (body : ℤ → σ → σ) (s : σ) :
    forLoopDown hi lo body s = s := by
  unfold forLoopDown; rw [loopIdxDown_empty h]; rfl

theorem forLoopDown_first {σ : Type} {hi lo : ℤ} (h : lo ≤ hi) (body : ℤ → σ → σ) (s : σ) :
    forLoopDown (hi + 1) lo body s = forLoopDown hi lo body (body (hi + 1) s) := by
  unfold forLoopDown; rw [loopIdxDown_cons h]; rfl

/-- The loop `for(int i = n; i > 0; i--) a[i] = a[i - 1]` moves every entry one place up:
each `a[i - 1]` is read before the next iteration overwrites it. -/
theorem shift_loop {β : Type} (a : ℤ → β) (n : ℤ) (t : ℤ) :
    forLoopDown n 0 (fun i a => update a i (a (i - 1))) a t =
      if 1 ≤ t ∧ t ≤ n then a (t - 1) else a t := by
  rcases le_or_lt n 0 with hn | hn
  · rw [forLoopDown_empty hn, if_neg (by omega)]
  · obtain ⟨d, rfl⟩ : ∃ d : ℕ, n = d := ⟨n.toNat, by omega⟩
    clear hn
    induction d generalizing a with
    | zero => rw [forLoopDown_empty (by simp), if_neg (by push_cast; omega)]
    | succ d ih =>
      rw [show ((d + 1 : ℕ) : ℤ) = (d : ℤ) + 1 by push_cast; ring,
        forLoopDown_first (by omega), ih]
      by_cases h1 : 1 ≤ t ∧ t ≤ (d : ℤ)
      · rw [if_pos h1, if_pos (by omega), update_noteq (by omega)]
      · rw [if_neg h1]
        rcases eq_or_ne t ((d : ℤ) + 1) with h | h
        · subst h
          rw [update_same, if_pos (by omega)]
        · rw [update_noteq h, if_neg (by omega)]

/-- C12: when the potential file can be read, `ForceEAM_read_file` returns, and in its
result every entry `1 ≤ i ≤ nrho` of `frho` and every entry `1 ≤ i ≤ nr` of `rhor` and of
`zr` holds the value that was read into the 0-based position `i - 1`; the header numbers are
kept. So the `n` values of each block sit in positions `1 .. n` in their original order. -/
theorem read_file_shift (file : Funcfl K) :
    ∃ r, ForceEAM_read_file (some file) = some r ∧
      r.nrho = file.nrho ∧ r.nr = file.nr ∧
      (∀ i, 1 ≤ i → i ≤ file.nrho → r.frho i = file.frho (i - 1)) ∧
      (∀ i, 1 ≤ i → i ≤ file.nr → r.rhor i = file.rhor (i - 1)) ∧
      (∀ i, 1 ≤ i → i ≤ file.nr → r.zr i = file.zr (i - 1)) := by
  refine ⟨_, rfl, rfl, rfl, ?_, ?_, ?_⟩
  · intro i h1 h2
    show (forLoopDown _ _ _ _ : ℤ → K) _ = _
    rw [shift_loop, if_pos ⟨h1, h2⟩]
  · intro i h1 h2
    show (forLoopDown _ _ _ _ : ℤ → K) _ = _
    rw [shift_loop, if_pos ⟨h1, h2⟩]
  · intro i h1 h2
    show (forLoopDown _ _ _ _ : ℤ → K) _ = _
    rw [shift_loop, if_pos ⟨h1, h2⟩]

/-- Cells of the send buffer after `ForceEAM_pack_comm`. -/
theorem pack_comm_cell (fe : ForceEAM K) (n iswap : ℤ) (buf : ℤ → K) (sl : ℤ → ℤ → ℤ) (k : ℤ)
    (h0 : 0 ≤ k) (h1 : k < n) :
    ForceEAM_pack_comm fe n iswap buf sl k = fe.fp (sl iswap k) := by
  unfold ForceEAM_pack_comm
  rw [forLoop_cell_at h0 h1]
  · rw [update_same]
  · intro i hi _ s
    rw [update_noteq (by omega)]

/-- The loop of `ForceEAM_unpack_comm` with its counter `m`: after the iterations
`first ≤ i < hi`, cell `t` of that range holds `buf[t - first]` and `m = hi - first`. -/
theorem unpack_loop (fp buf : ℤ → K) (first : ℤ) (d : ℕ) :
    forLoop first (first + d)
      (fun i (s : (ℤ → K) × ℤ) => (update s.1 i (buf s.2), s.2 + 1)) (fp, 0) =
    (fun t => if first ≤ t ∧ t < first + d then buf (t - first) else fp t, (d : ℤ)) := by
  induction d with
  | zero =>
    rw [forLoop_empty (by simp)]
    congr 1
    funext t
    rw [if_neg (by push_cast; omega)]
  | succ d ih =>
    rw [show first + ((d + 1 : ℕ) : ℤ) = first + (d : ℤ) + 1 by push_cast; ring,
      forLoop_last (by omega), ih]
    refine Prod.ext ?_ ?_
    · funext t
      show update _ _ _ t = _
      rcases eq_or_ne t (first + d) with h | h
      · subst h
        rw [update_same]
        dsimp only
        rw [if_pos (by omega)]
        congr 1
        ring
      · rw [update_noteq h]
        dsimp only
        by_cases hc : first ≤ t ∧ t < first + d
        · rw [if_pos hc, if_pos (by omega)]
        · rw [if_neg hc, if_neg (by omega)]
    · push_cast
      ring

/-- The array `fp` after `ForceEAM_unpack_comm`. -/
theorem unpack_comm_fp (fe : ForceEAM K) (n first : ℤ) (buf : ℤ → K) (t : ℤ) :
    (ForceEAM_unpack_comm fe n first buf).fp t =
      if first ≤ t ∧ t < first + n then buf (t - first) else fe.fp t := by
  unfold ForceEAM_unpack_comm
  simp only
  rcases le_or_lt 0 n with hn | hn
  · obtain ⟨d, rfl⟩ : ∃ d : ℕ, n = d := ⟨n.toNat, by omega⟩
    rw [unpack_loop]
  · rw [forLoop_empty (by omega), if_neg (by omega)]

/-- The function `ForceEAM_unpack_comm` writes `fp` only. -/
theorem unpack_comm_fields (fe : ForceEAM K) (n first : ℤ) (buf : ℤ → K) :
    ForceEAM_unpack_comm fe n first buf =
      { fe with fp := (ForceEAM_unpack_comm fe n first buf).fp } := rfl

/-- One swap to self: the received cells are copies of the send-list cells as they stood
when the swap started. -/
theorem communicateSwap_self (E : Env K) (iswap : ℤ) (fe : ForceEAM K) (comm : Comm K)
    (hself : comm.sendproc iswap = fe.me) (t : ℤ) :
    (communicateSwap E iswap (fe, comm)).1.fp t =
      if comm.firstrecv iswap ≤ t ∧ t < comm.firstrecv iswap + comm.recvnum iswap then
        ForceEAM_pack_comm fe (comm.sendnum iswap) iswap comm.buf_send comm.sendlist
          (t - comm.firstrecv iswap)
      else fe.fp t := by
  unfold communicateSwap
  simp only [hself, ne_eq, not_true_eq_false, if_false]
  rw [unpack_comm_fp]

/-- The swap loop changes the buffers of `comm` only, and of `force_eam` only `fp`. -/
theorem communicate_plan (E : Env K) (fe : ForceEAM K) (comm : Comm K) (lo hi : ℤ) :
    (forLoop lo hi (communicateSwap E) (fe, comm)).1.me = fe.me ∧
    (forLoop lo hi (communicateSwap E) (fe, comm)).2.sendproc = comm.sendproc ∧
    (forLoop lo hi (communicateSwap E) (fe, comm)).2.sendnum = comm.sendnum ∧
    (forLoop lo hi (communicateSwap E) (fe, comm)).2.recvnum = comm.recvnum ∧
    (forLoop lo hi (communicateSwap E) (fe, comm)).2.firstrecv = comm.firstrecv ∧
    (forLoop lo hi (communicateSwap E) (fe, comm)).2.sendlist = comm.sendlist := by
  apply forLoop_inv (fun s : ForceEAM K × Comm K => s.1.me = fe.me ∧
    s.2.sendproc = comm.sendproc ∧ s.2.sendnum = comm.sendnum ∧ s.2.recvnum = comm.recvnum ∧
    s.2.firstrecv = comm.firstrecv ∧ s.2.sendlist = comm.sendlist)
  · rintro i _ _ ⟨f, c⟩ ⟨h1, h2, h3, h4, h5, h6⟩
    simp only at h1 h2 h3 h4 h5 h6
    unfold communicateSwap
    simp only
    split_ifs
    · exact ⟨h1, h2, h3, h4, h5, h6⟩
    · exact ⟨h1, h2, h3, h4, h5, h6⟩
  · exact ⟨rfl, rfl, rfl, rfl, rfl, rfl⟩

/-- C13: in `ForceEAM_communicate`, a swap `iswap` to self (`sendproc[iswap] = me`) with
`recvnum[iswap] = sendnum[iswap] = n` sets `fp[firstrecv + k]` to the value `fp[sendlist[iswap][k]]`
had when that swap started, for every `0 ≤ k < n`, and leaves every entry of `fp` outside
`[firstrecv, firstrecv + n)` as it was when the swap started. The state when swap `iswap`
starts is the loop run over the swaps before it. -/
theorem communicate_self_swap (E : Env K) (fe : ForceEAM K) (comm : Comm K) (iswap n : ℤ)
    (h0 : 0 ≤ iswap) (h1 : iswap < comm.nswap) (hself : comm.sendproc iswap = fe.me)
    (hs : comm.sendnum iswap = n) (hr : comm.recvnum iswap = n) :
    ForceEAM_communicate E fe comm =
      forLoop (iswap + 1) comm.nswap (communicateSwap E)
        (communicateSwap E iswap (forLoop 0 iswap (communicateSwap E) (fe, comm))) ∧
    (∀ k, 0 ≤ k → k < n →
      (communicateSwap E iswap (forLoop 0 iswap (communicateSwap E) (fe, comm))).1.fp
          (comm.firstrecv iswap + k) =
        (forLoop 0 iswap (communicateSwap E) (fe, comm)).1.fp (comm.sendlist iswap k)) ∧
    (∀ t, ¬ (comm.firstrecv iswap ≤ t ∧ t < comm.firstrecv iswap + n) →
      (communicateSwap E iswap (forLoop 0 iswap (communicateSwap E) (fe, comm))).1.fp t =
        (forLoop 0 iswap (communicateSwap E) (fe, comm)).1.fp t) := by
  obtain ⟨p1, p2, p3, p4, p5, p6⟩ := communicate_plan E fe comm 0 iswap
  have hsw : ∀ t, (communicateSwap E iswap (forLoop 0 iswap (communicateSwap E) (fe, comm))).1.fp t
      = _ := communicateSwap_self E iswap (forLoop 0 iswap (communicateSwap E) (fe, comm)).1
        (forLoop 0 iswap (communicateSwap E) (fe, comm)).2 (by rw [p1, p2]; exact hself)
  rw [p3, p4, p5, p6, hs, hr] at hsw
  refine ⟨?_, ?_, ?_⟩
  · unfold ForceEAM_communicate
    rw [forLoop_split (show (0 : ℤ) ≤ iswap + 1 by omega) (show iswap + 1 ≤ comm.nswap by omega),
      forLoop_last h0]
  · intro k hk0 hk1
    rw [hsw, if_pos (by omega), pack_comm_cell _ _ _ _ _ _ (by omega) (by omega)]
    congr 2
    ring
  · intro t ht
    rw [hsw, if_neg ht]

/-- C11, witness: row 1 of a table of three squares with `delta = 1`. -/
theorem interpolate_derivative_slots_witness :
    (1 : ℚ) ≠ 0 ∧ (1 : ℤ) ≤ 1 ∧ (1 : ℤ) ≤ 3 ∧
    (ForceEAM_interpolate 3 (1 : ℚ) exSquares exTable (1 * 7 + 0) =
      3 * ForceEAM_interpolate 3 (1 : ℚ) exSquares exTable (1 * 7 + 3) / 1 ∧
    ForceEAM_interpolate 3 (1 : ℚ) exSquares exTable (1 * 7 + 1) =
      2 * ForceEAM_interpolate 3 (1 : ℚ) exSquares exTable (1 * 7 + 4) / 1 ∧
    ForceEAM_interpolate 3 (1 : ℚ) exSquares exTable (1 * 7 + 2) =
      ForceEAM_interpolate 3 (1 : ℚ) exSquares exTable (1 * 7 + 5) / 1 ∧
    ∀ p, splineDeriv (ForceEAM_interpolate 3 (1 : ℚ) exSquares exTable) 1 p =
      1 / 1 * Polynomial.eval p (Polynomial.derivative
        (Polynomial.C (ForceEAM_interpolate 3 (1 : ℚ) exSquares exTable (1 * 7 + 3)) * Polynomial.X ^ 3 +
         Polynomial.C (ForceEAM_interpolate 3 (1 : ℚ) exSquares exTable (1 * 7 + 4)) * Polynomial.X ^ 2 +
         Polynomial.C (ForceEAM_interpolate 3 (1 : ℚ) exSquares exTable (1 * 7 + 5)) * Polynomial.X +
         Polynomial.C (ForceEAM_interpolate 3 (1 : ℚ) exSquares exTable (1 * 7 + 6))))) :=
  ⟨by norm_num, by decide, by decide,
    interpolate_derivative_slots 3 1 (by norm_num) exSquares exTable 1 (by decide) (by decide)⟩

/-- C13, witness: one swap to self that copies `fp[0]` into the ghost cell 2. -/
theorem communicate_self_swap_witness :
    (0 : ℤ) ≤ 0 ∧ (0 : ℤ) < exCommSelf.nswap ∧ exCommSelf.sendproc 0 = (exForce 0).me ∧
    exCommSelf.sendnum 0 = 1 ∧ exCommSelf.recvnum 0 = 1 ∧
    (ForceEAM_communicate exEnv (exForce 0) exCommSelf =
      forLoop (0 + 1) exCommSelf.nswap (communicateSwap exEnv)
        (communicateSwap exEnv 0 (forLoop 0 0 (communicateSwap exEnv) (exForce 0, exCommSelf))) ∧
    (∀ k, 0 ≤ k → k < 1 →
      (communicateSwap exEnv 0 (forLoop 0 0 (communicateSwap exEnv) (exForce 0, exCommSelf))).1.fp
          (exCommSelf.firstrecv 0 + k) =
        (forLoop 0 0 (communicateSwap exEnv) (exForce 0, exCommSelf)).1.fp
          (exCommSelf.sendlist 0 k)) ∧
    (∀ t, ¬ (exCommSelf.firstrecv 0 ≤ t ∧ t < exCommSelf.firstrecv 0 + 1) →
      (communicateSwap exEnv 0 (forLoop 0 0 (communicateSwap exEnv) (exForce 0, exCommSelf))).1.fp t =
        (forLoop 0 0 (communicateSwap exEnv) (exForce 0, exCommSelf)).1.fp t)) :=
  ⟨by decide, by decide, rfl, rfl, rfl,
    communicate_self_swap exEnv (exForce 0) exCommSelf 0 1 (by decide) (by decide) rfl rfl rfl⟩

end Tables

/-! ## The option loops -/

theorem optionLoop_value (M : MainEnv) (a : String) (ha : a ∈ valueFlags) (v : MainVars) :
    optionLoop M [a] v = .undefined ∧
    ∀ x rest, optionLoop M (a :: x :: rest) v = optionLoop M rest (optionValue M a x v) := by
  simp only [valueFlags, List.mem_cons, List.mem_singleton, List.not_mem_nil, or_false] at ha
  rcases ha with rfl | rfl | rfl | rfl | rfl | rfl | rfl | rfl | rfl | rfl | rfl | rfl | rfl |
    rfl | rfl | rfl | rfl | rfl | rfl | rfl | rfl | rfl | rfl | rfl | rfl <;>
  · constructor
    · simp [optionLoop]
    · intro x rest
      simp [optionLoop, optionValue]

theorem optionLoop_other (M : MainEnv) (a : String) (ha : a ∉ valueFlags) (rest : List String)
    (v : MainVars) :
    optionLoop M (a :: rest) v =
      if a = "--check_exchange" then optionLoop M rest { v with check_safeexchange := 1 }
      else if a = "--yaml_screen" then optionLoop M rest { v with screen_yaml := 1 }
      else if a = "-h" ∨ a = "--help" then .exited 0
      else optionLoop M rest v := by
  simp only [valueFlags, List.mem_cons, List.mem_singleton, List.not_mem_nil, or_false,
    not_or] at ha
  obtain ⟨h1, h2, h3, h4, h5, h6, h7, h8, h9, h10, h11, h12, h13, h14, h15, h16, h17, h18, h19,
    h20, h21, h22, h23, h24, h25⟩ := ha
  cases rest <;>
  simp only [optionLoop, h1, h2, h3, h4, h5, h6, h7, h8, h9, h10, h11, h12, h13, h14, h15, h16,
    h17, h18, h19, h20, h21, h22, h23, h24, h25, or_self, if_false]

theorem specGiven_value (names : List String) (a : String) (ha : a ∈ valueFlags) (x : String)
    (rest : List String) :
    specGiven names (a :: x :: rest) =
      match specGiven names rest with
      | some y => some y
      | none => if a ∈ names then some x else none := by
  simp only [specGiven, ha, if_true]

theorem specGiven_other (names : List String) (a : String) (ha : a ∉ valueFlags)
    (rest : List String) : specGiven names (a :: rest) = specGiven names rest := by
  cases rest <;> simp only [specGiven, ha, if_false]

/-- Induction along the words the second loop looks at. -/
theorem optionLoop_ind (P : List String → MainVars → Prop)
    (h0 : ∀ v, P [] v)
    (h1 : ∀ a v, a ∈ valueFlags → P [a] v)
    (h2 : ∀ a x rest v, a ∈ valueFlags → (∀ w, P rest w) → P (a :: x :: rest) v)
    (h3 : ∀ a rest v, a ∉ valueFlags → (∀ w, P rest w) → P (a :: rest) v) :
    ∀ l v, P l v := by
  have key : ∀ n : ℕ, ∀ l : List String, l.length ≤ n → ∀ v, P l v := by
    intro n
    induction n with
    | zero =>
      intro l hl v
      have : l = [] := List.length_eq_zero.1 (Nat.le_zero.1 hl)
      subst this
      exact h0 v
    | succ n ih =>
      intro l hl v
      match l, hl with
      | [], _ => exact h0 v
      | a :: rest, hl =>
        by_cases ha : a ∈ valueFlags
        · match rest, hl with
          | [], _ => exact h1 a v ha
          | x :: rest, hl =>
            exact h2 a x rest v ha (fun w => ih rest (by simp at hl ⊢; omega) w)
        · exact h3 a rest v ha (fun w => ih rest (by simp at hl ⊢; omega) w)
  exact fun l v => key l.length l (le_refl _) v

/-- A variable that only the value flags `names` write (with `atoi` of the value) ends the
second loop with the value of the last of them, or as it was. -/
theorem optionLoop_given (M : MainEnv) (g : MainVars → ℤ) (names : List String)
    (hv : ∀ a x v, a ∈ valueFlags →
      g (optionValue M a x v) = if a ∈ names then M.atoi x else g v)
    (hc : ∀ v, g { v with check_safeexchange := 1 } = g v)
    (hy : ∀ v, g { v with screen_yaml := 1 } = g v) :
    ∀ l v w, optionLoop M l v = .done w →
      g w = match specGiven names l with
        | some x => M.atoi x
        | none => g v := by
  apply optionLoop_ind (fun l v => ∀ w, optionLoop M l v = .done w →
      g w = match specGiven names l with
        | some x => M.atoi x
        | none => g v)
  · intro v w h
    simp only [optionLoop, Outcome.done.injEq] at h
    subst h
    rfl
  · intro a v ha w h
    rw [(optionLoop_value M a ha v).1] at h
    cases h
  · intro a x rest v ha ih w h
    rw [(optionLoop_value M a ha v).2] at h
    have := ih _ w h
    rw [this, hv _ _ _ ha, specGiven_value names a ha]
    cases specGiven names rest with
    | some y => rfl
    | none =>
      by_cases hn : a ∈ names
      · simp only [hn, if_true]
      · simp only [hn, if_false]
  · intro a rest v ha ih w h
    rw [optionLoop_other M a ha] at h
    rw [specGiven_other names a ha]
    split_ifs at h with c1 c2 c3
    · rw [ih _ w h, hc]
    · rw [ih _ w h, hy]
    · exact ih _ w h

/-- A quantity that no branch of the second loop changes. -/
theorem optionLoop_keeps {β : Type} (M : MainEnv) (g : MainVars → β)
    (hv : ∀ a x v, a ∈ valueFlags → g (optionValue M a x v) = g v)
    (hc : ∀ v, g { v with check_safeexchange := 1 } = g v)
    (hy : ∀ v, g { v with screen_yaml := 1 } = g v) :
    ∀ l v w, optionLoop M l v = .done w → g w = g v := by
  apply optionLoop_ind (fun l v => ∀ w, optionLoop M l v = .done w → g w = g v)
  · intro v w h
    simp only [optionLoop, Outcome.done.injEq] at h
    subst h
    rfl
  · intro a v ha w h
    rw [(optionLoop_value M a ha v).1] at h
    cases h
  · intro a x rest v ha ih w h
    rw [(optionLoop_value M a ha v).2] at h
    rw [ih _ w h, hv _ _ _ ha]
  · intro a rest v ha ih w h
    rw [optionLoop_other M a ha] at h
    split_ifs at h with c1 c2 c3
    · rw [ih _ w h, hc]
    · rw [ih _ w h, hy]
    · exact ih _ w h

theorem deviceLoop_value (M : MainEnv) (a : String) (ha : a ∈ deviceFlags) (v : MainVars)
    (x : String) (rest : List String) :
    deviceLoop M (a :: x :: rest) v = deviceLoop M rest (deviceValue M a x v) := by
  simp only [deviceFlags, List.mem_cons, List.mem_singleton, List.not_mem_nil, or_false] at ha
  rcases ha with rfl | rfl | rfl | rfl | rfl | rfl | rfl | rfl | rfl <;>
  simp [deviceLoop, deviceValue]

theorem deviceLoop_last (M : MainEnv) (a : String) (ha : a ∈ deviceFlags) (v : MainVars) :
    deviceLoop M [a] v = .undefined ∨ deviceLoop M [a] v = .done { v with input_file := none } := by
  simp only [deviceFlags, List.mem_cons, List.mem_singleton, List.not_mem_nil, or_false] at ha
  rcases ha with rfl | rfl | rfl | rfl | rfl | rfl | rfl | rfl | rfl <;>
  simp [deviceLoop]

theorem deviceLoop_other (M : MainEnv) (a : String) (ha : a ∉ deviceFlags) (rest : List String)
    (v : MainVars) :
    deviceLoop M (a :: rest) v =
      if a = "-dm" ∨ a = "--device_map" then
        match deviceMapAll M v with
        | none => .undefined
        | some w => deviceLoop M rest w
      else deviceLoop M rest v := by
  simp only [deviceFlags, List.mem_cons, List.mem_singleton, List.not_mem_nil, or_false,
    not_or] at ha
  obtain ⟨h1, h2, h3, h4, h5, h6, h7, h8, h9⟩ := ha
  cases rest <;> simp [deviceLoop, h1, h2, h3, h4, h5, h6, h7, h8, h9]

/-- Induction along the words the first loop looks at. -/
theorem deviceLoop_ind (P : List String → MainVars → Prop)
    (h0 : ∀ v, P [] v)
    (h1 : ∀ a v, a ∈ deviceFlags → P [a] v)
    (h2 : ∀ a x rest v, a ∈ deviceFlags → (∀ w, P rest w) → P (a :: x :: rest) v)
    (h3 : ∀ a rest v, a ∉ deviceFlags → (∀ w, P rest w) → P (a :: rest) v) :
    ∀ l v, P l v := by
  have key : ∀ n : ℕ, ∀ l : List String, l.length ≤ n → ∀ v, P l v := by
    intro n
    induction n with
    | zero =>
      intro l hl v
      have : l = [] := List.length_eq_zero.1 (Nat.le_zero.1 hl)
      subst this
      exact h0 v
    | succ n ih =>
      intro l hl v
      match l, hl with
      | [], _ => exact h0 v
      | a :: rest, hl =>
        by_cases ha : a ∈ deviceFlags
        · match rest, hl with
          | [], _ => exact h1 a v ha
          | x :: rest, hl =>
            exact h2 a x rest v ha (fun w => ih rest (by simp at hl ⊢; omega) w)
        · exact h3 a rest v ha (fun w => ih rest (by simp at hl ⊢; omega) w)
  exact fun l v => key l.length l (le_refl _) v

theorem deviceMap_keeps {β : Type} (M : MainEnv) (g : MainVars → β)
    (hd : ∀ v d, g { v with device := d } = g v) (name : String) (v w : MainVars)
    (h : deviceMap M name v = some w) : g w = g v := by
  unfold deviceMap at h
  cases hg : M.getenv name with
  | none =>
    rw [hg] at h
    simp only [Option.some.injEq] at h
    rw [h]
  | some str =>
    rw [hg] at h
    simp only at h
    split_ifs at h
    all_goals
      simp only [Option.some.injEq] at h
      rw [← h, hd]

theorem deviceMapAll_keeps {β : Type} (M : MainEnv) (g : MainVars → β)
    (hd : ∀ v d, g { v with device := d } = g v) (v w : MainVars)
    (h : deviceMapAll M v = some w) : g w = g v := by
  unfold deviceMapAll at h
  simp only [Option.bind_eq_some] at h
  obtain ⟨v1, h1, v2, h2, h3⟩ := h
  rw [deviceMap_keeps M g hd _ _ _ h3, deviceMap_keeps M g hd _ _ _ h2,
    deviceMap_keeps M g hd _ _ _ h1]

/-- A quantity that no branch of the first loop changes. -/
theorem deviceLoop_keeps {β : Type} (M : MainEnv) (g : MainVars → β)
    (hv : ∀ a x v, g (deviceValue M a x v) = g v)
    (hi : ∀ v, g { v with input_file := none } = g v)
    (hd : ∀ v d, g { v with device := d } = g v) :
    ∀ l v w, deviceLoop M l v = .done w → g w = g v := by
  apply deviceLoop_ind (fun l v => ∀ w, deviceLoop M l v = .done w → g w = g v)
  · intro v w h
    simp only [deviceLoop, Outcome.done.injEq] at h
    subst h
    rfl
  · intro a v ha w h
    rcases deviceLoop_last M a ha v with h' | h'
    · rw [h'] at h
      cases h
    · rw [h'] at h
      simp only [Outcome.done.injEq] at h
      rw [← h, hi]
  · intro a x rest v ha ih w h
    rw [deviceLoop_value M a ha] at h
    rw [ih _ w h, hv]
  · intro a rest v ha ih w h
    rw [deviceLoop_other M a ha] at h
    split_ifs at h with c1
    · cases hm : deviceMapAll M v with
      | none =>
        rw [hm] at h
        cases h
      | some u =>
        rw [hm] at h
        rw [ih _ w h, deviceMapAll_keeps M g hd v u hm]
    · exact ih _ w h

/-- The parts of a run of `main` that reaches the simulation. -/
theorem main_done (M : MainEnv) (argv : List String) (s : Settings)
    (h : main M argv = .done s) :
    ∃ v1 v2, deviceLoop M argv mainInit = .done v1 ∧
      (M.input (inputName v1.input_file)).1 = 0 ∧
      optionLoop M argv { v1 with inp := (M.input (inputName v1.input_file)).2 } = .done v2 ∧
      mainSettings M v2 = .done s := by
  unfold main at h
  cases h1 : deviceLoop M argv mainInit with
  | undefined => rw [h1] at h; cases h
  | exited c => rw [h1] at h; cases h
  | done v1 =>
    rw [h1] at h
    simp only at h
    by_cases he : (M.input (inputName v1.input_file)).1 = 0
    · rw [if_neg (by simpa using he)] at h
      cases h2 : optionLoop M argv { v1 with inp := (M.input (inputName v1.input_file)).2 } with
      | undefined => rw [h2] at h; cases h
      | exited c => rw [h2] at h; cases h
      | done v2 =>
        rw [h2] at h
        exact ⟨v1, v2, rfl, he, h2, h⟩
    · rw [if_pos he] at h
      cases h

/-- The settings of a run in terms of the variables left by the second loop. -/
theorem mainSettings_done (M : MainEnv) (v : MainVars) (s : Settings)
    (h : mainSettings M v = .done s) :
    s.inp = boxSize (eamGhostNewton M v) ∧
    s.input_file = v.input_file ∧
    s.neighbor_ghost_newton = (eamGhostNewton M v).ghost_newton ∧
    s.neighbor_halfneigh = v.halfneigh ∧
    s.comm_do_safeexchange = v.do_safeexchange ∧
    s.force_use_oldcompute = (if v.halfneigh < 0 then some 1 else none) ∧
    s.integrate_sort_every =
      (if v.sort > 0 then v.sort
        else (if v.sort < 0 then (boxSize (eamGhostNewton M v)).neigh_every else 0)) ∧
    s.device = v.device := by
  have e1 : (eamGhostNewton M v).input_file = v.input_file := by
    unfold eamGhostNewton; split_ifs <;> rfl
  have e2 : (eamGhostNewton M v).halfneigh = v.halfneigh := by
    unfold eamGhostNewton; split_ifs <;> rfl
  have e3 : (eamGhostNewton M v).do_safeexchange = v.do_safeexchange := by
    unfold eamGhostNewton; split_ifs <;> rfl
  have e4 : (eamGhostNewton M v).sort = v.sort := by
    unfold eamGhostNewton; split_ifs <;> rfl
  have e5 : (eamGhostNewton M v).device = v.device := by
    unfold eamGhostNewton; split_ifs <;> rfl
  unfold mainSettings at h
  simp only at h
  by_cases c1 : (eamGhostNewton M v).inp.forcetype ≠ M.FORCEEAM ∧
      (eamGhostNewton M v).inp.forcetype ≠ M.FORCELJ
  · rw [if_pos c1] at h
    cases h
  · rw [if_neg c1] at h
    by_cases c2 : (eamGhostNewton M v).use_sse ≠ 0 ∧ M.VARIANT_REFERENCE = true
    · rw [if_pos c2] at h
      cases h
    · rw [if_neg c2] at h
      simp only [Outcome.done.injEq] at h
      subst h
      simp only [e1, e2, e3, e4, e5]
      exact ⟨trivial, trivial, trivial, trivial, trivial, trivial, trivial, trivial⟩

/-! ## Settings of a run -/

/-- What the branch of a value flag of the second loop does to the variables that the
settings below depend on. -/
theorem optionValue_fields (M : MainEnv) (a x : String) (v : MainVars) (ha : a ∈ valueFlags) :
    (optionValue M a x v).halfneigh = v.halfneigh ∧
    (optionValue M a x v).do_safeexchange = v.do_safeexchange ∧
    (optionValue M a x v).input_file = v.input_file ∧
    (optionValue M a x v).inp.neigh_every = v.inp.neigh_every ∧
    (optionValue M a x v).inp.nx = v.inp.nx ∧
    (optionValue M a x v).inp.ny = v.inp.ny ∧
    (optionValue M a x v).inp.nz = v.inp.nz ∧
    (optionValue M a x v).sort = (if a ∈ ["--sort"] then M.atoi x else v.sort) ∧
    (optionValue M a x v).nx = (if a ∈ ["-nx"] then M.atoi x else v.nx) ∧
    (optionValue M a x v).ny = (if a ∈ ["-ny"] then M.atoi x else v.ny) ∧
    (optionValue M a x v).nz = (if a ∈ ["-nz"] then M.atoi x else v.nz) ∧
    (optionValue M a x v).system_size =
      (if a ∈ ["-s", "--size"] then M.atoi x else v.system_size) ∧
    (optionValue M a x v).ghost_newton =
      (if a ∈ ["-gn", "--ghost_newton"] then M.atoi x else v.ghost_newton) := by
  simp only [valueFlags, List.mem_cons, List.mem_singleton, List.not_mem_nil, or_false] at ha
  rcases ha with rfl | rfl | rfl | rfl | rfl | rfl | rfl | rfl | rfl | rfl | rfl | rfl | rfl |
    rfl | rfl | rfl | rfl | rfl | rfl | rfl | rfl | rfl | rfl | rfl | rfl
  all_goals first
    | (simp [optionValue]; done)
    | (simp [optionValue]; split_ifs <;> simp)

/-- The variables of a run that the input file and the first loop leave alone, after the
second loop: each is the value of its flag, or its initial value. -/
theorem main_vars (M : MainEnv) (argv : List String) (v1 v2 : MainVars)
    (h1 : deviceLoop M argv mainInit = .done v1) (inp : In)
    (h2 : optionLoop M argv { v1 with inp := inp } = .done v2) :
    v2.halfneigh = 0 ∧ v2.do_safeexchange = 0 ∧
    v2.input_file = v1.input_file ∧
    v2.inp.neigh_every = inp.neigh_every ∧ v2.inp.nx = inp.nx ∧ v2.inp.ny = inp.ny ∧
    v2.inp.nz = inp.nz ∧
    (v2.sort = match specGiven ["--sort"] argv with
      | some x => M.atoi x
      | none => -1) ∧
    (v2.nx = match specGiven ["-nx"] argv with
      | some x => M.atoi x
      | none => -1) ∧
    (v2.ny = match specGiven ["-ny"] argv with
      | some x => M.atoi x
      | none => -1) ∧
    (v2.nz = match specGiven ["-nz"] argv with
      | some x => M.atoi x
      | none => -1) ∧
    (v2.system_size = match specGiven ["-s", "--size"] argv with
      | some x => M.atoi x
      | none => -1) ∧
    (v2.ghost_newton = match specGiven ["-gn", "--ghost_newton"] argv with
      | some x => M.atoi x
      | none => 1) := by
  have k1 : ∀ {β : Type} (g : MainVars → β),
      (∀ v t, g { v with num_threads := t } = g v) →
      (∀ v t, g { v with input_file := t } = g v) →
      (∀ v t, g { v with device := t } = g v) →
      (∀ v t, g { v with ngpu := t } = g v) →
      (∀ v t, g { v with skip_gpu := t } = g v) → g v1 = g mainInit := by
    intro β g a1 a2 a3 a4 a5
    refine deviceLoop_keeps M g ?_ (fun v => a2 v none) a3 argv mainInit v1 h1
    intro a x v
    unfold deviceValue
    split_ifs
    · exact a1 _ _
    · exact a2 _ _
    · exact a3 _ _
    · exact a4 _ _
    · exact a5 _ _
    · rfl
  have k2 : ∀ {β : Type} (g : MainVars → β),
      (∀ a x v, a ∈ valueFlags → g (optionValue M a x v) = g v) →
      (∀ v, g { v with check_safeexchange := 1 } = g v) →
      (∀ v, g { v with screen_yaml := 1 } = g v) → g v2 = g { v1 with inp := inp } :=
    fun g a b c => optionLoop_keeps M g a b c argv _ v2 h2
  have k3 : ∀ (g : MainVars → ℤ) (names : List String),
      (∀ a x v, a ∈ valueFlags →
        g (optionValue M a x v) = if a ∈ names then M.atoi x else g v) →
      (∀ v, g { v with check_safeexchange := 1 } = g v) →
      (∀ v, g { v with screen_yaml := 1 } = g v) →
      g v2 = match specGiven names argv with
        | some x => M.atoi x
        | none => g { v1 with inp := inp } :=
    fun g names a b c => optionLoop_given M g names a b c argv _ v2 h2
  refine ⟨?_, ?_, ?_, ?_, ?_, ?_, ?_, ?_, ?_, ?_, ?_, ?_, ?_⟩
  · rw [k2 (fun v => v.halfneigh) (fun a x v ha => (optionValue_fields M a x v ha).1)
      (fun _ => rfl) (fun _ => rfl)]
    exact k1 (fun v => v.halfneigh) (fun _ _ => rfl) (fun _ _ => rfl) (fun _ _ => rfl)
      (fun _ _ => rfl) (fun _ _ => rfl)
  · rw [k2 (fun v => v.do_safeexchange) (fun a x v ha => (optionValue_fields M a x v ha).2.1)
      (fun _ => rfl) (fun _ => rfl)]
    exact k1 (fun v => v.do_safeexchange) (fun _ _ => rfl) (fun _ _ => rfl) (fun _ _ => rfl)
      (fun _ _ => rfl) (fun _ _ => rfl)
  · exact k2 (fun v => v.input_file) (fun a x v ha => (optionValue_fields M a x v ha).2.2.1)
      (fun _ => rfl) (fun _ => rfl)
  · exact k2 (fun v => v.inp.neigh_every)
      (fun a x v ha => (optionValue_fields M a x v ha).2.2.2.1) (fun _ => rfl) (fun _ => rfl)
  · exact k2 (fun v => v.inp.nx)
      (fun a x v ha => (optionValue_fields M a x v ha).2.2.2.2.1) (fun _ => rfl) (fun _ => rfl)
  · exact k2 (fun v => v.inp.ny)
      (fun a x v ha => (optionValue_fields M a x v ha).2.2.2.2.2.1) (fun _ => rfl)
      (fun _ => rfl)
  · exact k2 (fun v => v.inp.nz)
      (fun a x v ha => (optionValue_fields M a x v ha).2.2.2.2.2.2.1) (fun _ => rfl)
      (fun _ => rfl)
  · rw [k3 (fun v => v.sort) _
      (fun a x v ha => (optionValue_fields M a x v ha).2.2.2.2.2.2.2.1) (fun _ => rfl)
      (fun _ => rfl)]
    have : v1.sort = -1 := k1 (fun v => v.sort) (fun _ _ => rfl) (fun _ _ => rfl)
      (fun _ _ => rfl) (fun _ _ => rfl) (fun _ _ => rfl)
    simp only [this]
  · rw [k3 (fun v => v.nx) _
      (fun a x v ha => (optionValue_fields M a x v ha).2.2.2.2.2.2.2.2.1) (fun _ => rfl)
      (fun _ => rfl)]
    have : v1.nx = -1 := k1 (fun v => v.nx) (fun _ _ => rfl) (fun _ _ => rfl)
      (fun _ _ => rfl) (fun _ _ => rfl) (fun _ _ => rfl)
    simp only [this]
  · rw [k3 (fun v => v.ny) _
      (fun a x v ha => (optionValue_fields M a x v ha).2.2.2.2.2.2.2.2.2.1) (fun _ => rfl)
      (fun _ => rfl)]
    have : v1.ny = -1 := k1 (fun v => v.ny) (fun _ _ => rfl) (fun _ _ => rfl)
      (fun _ _ => rfl) (fun _ _ => rfl) (fun _ _ => rfl)
    simp only [this]
  · rw [k3 (fun v => v.nz) _
      (fun a x v ha => (optionValue_fields M a x v ha).2.2.2.2.2.2.2.2.2.2.1) (fun _ => rfl)
      (fun _ => rfl)]
    have : v1.nz = -1 := k1 (fun v => v.nz) (fun _ _ => rfl) (fun _ _ => rfl)
      (fun _ _ => rfl) (fun _ _ => rfl) (fun _ _ => rfl)
    simp only [this]
  · rw [k3 (fun v => v.system_size) _
      (fun a x v ha => (optionValue_fields M a x v ha).2.2.2.2.2.2.2.2.2.2.2.1) (fun _ => rfl)
      (fun _ => rfl)]
    have : v1.system_size = -1 := k1 (fun v => v.system_size) (fun _ _ => rfl)
      (fun _ _ => rfl) (fun _ _ => rfl) (fun _ _ => rfl) (fun _ _ => rfl)
    simp only [this]
  · rw [k3 (fun v => v.ghost_newton) _
      (fun a x v ha => (optionValue_fields M a x v ha).2.2.2.2.2.2.2.2.2.2.2.2) (fun _ => rfl)
      (fun _ => rfl)]
    have : v1.ghost_newton = 1 := k1 (fun v => v.ghost_newton) (fun _ _ => rfl)
      (fun _ _ => rfl) (fun _ _ => rfl) (fun _ _ => rfl) (fun _ _ => rfl)
    simp only [this]

/-! ## Words that no loop knows -/

theorem unknown_word (a : String) (ha : a ∉ knownFlags) :
    a ∉ deviceFlags ∧ a ∉ valueFlags ∧ a ≠ "-dm" ∧ a ≠ "--device_map" ∧
    a ≠ "--check_exchange" ∧ a ≠ "--yaml_screen" ∧ a ≠ "-h" ∧ a ≠ "--help" := by
  simp only [knownFlags, List.mem_append, List.mem_cons, List.mem_singleton, List.not_mem_nil,
    or_false, not_or] at ha
  obtain ⟨⟨⟨h1, h2, h3⟩, h4⟩, h5, h6, h7, h8⟩ := ha
  exact ⟨h1, h4, h2, h3, h5, h6, h7, h8⟩

theorem deviceLoop_unknown (M : MainEnv) (a : String) (ha : a ∉ knownFlags) (rest : List String)
    (v : MainVars) : deviceLoop M (a :: rest) v = deviceLoop M rest v := by
  obtain ⟨h1, _, h3, h4, _⟩ := unknown_word a ha
  rw [deviceLoop_other M a h1, if_neg (by simp [h3, h4])]

theorem optionLoop_unknown (M : MainEnv) (a : String) (ha : a ∉ knownFlags) (rest : List String)
    (v : MainVars) : optionLoop M (a :: rest) v = optionLoop M rest v := by
  obtain ⟨_, h2, _, _, h5, h6, h7, h8⟩ := unknown_word a ha
  rw [optionLoop_other M a h2, if_neg h5, if_neg h6, if_neg (by simp [h7, h8])]

theorem valueFlags_only (a : String) (ha : a ∈ valueFlags) (hd : a ∉ deviceFlags) :
    a ≠ "-dm" ∧ a ≠ "--device_map" := by
  simp only [valueFlags, List.mem_cons, List.mem_singleton, List.not_mem_nil, or_false] at ha
  rcases ha with rfl | rfl | rfl | rfl | rfl | rfl | rfl | rfl | rfl | rfl | rfl | rfl | rfl |
    rfl | rfl | rfl | rfl | rfl | rfl | rfl | rfl | rfl | rfl | rfl | rfl <;> decide

theorem deviceFlags_only (a : String) (ha : a ∈ deviceFlags) :
    a ≠ "--check_exchange" ∧ a ≠ "--yaml_screen" ∧ a ≠ "-h" ∧ a ≠ "--help" := by
  simp only [deviceFlags, List.mem_cons, List.mem_singleton, List.not_mem_nil, or_false] at ha
  rcases ha with rfl | rfl | rfl | rfl | rfl | rfl | rfl | rfl | rfl <;> decide

/-- Induction along a list of whole items. -/
theorem wholeItems_ind (P : List String → Prop) (h0 : P [])
    (h2 : ∀ f x r, (f ∈ deviceFlags ∨ f ∈ valueFlags) → x ∉ knownFlags → P r → P (f :: x :: r))
    (h1 : ∀ w r, ¬ (w ∈ deviceFlags ∨ w ∈ valueFlags) → P r → P (w :: r)) :
    ∀ pre, wholeItems pre = true → P pre := by
  have key : ∀ n : ℕ, ∀ l : List String, l.length ≤ n → wholeItems l = true → P l := by
    intro n
    induction n with
    | zero =>
      intro l hl _
      have : l = [] := List.length_eq_zero.1 (Nat.le_zero.1 hl)
      subst this
      exact h0
    | succ n ih =>
      intro l hl hw
      match l, hl, hw with
      | [], _, _ => exact h0
      | a :: rest, hl, hw =>
        by_cases ha : a ∈ deviceFlags ∨ a ∈ valueFlags
        · match rest, hl, hw with
          | [], _, hw => simp [wholeItems, ha] at hw
          | x :: rest, hl, hw =>
            simp only [wholeItems, ha, if_true, Bool.and_eq_true, decide_eq_true_eq] at hw
            exact h2 a x rest ha hw.1 (ih rest (by simp at hl ⊢; omega) hw.2)
        · have hw' : wholeItems rest = true := by
            cases rest <;> simp [wholeItems, ha] at hw ⊢
            exact hw
          exact h1 a rest ha (ih rest (by simp at hl ⊢; omega) hw')
  exact fun pre => key pre.length pre (le_refl _)

/-- The first loop passes over an unknown word that follows whole items. -/
theorem deviceLoop_insert (M : MainEnv) (a : String) (ha : a ∉ knownFlags) (rest : List String) :
    ∀ pre, wholeItems pre = true →
      ∀ v, deviceLoop M (pre ++ a :: rest) v = deviceLoop M (pre ++ rest) v := by
  apply wholeItems_ind
  · intro v
    exact deviceLoop_unknown M a ha rest v
  · intro f x r hf hx ih v
    by_cases hd : f ∈ deviceFlags
    · simp only [List.cons_append]
      rw [deviceLoop_value M f hd, deviceLoop_value M f hd, ih]
    · have hvf : f ∈ valueFlags := hf.resolve_left hd
      obtain ⟨n1, n2⟩ := valueFlags_only f hvf hd
      simp only [List.cons_append]
      rw [deviceLoop_other M f hd, deviceLoop_other M f hd, if_neg (by simp [n1, n2]),
        if_neg (by simp [n1, n2]), deviceLoop_unknown M x hx, deviceLoop_unknown M x hx, ih]
  · intro w r hw ih v
    have hd : w ∉ deviceFlags := fun h => hw (Or.inl h)
    simp only [List.cons_append]
    rw [deviceLoop_other M w hd, deviceLoop_other M w hd]
    split_ifs
    · cases deviceMapAll M v with
      | none => rfl
      | some u => exact ih u
    · exact ih v

/-- The second loop passes over an unknown word that follows whole items. -/
theorem optionLoop_insert (M : MainEnv) (a : String) (ha : a ∉ knownFlags) (rest : List String) :
    ∀ pre, wholeItems pre = true →
      ∀ v, optionLoop M (pre ++ a :: rest) v = optionLoop M (pre ++ rest) v := by
  apply wholeItems_ind
  · intro v
    exact optionLoop_unknown M a ha rest v
  · intro f x r hf hx ih v
    by_cases hvf : f ∈ valueFlags
    · simp only [List.cons_append]
      rw [(optionLoop_value M f hvf v).2, (optionLoop_value M f hvf v).2, ih]
    · have hd : f ∈ deviceFlags := hf.resolve_right hvf
      obtain ⟨n1, n2, n3, n4⟩ := deviceFlags_only f hd
      simp only [List.cons_append]
      rw [optionLoop_other M f hvf, optionLoop_other M f hvf, if_neg n1, if_neg n2,
        if_neg (by simp [n3, n4]), if_neg n1, if_neg n2, if_neg (by simp [n3, n4]),
        optionLoop_unknown M x hx, optionLoop_unknown M x hx, ih]
  · intro w r hw ih v
    have hvf : w ∉ valueFlags := fun h => hw (Or.inr h)
    simp only [List.cons_append]
    rw [optionLoop_other M w hvf, optionLoop_other M w hvf]
    split_ifs
    · exact ih _
    · exact ih _
    · rfl
    · exact ih v

/-- The function `main` passes over an unknown word that follows whole items. -/
theorem main_insert (M : MainEnv) (pre : List String) (a : String) (rest : List String)
    (hp : wholeItems pre = true) (ha : a ∉ knownFlags) :
    main M (pre ++ a :: rest) = main M (pre ++ rest) := by
  unfold main
  rw [deviceLoop_insert M a ha rest pre hp]
  cases deviceLoop M (pre ++ rest) mainInit with
  | undefined => rfl
  | exited c => rfl
  | done v =>
    simp only
    rw [optionLoop_insert M a ha rest pre hp]

/-! ## Claims about the command line -/

theorem eamGhostNewton_fields (M : MainEnv) (v : MainVars) :
    (eamGhostNewton M v).inp = v.inp ∧
    (eamGhostNewton M v).nx = v.nx ∧ (eamGhostNewton M v).ny = v.ny ∧
    (eamGhostNewton M v).nz = v.nz ∧ (eamGhostNewton M v).system_size = v.system_size ∧
    (eamGhostNewton M v).num_steps = v.num_steps ∧
    (eamGhostNewton M v).ghost_newton =
      (if v.inp.forcetype = M.FORCEEAM ∧ v.ghost_newton = 1 then 0 else v.ghost_newton) := by
  unfold eamGhostNewton
  by_cases h1 : v.inp.forcetype = M.FORCEEAM
  · by_cases h2 : v.ghost_newton = 1
    · simp [h1, h2]
    · simp [h1, h2]
  · simp [h1]

theorem boxSize_fields (v : MainVars) :
    (boxSize v).forcetype = v.inp.forcetype ∧ (boxSize v).neigh_every = v.inp.neigh_every ∧
    (boxSize v).nx =
      (if v.nx > 0 then v.nx else if v.system_size > 0 then v.system_size else v.inp.nx) ∧
    (boxSize v).ny =
      (if v.nx > 0 then
        (if v.ny > 0 then v.ny else if v.system_size < 0 then v.nx
          else if v.system_size > 0 then v.system_size else v.inp.ny)
      else if v.system_size > 0 then v.system_size else v.inp.ny) ∧
    (boxSize v).nz =
      (if v.nx > 0 then
        (if v.nz > 0 then v.nz else if v.system_size < 0 then v.nx
          else if v.system_size > 0 then v.system_size else v.inp.nz)
      else if v.system_size > 0 then v.system_size else v.inp.nz) := by
  unfold boxSize
  by_cases ht : v.num_steps > 0 <;> by_cases hs : v.system_size > 0 <;>
    by_cases hx : v.nx > 0 <;> by_cases hy : v.ny > 0 <;> by_cases hz : v.nz > 0 <;>
    by_cases hn : v.system_size < 0 <;> simp [ht, hs, hx, hy, hz, hn]

/-- The settings of a run in terms of the command line and the input file. -/
theorem main_settings (M : MainEnv) (argv : List String) (s : Settings)
    (h : main M argv = .done s) :
    (M.input (inputName s.input_file)).1 = 0 ∧
    s.neighbor_halfneigh = 0 ∧ s.force_use_oldcompute = none ∧
    s.comm_do_safeexchange = 0 ∧
    s.inp.neigh_every = (M.input (inputName s.input_file)).2.neigh_every ∧
    s.integrate_sort_every =
      (if specValue M ["--sort"] (-1) argv > 0 then specValue M ["--sort"] (-1) argv
        else if specValue M ["--sort"] (-1) argv < 0 then s.inp.neigh_every else 0) ∧
    s.neighbor_ghost_newton =
      (if s.inp.forcetype = M.FORCEEAM ∧ specValue M ["-gn", "--ghost_newton"] 1 argv = 1 then 0
        else specValue M ["-gn", "--ghost_newton"] 1 argv) ∧
    s.inp.nx =
      (if specValue M ["-nx"] (-1) argv > 0 then specValue M ["-nx"] (-1) argv
        else if specValue M ["-s", "--size"] (-1) argv > 0 then
          specValue M ["-s", "--size"] (-1) argv
        else (M.input (inputName s.input_file)).2.nx) ∧
    s.inp.ny =
      (if specValue M ["-nx"] (-1) argv > 0 then
        (if specValue M ["-ny"] (-1) argv > 0 then specValue M ["-ny"] (-1) argv
          else if specValue M ["-s", "--size"] (-1) argv < 0 then specValue M ["-nx"] (-1) argv
          else if specValue M ["-s", "--size"] (-1) argv > 0 then
            specValue M ["-s", "--size"] (-1) argv
          else (M.input (inputName s.input_file)).2.ny)
      else if specValue M ["-s", "--size"] (-1) argv > 0 then
        specValue M ["-s", "--size"] (-1) argv
      else (M.input (inputName s.input_file)).2.ny) ∧
    s.inp.nz =
      (if specValue M ["-nx"] (-1) argv > 0 then
        (if specValue M ["-nz"] (-1) argv > 0 then specValue M ["-nz"] (-1) argv
          else if specValue M ["-s", "--size"] (-1) argv < 0 then specValue M ["-nx"] (-1) argv
          else if specValue M ["-s", "--size"] (-1) argv > 0 then
            specValue M ["-s", "--size"] (-1) argv
          else (M.input (inputName s.input_file)).2.nz)
      else if specValue M ["-s", "--size"] (-1) argv > 0 then
        specValue M ["-s", "--size"] (-1) argv
      else (M.input (inputName s.input_file)).2.nz) := by
  obtain ⟨v1, v2, h1, he, h2, h3⟩ := main_done M argv s h
  obtain ⟨m1, m2, m3, m4, m5, m6, m7, m8, m9, m10, m11, m12, m13⟩ :=
    main_vars M argv v1 v2 h1 _ h2
  obtain ⟨s1, s2, s3, s4, s5, s6, s7, _⟩ := mainSettings_done M v2 s h3
  obtain ⟨g1, g2, g3, g4, g5, _, g7⟩ := eamGhostNewton_fields M v2
  obtain ⟨b1, b2, b3, b4, b5⟩ := boxSize_fields (eamGhostNewton M v2)
  have hf : s.input_file = v1.input_file := by rw [s2, m3]
  have hne : s.inp.neigh_every = (M.input (inputName s.input_file)).2.neigh_every := by
    rw [s1, b2, g1, m4, hf]
  have hft : s.inp.forcetype = v2.inp.forcetype := by rw [s1, b1, g1]
  unfold specValue
  rw [← m8, ← m9, ← m10, ← m11, ← m12, ← m13]
  refine ⟨by rw [hf]; exact he, by rw [s4, m1], by rw [s6, m1]; rfl, by rw [s5, m2], hne,
    ?_, ?_, ?_, ?_, ?_⟩
  · rw [s7, s1]
  · rw [s3, g7, hft]
  · rw [s1, b3, g2, g5, g1, m5, hf]
  · rw [s1, b4, g2, g3, g5, g1, m6, hf]
  · rw [s1, b5, g2, g4, g5, g1, m7, hf]

/-! ## The device map -/

theorem deviceMap_unset (M : MainEnv) (name : String) (v : MainVars)
    (h : M.getenv name = none) : deviceMap M name v = some v := by
  unfold deviceMap
  rw [h]

theorem deviceMap_set (M : MainEnv) (name str : String) (v : MainVars)
    (h : M.getenv name = some str) (hng : v.ngpu ≠ 0) :
    deviceMap M name v = some { v with
      device := if Int.tmod (M.atoi str) v.ngpu ≥ v.skip_gpu then
          Int.tmod (M.atoi str) v.ngpu + 1
        else Int.tmod (M.atoi str) v.ngpu } := by
  unfold deviceMap
  rw [h]
  simp only [hng, if_false]

/-- The device chosen by one block of the `-dm` branch is not the skipped one. -/
theorem device_ne_skip (r skip : ℤ) : (if r ≥ skip then r + 1 else r) ≠ skip := by
  split_ifs <;> omega

/-- One block of the `-dm` branch, for `ngpu ≠ 0`. -/
theorem deviceMap_spec (M : MainEnv) (name : String) (v : MainVars) (hng : v.ngpu ≠ 0) :
    ∃ w, deviceMap M name v = some w ∧ w.ngpu = v.ngpu ∧ w.skip_gpu = v.skip_gpu ∧
      ((M.getenv name = none ∧ w = v) ∨
        ∃ str, M.getenv name = some str ∧
          w.device = if Int.tmod (M.atoi str) v.ngpu ≥ v.skip_gpu then
              Int.tmod (M.atoi str) v.ngpu + 1
            else Int.tmod (M.atoi str) v.ngpu) := by
  cases e : M.getenv name with
  | none => exact ⟨v, deviceMap_unset M name v e, rfl, rfl, Or.inl ⟨rfl, rfl⟩⟩
  | some str => exact ⟨_, deviceMap_set M name str v e hng, rfl, rfl, Or.inr ⟨str, rfl, rfl⟩⟩

/-- C21: in the `-dm` branch of the first loop, with `ngpu > 0` and at least one of the
three local-rank variables set, the loop goes on with a device that is
`local_rank % ngpu` for the rank read from one of the set variables, plus one when that
remainder is `>= skip_gpu`; `skip_gpu` is left as it was, and the device is never equal
to it. -/
theorem device_map_skips_gpu (M : MainEnv) (v : MainVars) (hng : 0 < v.ngpu)
    (hset : M.getenv "SLURM_LOCALID" ≠ none ∨ M.getenv "MV2_COMM_WORLD_LOCAL_RANK" ≠ none ∨
      M.getenv "OMPI_COMM_WORLD_LOCAL_RANK" ≠ none) :
    ∃ w, deviceMapAll M v = some w ∧
      (∀ rest, deviceLoop M ("-dm" :: rest) v = deviceLoop M rest w) ∧
      (∀ rest, deviceLoop M ("--device_map" :: rest) v = deviceLoop M rest w) ∧
      w.skip_gpu = v.skip_gpu ∧ w.ngpu = v.ngpu ∧
      (∃ name str, name ∈ ["SLURM_LOCALID", "MV2_COMM_WORLD_LOCAL_RANK",
          "OMPI_COMM_WORLD_LOCAL_RANK"] ∧ M.getenv name = some str ∧
        w.device = if Int.tmod (M.atoi str) v.ngpu ≥ v.skip_gpu then
            Int.tmod (M.atoi str) v.ngpu + 1
          else Int.tmod (M.atoi str) v.ngpu) ∧
      w.device ≠ v.skip_gpu := by
  have hng' : v.ngpu ≠ 0 := by omega
  obtain ⟨w1, a1, n1, k1, c1⟩ := deviceMap_spec M "SLURM_LOCALID" v hng'
  obtain ⟨w2, a2, n2, k2, c2⟩ := deviceMap_spec M "MV2_COMM_WORLD_LOCAL_RANK" w1 (by rw [n1]; exact hng')
  obtain ⟨w3, a3, n3, k3, c3⟩ :=
    deviceMap_spec M "OMPI_COMM_WORLD_LOCAL_RANK" w2 (by rw [n2, n1]; exact hng')
  have hw : deviceMapAll M v = some w3 := by
    unfold deviceMapAll
    rw [a1, Option.some_bind, a2, Option.some_bind, a3]
  have hdev : ∃ name str, name ∈ ["SLURM_LOCALID", "MV2_COMM_WORLD_LOCAL_RANK",
      "OMPI_COMM_WORLD_LOCAL_RANK"] ∧ M.getenv name = some str ∧
      w3.device = if Int.tmod (M.atoi str) v.ngpu ≥ v.skip_gpu then
          Int.tmod (M.atoi str) v.ngpu + 1
        else Int.tmod (M.atoi str) v.ngpu := by
    rcases c3 with ⟨e3, rfl⟩ | ⟨str, e3, d3⟩
    · rcases c2 with ⟨e2, rfl⟩ | ⟨str, e2, d2⟩
      · rcases c1 with ⟨e1, rfl⟩ | ⟨str, e1, d1⟩
        · rw [e1, e2, e3] at hset
          simp at hset
        · exact ⟨_, str, by simp, e1, d1⟩
      · rw [n1, k1] at d2
        exact ⟨_, str, by simp, e2, d2⟩
    · rw [n2, n1, k2, k1] at d3
      exact ⟨_, str, by simp, e3, d3⟩
  refine ⟨w3, hw, ?_, ?_, by rw [k3, k2, k1], by rw [n3, n2, n1], hdev, ?_⟩
  · intro rest
    rw [deviceLoop_other M "-dm" (by decide), if_pos (by decide), hw]
  · intro rest
    rw [deviceLoop_other M "--device_map" (by decide), if_pos (by decide), hw]
  · obtain ⟨_, str, _, _, hd⟩ := hdev
    rw [hd]
    exact device_ne_skip _ _

/-! ## The settings of a run -/

/-- C14: in every run that reaches the simulation, `neighbor.halfneigh` is 0 and `main`
does not store `force->use_oldcompute = 1`; the branch of `--half_neigh` takes the next
word as its value and goes on behind it with the variables as they were, apart from the
warning that it prints when the value is not 0. -/
theorem main_halfneigh_zero (M : MainEnv) (argv : List String) (s : Settings)
    (h : main M argv = .done s) :
    s.neighbor_halfneigh = 0 ∧ s.force_use_oldcompute = none ∧
    ∀ x rest v, ∃ w, optionLoop M ("--half_neigh" :: x :: rest) v = optionLoop M rest w ∧
      w.halfneigh = v.halfneigh ∧
      (M.atoi x = 0 → w = v) ∧
      (M.atoi x ≠ 0 → w = { v with out := v.out ++
        ["WARNING: The OpenACC variant can only be run with --half_neigh 0! Ignoring user request."] }) := by
  obtain ⟨_, a1, a2, _⟩ := main_settings M argv s h
  refine ⟨a1, a2, fun x rest v => ⟨optionValue M "--half_neigh" x v,
    (optionLoop_value M "--half_neigh" (by decide) v).2 x rest,
    (optionValue_fields M "--half_neigh" x v (by decide)).1, ?_, ?_⟩⟩
  · intro h0
    simp [optionValue, h0]
  · intro h0
    simp [optionValue, h0]

/-- C15: in a run that reaches the simulation, with a `-gn`/`--ghost_newton` value that is
0 or 1 or with the flag absent (which counts as 1), `neighbor.ghost_newton` is 0 when
`in.forcetype` is `FORCEEAM`, and is the given value (1 when absent) when it is not. -/
theorem main_ghost_newton (M : MainEnv) (argv : List String) (s : Settings)
    (h : main M argv = .done s)
    (hv : specValue M ["-gn", "--ghost_newton"] 1 argv = 0 ∨
      specValue M ["-gn", "--ghost_newton"] 1 argv = 1) :
    (s.inp.forcetype = M.FORCEEAM → s.neighbor_ghost_newton = 0) ∧
    (s.inp.forcetype ≠ M.FORCEEAM →
      s.neighbor_ghost_newton = specValue M ["-gn", "--ghost_newton"] 1 argv) ∧
    (specGiven ["-gn", "--ghost_newton"] argv = none →
      specValue M ["-gn", "--ghost_newton"] 1 argv = 1) := by
  obtain ⟨_, _, _, _, _, _, a7, _⟩ := main_settings M argv s h
  refine ⟨?_, ?_, ?_⟩
  · intro he
    rw [a7]
    rcases hv with h0 | h1
    · rw [if_neg (by rw [h0]; simp), h0]
    · rw [if_pos ⟨he, h1⟩]
  · intro he
    rw [a7, if_neg (fun c => he c.1)]
  · intro hn
    unfold specValue
    rw [hn]

/-- C16, amended: when `input` returns non-zero, `main` ends in `exit(0)` before any
set-up, so the exit status is 0; and a run that gets through the simulation also returns
0. -/
theorem main_input_error (M : MainEnv) (argv : List String) (v : MainVars)
    (h1 : deviceLoop M argv mainInit = .done v)
    (he : (M.input (inputName v.input_file)).1 ≠ 0) :
    main M argv = .exited 0 ∧ exitStatus (main M argv) = some 0 ∧
    ∀ s, exitStatus (Outcome.done s) = some 0 := by
  have : main M argv = .exited 0 := by
    unfold main
    rw [h1]
    simp only
    rw [if_pos he]
  rw [this]
  exact ⟨rfl, rfl, fun _ => rfl⟩

/-- C17, amended: a word that is none of the flags of the two loops, and that follows whole
items, is passed over: `main` does the same as on the command line without it. -/
theorem main_ignores_unknown_word (M : MainEnv) (pre : List String) (a : String)
    (rest : List String) (hp : wholeItems pre = true) (ha : a ∉ knownFlags) :
    main M (pre ++ a :: rest) = main M (pre ++ rest) :=
  main_insert M pre a rest hp ha

/-- C19, amended: in a run that reaches the simulation, `in.ny` is the value of `-ny` only
when the values of `-nx` and of `-ny` are both positive. With a positive `-nx` and no
positive `-ny` it is the `-nx` value when `-s` is absent (or negative), else the positive
`-s` value, else the input file's `ny`; without a positive `-nx` the flag `-ny` has no
effect and `in.ny` is the positive `-s` value, else the input file's `ny`. The same holds
for `in.nz` and `-nz`. -/
theorem main_box_size (M : MainEnv) (argv : List String) (s : Settings)
    (h : main M argv = .done s) :
    s.inp.ny =
      (if specValue M ["-nx"] (-1) argv > 0 then
        (if specValue M ["-ny"] (-1) argv > 0 then specValue M ["-ny"] (-1) argv
          else if specValue M ["-s", "--size"] (-1) argv < 0 then specValue M ["-nx"] (-1) argv
          else if specValue M ["-s", "--size"] (-1) argv > 0 then
            specValue M ["-s", "--size"] (-1) argv
          else (M.input (inputName s.input_file)).2.ny)
      else if specValue M ["-s", "--size"] (-1) argv > 0 then
        specValue M ["-s", "--size"] (-1) argv
      else (M.input (inputName s.input_file)).2.ny) ∧
    s.inp.nz =
      (if specValue M ["-nx"] (-1) argv > 0 then
        (if specValue M ["-nz"] (-1) argv > 0 then specValue M ["-nz"] (-1) argv
          else if specValue M ["-s", "--size"] (-1) argv < 0 then specValue M ["-nx"] (-1) argv
          else if specValue M ["-s", "--size"] (-1) argv > 0 then
            specValue M ["-s", "--size"] (-1) argv
          else (M.input (inputName s.input_file)).2.nz)
      else if specValue M ["-s", "--size"] (-1) argv > 0 then
        specValue M ["-s", "--size"] (-1) argv
      else (M.input (inputName s.input_file)).2.nz) := by
  obtain ⟨_, _, _, _, _, _, _, _, a9, a10⟩ := main_settings M argv s h
  exact ⟨a9, a10⟩

/-- C20: in a run that reaches the simulation, `integrate.sort_every` is `N` when `--sort N`
is given with `N > 0`, is 0 when `--sort` is given with value 0, and is the `neigh_every`
of the input file when `--sort` is not given. -/
theorem main_sort_every (M : MainEnv) (argv : List String) (s : Settings)
    (h : main M argv = .done s) :
    (∀ x, specGiven ["--sort"] argv = some x → 0 < M.atoi x →
      s.integrate_sort_every = M.atoi x) ∧
    (∀ x, specGiven ["--sort"] argv = some x → M.atoi x = 0 → s.integrate_sort_every = 0) ∧
    (specGiven ["--sort"] argv = none →
      s.integrate_sort_every = (M.input (inputName s.input_file)).2.neigh_every) := by
  obtain ⟨_, _, _, _, a5, a6, _⟩ := main_settings M argv s h
  refine ⟨?_, ?_, ?_⟩
  · intro x hx hpos
    have hv : specValue M ["--sort"] (-1) argv = M.atoi x := by
      unfold specValue
      rw [hx]
    rw [a6, hv, if_pos hpos]
  · intro x hx h0
    have hv : specValue M ["--sort"] (-1) argv = 0 := by
      unfold specValue
      rw [hx]
      exact h0
    rw [a6, hv]
    simp
  · intro hn
    have hv : specValue M ["--sort"] (-1) argv = -1 := by
      unfold specValue
      rw [hn]
    rw [a6, hv]
    simpa using a5

/-! ## Runs of `main` on concrete command lines -/

/-- C14, witness: the command line `miniMD --half_neigh 1`. -/
theorem main_halfneigh_zero_witness :
    ∃ s, main exMain ["miniMD", "--half_neigh", "1"] = .done s ∧
      (s.neighbor_halfneigh = 0 ∧ s.force_use_oldcompute = none ∧
      ∀ x rest v, ∃ w, optionLoop exMain ("--half_neigh" :: x :: rest) v =
          optionLoop exMain rest w ∧
        w.halfneigh = v.halfneigh ∧
        (exMain.atoi x = 0 → w = v) ∧
        (exMain.atoi x ≠ 0 → w = { v with out := v.out ++
          ["WARNING: The OpenACC variant can only be run with --half_neigh 0! Ignoring user request."] })) :=
  ⟨_, rfl, main_halfneigh_zero exMain ["miniMD", "--half_neigh", "1"] _ rfl⟩

/-- C15, witness: the command line `miniMD -p eam`, on which `ghost_newton` becomes 0. -/
theorem main_ghost_newton_witness :
    ∃ s, main exMain ["miniMD", "-p", "eam"] = .done s ∧
      (specValue exMain ["-gn", "--ghost_newton"] 1 ["miniMD", "-p", "eam"] = 0 ∨
        specValue exMain ["-gn", "--ghost_newton"] 1 ["miniMD", "-p", "eam"] = 1) ∧
      ((s.inp.forcetype = exMain.FORCEEAM → s.neighbor_ghost_newton = 0) ∧
      (s.inp.forcetype ≠ exMain.FORCEEAM →
        s.neighbor_ghost_newton =
          specValue exMain ["-gn", "--ghost_newton"] 1 ["miniMD", "-p", "eam"]) ∧
      (specGiven ["-gn", "--ghost_newton"] ["miniMD", "-p", "eam"] = none →
        specValue exMain ["-gn", "--ghost_newton"] 1 ["miniMD", "-p", "eam"] = 1)) :=
  ⟨_, rfl, Or.inr rfl, main_ghost_newton exMain ["miniMD", "-p", "eam"] _ rfl (Or.inr rfl)⟩

/-- C16, counterexample: with an input file that cannot be read (`input` returns 1) the
exit status of `main` is 0. -/
theorem input_error_exit_status_zero :
    (exMainBad.input (inputName none)).1 ≠ 0 ∧
    main exMainBad ["miniMD"] = .exited 0 ∧
    exitStatus (main exMainBad ["miniMD"]) = some 0 :=
  ⟨by decide, rfl, rfl⟩

/-- C16, witness: the run of `miniMD` with the unreadable input file. -/
theorem main_input_error_witness :
    deviceLoop exMainBad ["miniMD"] mainInit = .done mainInit ∧
    (exMainBad.input (inputName mainInit.input_file)).1 ≠ 0 ∧
    (main exMainBad ["miniMD"] = .exited 0 ∧ exitStatus (main exMainBad ["miniMD"]) = some 0 ∧
      ∀ s, exitStatus (Outcome.done s) = some 0) :=
  ⟨rfl, by decide, main_input_error exMainBad ["miniMD"] mainInit rfl (by decide)⟩

/-- C17, counterexample: the command line `miniMD --bogus` is run, with the settings of
`miniMD`. -/
theorem unknown_flag_runs :
    "--bogus" ∉ knownFlags ∧
    ∃ s, main exMain ["miniMD", "--bogus"] = .done s ∧ main exMain ["miniMD"] = .done s :=
  ⟨by decide, _, rfl, rfl⟩

/-- C17, witness: `--bogus` between `-s 4` and `--sort 2`. -/
theorem main_ignores_unknown_word_witness :
    wholeItems ["miniMD", "-s", "4"] = true ∧ "--bogus" ∉ knownFlags ∧
    main exMain (["miniMD", "-s", "4"] ++ "--bogus" :: ["--sort", "2"]) =
      main exMain (["miniMD", "-s", "4"] ++ ["--sort", "2"]) :=
  ⟨by decide, by decide,
    main_ignores_unknown_word exMain ["miniMD", "-s", "4"] "--bogus" ["--sort", "2"]
      (by decide) (by decide)⟩

/-- C18: on the command line `miniMD --safe_exchange` the switch is present, the run
reaches the simulation, and `comm.do_safeexchange` is 0. -/
theorem safe_exchange_not_enabled :
    specPresent "--safe_exchange" ["miniMD", "--safe_exchange"] = true ∧
    ∃ s, main exMain ["miniMD", "--safe_exchange"] = .done s ∧ s.comm_do_safeexchange = 0 :=
  ⟨by decide, _, rfl, rfl⟩

/-- C19, counterexample: on the command line `miniMD -ny 5` the flag `-ny` is given with
the positive value 5, and `in.ny` is the 32 of the input file. -/
theorem ny_without_nx_is_ignored :
    specGiven ["-ny"] ["miniMD", "-ny", "5"] = some "5" ∧ 0 < exMain.atoi "5" ∧
    ∃ s, main exMain ["miniMD", "-ny", "5"] = .done s ∧ s.inp.ny = 32 ∧
      s.inp.ny ≠ exMain.atoi "5" :=
  ⟨by decide, by decide, _, rfl, rfl, by decide⟩

/-- C19, witness: the command line `miniMD -nx 4 -ny 5`. -/
theorem main_box_size_witness :
    ∃ s, main exMain ["miniMD", "-nx", "4", "-ny", "5"] = .done s ∧
    (s.inp.ny =
      (if specValue exMain ["-nx"] (-1) ["miniMD", "-nx", "4", "-ny", "5"] > 0 then
        (if specValue exMain ["-ny"] (-1) ["miniMD", "-nx", "4", "-ny", "5"] > 0 then
            specValue exMain ["-ny"] (-1) ["miniMD", "-nx", "4", "-ny", "5"]
          else if specValue exMain ["-s", "--size"] (-1) ["miniMD", "-nx", "4", "-ny", "5"] < 0
            then specValue exMain ["-nx"] (-1) ["miniMD", "-nx", "4", "-ny", "5"]
          else if specValue exMain ["-s", "--size"] (-1) ["miniMD", "-nx", "4", "-ny", "5"] > 0
            then specValue exMain ["-s", "--size"] (-1) ["miniMD", "-nx", "4", "-ny", "5"]
          else (exMain.input (inputName s.input_file)).2.ny)
      else if specValue exMain ["-s", "--size"] (-1) ["miniMD", "-nx", "4", "-ny", "5"] > 0 then
        specValue exMain ["-s", "--size"] (-1) ["miniMD", "-nx", "4", "-ny", "5"]
      else (exMain.input (inputName s.input_file)).2.ny) ∧
    s.inp.nz =
      (if specValue exMain ["-nx"] (-1) ["miniMD", "-nx", "4", "-ny", "5"] > 0 then
        (if specValue exMain ["-nz"] (-1) ["miniMD", "-nx", "4", "-ny", "5"] > 0 then
            specValue exMain ["-nz"] (-1) ["miniMD", "-nx", "4", "-ny", "5"]
          else if specValue exMain ["-s", "--size"] (-1) ["miniMD", "-nx", "4", "-ny", "5"] < 0
            then specValue exMain ["-nx"] (-1) ["miniMD", "-nx", "4", "-ny", "5"]
          else if specValue exMain ["-s", "--size"] (-1) ["miniMD", "-nx", "4", "-ny", "5"] > 0
            then specValue exMain ["-s", "--size"] (-1) ["miniMD", "-nx", "4", "-ny", "5"]
          else (exMain.input (inputName s.input_file)).2.nz)
      else if specValue exMain ["-s", "--size"] (-1) ["miniMD", "-nx", "4", "-ny", "5"] > 0 then
        specValue exMain ["-s", "--size"] (-1) ["miniMD", "-nx", "4", "-ny", "5"]
      else (exMain.input (inputName s.input_file)).2.nz)) :=
  ⟨_, rfl, main_box_size exMain ["miniMD", "-nx", "4", "-ny", "5"] _ rfl⟩

/-- C20, witness: the command line `miniMD --sort 5`. -/
theorem main_sort_every_witness :
    ∃ s, main exMain ["miniMD", "--sort", "5"] = .done s ∧
    ((∀ x, specGiven ["--sort"] ["miniMD", "--sort", "5"] = some x → 0 < exMain.atoi x →
      s.integrate_sort_every = exMain.atoi x) ∧
    (∀ x, specGiven ["--sort"] ["miniMD", "--sort", "5"] = some x → exMain.atoi x = 0 →
      s.integrate_sort_every = 0) ∧
    (specGiven ["--sort"] ["miniMD", "--sort", "5"] = none →
      s.integrate_sort_every = (exMain.input (inputName s.input_file)).2.neigh_every)) :=
  ⟨_, rfl, main_sort_every exMain ["miniMD", "--sort", "5"] _ rfl⟩

/-- C21, witness: `SLURM_LOCALID` is 3, two GPUs, GPU 1 skipped: the device is 2. -/
theorem device_map_skips_gpu_witness :
    (0 : ℤ) < ({ mainInit with skip_gpu := 1 } : MainVars).ngpu ∧
    (exMainSlurm.getenv "SLURM_LOCALID" ≠ none ∨
      exMainSlurm.getenv "MV2_COMM_WORLD_LOCAL_RANK" ≠ none ∨
      exMainSlurm.getenv "OMPI_COMM_WORLD_LOCAL_RANK" ≠ none) ∧
    ∃ w, deviceMapAll exMainSlurm { mainInit with skip_gpu := 1 } = some w ∧
      (∀ rest, deviceLoop exMainSlurm ("-dm" :: rest) { mainInit with skip_gpu := 1 } =
        deviceLoop exMainSlurm rest w) ∧
      (∀ rest, deviceLoop exMainSlurm ("--device_map" :: rest) { mainInit with skip_gpu := 1 } =
        deviceLoop exMainSlurm rest w) ∧
      w.skip_gpu = ({ mainInit with skip_gpu := 1 } : MainVars).skip_gpu ∧
      w.ngpu = ({ mainInit with skip_gpu := 1 } : MainVars).ngpu ∧
      (∃ name str, name ∈ ["SLURM_LOCALID", "MV2_COMM_WORLD_LOCAL_RANK",
          "OMPI_COMM_WORLD_LOCAL_RANK"] ∧ exMainSlurm.getenv name = some str ∧
        w.device =
          if Int.tmod (exMainSlurm.atoi str) ({ mainInit with skip_gpu := 1 } : MainVars).ngpu ≥
              ({ mainInit with skip_gpu := 1 } : MainVars).skip_gpu then
            Int.tmod (exMainSlurm.atoi str) ({ mainInit with skip_gpu := 1 } : MainVars).ngpu + 1
          else Int.tmod (exMainSlurm.atoi str) ({ mainInit with skip_gpu := 1 } : MainVars).ngpu) ∧
      w.device ≠ ({ mainInit with skip_gpu := 1 } : MainVars).skip_gpu :=
  ⟨by decide, Or.inl (by decide),
    device_map_skips_gpu exMainSlurm { mainInit with skip_gpu := 1 } (by decide)
      (Or.inl (by decide))⟩

/-! ## Which force cells the kernels write -/

section Writes

variable {K : Type} [LinearOrderedField K] [FloorRing K]

/-- The cell `(i, d)` after the iteration of atom `i` in the second full-list kernel,
whatever the state before. -/
theorem fullForceAtom_own (E : Env K) (fe : ForceEAM K) (x : ℤ → K) (nb : Neighbor) (i : ℤ)
    (s : (ℤ → K) × K × K) (d : ℤ) (hd : 0 ≤ d ∧ d < 3) :
    (fullForceAtom E fe x nb i s).1 (i * E.PAD + d) =
      specForce E fe.cutforcesq fe.rdr fe.nr fe.d_rhor_spline fe.d_z2r_spline fe.fp x
        (fullNeighList E nb i) i d := by
  simp only [fullForceAtom_eq]
  obtain ⟨hd0, hd3⟩ := hd
  have : d = 0 ∨ d = 1 ∨ d = 2 := by omega
  rcases this with rfl | rfl | rfl
  · rw [update_noteq (by omega), update_noteq (by omega), update_same]
  · rw [update_noteq (by omega), update_same]
  · rw [update_same]

/-- C22: the full-list kernel leaves every cell of the force array `d_f` that is not one of
the cells `i*PAD + d` (`d = 0, 1, 2`) of an owned atom `0 ≤ i < nlocal` as it was, in
particular (stride `PAD ≥ 3`) the cells of every atom `k ≥ nlocal`; the cell `(i, d)` of an
owned atom holds the value that the iteration of atom `i` computes from its own neighbour
list, whatever the state before that iteration; and the positions `x`, `d_x` and the host
array `f` are what they were. -/
theorem fullneigh_writes_owned_only (E : Env K) (fe : ForceEAM K) (atom : Atom K)
    (nb : Neighbor) (comm : Comm K) (hP : 3 ≤ E.PAD) :
    (∀ t, (∀ i d, 0 ≤ i → i < atom.nlocal → 0 ≤ d → d < 3 → t ≠ i * E.PAD + d) →
      (ForceEAM_compute_fullneigh E fe atom nb comm).2.1.d_f t = atom.d_f t) ∧
    (∀ k d, atom.nlocal ≤ k → 0 ≤ d → d < 3 →
      (ForceEAM_compute_fullneigh E fe atom nb comm).2.1.d_f (k * E.PAD + d) =
        atom.d_f (k * E.PAD + d)) ∧
    (∀ i d, 0 ≤ i → i < atom.nlocal → 0 ≤ d → d < 3 → ∀ s,
      (ForceEAM_compute_fullneigh E fe atom nb comm).2.1.d_f (i * E.PAD + d) =
        (fullForceAtom E (fullComm E fe atom nb comm).1 atom.d_x nb i s).1 (i * E.PAD + d)) ∧
    (ForceEAM_compute_fullneigh E fe atom nb comm).2.1.x = atom.x ∧
    (ForceEAM_compute_fullneigh E fe atom nb comm).2.1.d_x = atom.d_x ∧
    (ForceEAM_compute_fullneigh E fe atom nb comm).2.1.f = atom.f := by
  rw [compute_fullneigh_stages]
  have hframe : ∀ t, (∀ i d, 0 ≤ i → i < atom.nlocal → 0 ≤ d → d < 3 → t ≠ i * E.PAD + d) →
      (fullKernel2 E fe atom nb comm).1 t = atom.d_f t := by
    intro t ht
    unfold fullKernel2
    rw [forLoop_frame 0 atom.nlocal _ (fun s : (ℤ → K) × K × K => s.1 t)]
    intro i h0 h1 s
    simp only [fullForceAtom_eq]
    rw [update_noteq (ht i 2 h0 h1 (by omega) (by omega)),
      update_noteq (ht i 1 h0 h1 (by omega) (by omega)),
      update_noteq (ht i 0 h0 h1 (by omega) (by omega))]
  refine ⟨hframe, ?_, ?_, rfl, rfl, rfl⟩
  · intro k d hk hd0 hd3
    apply hframe
    intro i d' h0 h1 hd0' hd3' h
    have := (cell_inj hP ⟨hd0, hd3⟩ ⟨hd0', hd3'⟩ h).1
    omega
  · intro i d h0 h1 hd0 hd3 s
    show (fullKernel2 E fe atom nb comm).1 (i * E.PAD + d) = _
    unfold fullKernel2
    rw [fullForce_loop_cell E _ _ _ _ _ hP i h0 h1 d ⟨hd0, hd3⟩,
      fullForceAtom_own E _ _ _ _ _ d ⟨hd0, hd3⟩]

/-- C23, amended: in the force pass of the half-list kernel (stride `PAD ≥ 3`) the iteration
of atom `i` changes, besides the cells of atom `i`, only cells of owned atoms (`k < nlocal`)
that are in the neighbour list of `i` within the cutoff: the cell `(k, d)` of any other atom
`k ≠ i`, in particular of every ghost atom, is left as it was. -/
theorem halfneigh_iteration_writes (E : Env K) (hP : 3 ≤ E.PAD) (fe : ForceEAM K) (x : ℤ → K)
    (nlocal : ℤ) (nb : Neighbor) (i : ℤ) (s : (ℤ → K) × K × K) (k d : ℤ) (hd : 0 ≤ d ∧ d < 3)
    (hk : k ≠ i)
    (hout : nlocal ≤ k ∨ k ∉ withinCutoff E fe.cutforcesq x i (halfNeighList nb i)) :
    (halfForceAtom E fe x nlocal nb i s).1 (k * E.PAD + d) = s.1 (k * E.PAD + d) := by
  rw [halfForceAtom_cell E hP fe x nlocal nb i s k d hd, if_neg (Ne.symm hk)]
  have hz : ((withinCutoff E fe.cutforcesq x i (halfNeighList nb i)).map (fun j =>
      if j < nlocal ∧ j = k then
        specDel E x i j d * specFpair E fe.rdr fe.nr fe.rhor_spline fe.z2r_spline fe.fp x i j
      else 0)).sum = 0 := by
    apply List.sum_eq_zero
    intro v hv
    rw [List.mem_map] at hv
    obtain ⟨j, hj, rfl⟩ := hv
    rw [if_neg]
    rintro ⟨hjl, rfl⟩
    rcases hout with h | h
    · omega
    · exact h hj
  rw [hz]
  ring

/-- C25: `ForceEAM_compute` returns its arguments untouched when `neighbor.halfneigh` is not 0
and there is more than one thread; it is `ForceEAM_compute_halfneigh` when
`neighbor.halfneigh` is not 0 and there is one thread (any count `≤ 1`); and it is
`ForceEAM_compute_fullneigh` when `neighbor.halfneigh` is 0. -/
theorem compute_dispatch (E : Env K) (fe : ForceEAM K) (atom : Atom K) (nb : Neighbor)
    (comm : Comm K) :
    (nb.halfneigh ≠ 0 → 1 < fe.omp_num_threads →
      ForceEAM_compute E fe atom nb comm = (fe, atom, comm)) ∧
    (nb.halfneigh ≠ 0 → fe.omp_num_threads ≤ 1 →
      ForceEAM_compute E fe atom nb comm = ForceEAM_compute_halfneigh E fe atom nb comm) ∧
    (nb.halfneigh = 0 →
      ForceEAM_compute E fe atom nb comm = ForceEAM_compute_fullneigh E fe atom nb comm) := by
  unfold ForceEAM_compute
  refine ⟨?_, ?_, ?_⟩
  · intro h1 h2
    rw [if_pos h1, if_pos h2]
  · intro h1 h2
    rw [if_pos h1, if_neg (by omega)]
  · intro h1
    rw [if_neg (by simpa using h1)]

end Writes

/-! ## Second derivatives at the end knots -/

section Natural

variable {K : Type} [LinearOrderedField K]

/-- Slot 5 of the rows 1, 2, `n-1` and `n` of a finished table, for `n ≥ 3`. -/
theorem interpolate_end_slopes (n : ℤ) (hn : 3 ≤ n) (delta : K) (f spline : ℤ → K) :
    ForceEAM_interpolate n delta f spline (1 * 7 + 5) = f 2 - f 1 ∧
    ForceEAM_interpolate n delta f spline (2 * 7 + 5) = (f 3 - f 1) / 2 ∧
    ForceEAM_interpolate n delta f spline ((n - 1) * 7 + 5) = (f n - f (n - 2)) / 2 ∧
    ForceEAM_interpolate n delta f spline (n * 7 + 5) = f n - f (n - 1) := by
  have hE := interpolateEnds_rows n hn (interpolateFill n f spline)
  have hF := fun m h1 h2 => interpolateFill_row n f spline m h1 h2
  refine ⟨?_, ?_, ?_, ?_⟩
  · rw [interpolate_slot5, interpolateInner_outer _ _ _ (by omega), hE.1,
      hF 2 (by omega) (by omega), hF 1 (by omega) (by omega)]
  · rw [interpolate_slot5, interpolateInner_outer _ _ _ (by omega), hE.2.1,
      hF 3 (by omega) (by omega), hF 1 (by omega) (by omega)]
  · rw [interpolate_slot5, interpolateInner_outer _ _ _ (by omega), hE.2.2.1,
      hF n (by omega) (by omega), hF (n - 2) (by omega) (by omega)]
  · rw [interpolate_slot5, interpolateInner_outer _ _ _ (by omega), hE.2.2.2,
      hF n (by omega) (by omega), hF (n - 1) (by omega) (by omega)]

/-- The second derivative of the value cubic at the first knot (`2*slot4` of row 1) and at
the last knot (`6*slot3 + 2*slot4` of row `n-1`) in terms of the table. -/
theorem interpolate_end_curvature (n : ℤ) (hn : 3 ≤ n) (delta : K) (f spline : ℤ → K) :
    2 * ForceEAM_interpolate n delta f spline (1 * 7 + 4) = -(f 1 - 2 * f 2 + f 3) ∧
    6 * ForceEAM_interpolate n delta f spline ((n - 1) * 7 + 3) +
        2 * ForceEAM_interpolate n delta f spline ((n - 1) * 7 + 4) =
      -(f (n - 2) - 2 * f (n - 1) + f n) := by
  obtain ⟨s1, s2, s3, s4⟩ := interpolate_end_slopes n hn delta f spline
  obtain ⟨c4, _⟩ := interpolate_cubic n delta f spline 1 (by omega) (by omega)
  obtain ⟨d4, d3⟩ := interpolate_cubic n delta f spline (n - 1) (by omega) (by omega)
  rw [show (1 : ℤ) + 1 = 2 by norm_num] at c4
  rw [show n - 1 + 1 = n by ring] at d4 d3
  constructor
  · rw [c4, s1, s2]
    ring
  · rw [d4, d3, s3, s4]
    ring

/-- C24, amended: for `n ≥ 3` the second derivative of the value cubic at the first knot,
`2*slot4` of row 1, is `-(f[1] - 2 f[2] + f[3])`, and at the last knot, `6*slot3 + 2*slot4`
of row `n-1`, it is `-(f[n-2] - 2 f[n-1] + f[n])`: the end conditions of a natural spline
hold only for tables whose second differences vanish there. -/
theorem interpolate_end_second_derivatives (n : ℤ) (hn : 3 ≤ n) (delta : K)
    (f spline : ℤ → K) :
    2 * ForceEAM_interpolate n delta f spline (1 * 7 + 4) = -(f 1 - 2 * f 2 + f 3) ∧
    6 * ForceEAM_interpolate n delta f spline ((n - 1) * 7 + 3) +
        2 * ForceEAM_interpolate n delta f spline ((n - 1) * 7 + 4) =
      -(f (n - 2) - 2 * f (n - 1) + f n) ∧
    (2 * ForceEAM_interpolate n delta f spline (1 * 7 + 4) = 0 ↔ f 1 - 2 * f 2 + f 3 = 0) ∧
    (6 * ForceEAM_interpolate n delta f spline ((n - 1) * 7 + 3) +
        2 * ForceEAM_interpolate n delta f spline ((n - 1) * 7 + 4) = 0 ↔
      f (n - 2) - 2 * f (n - 1) + f n = 0) := by
  obtain ⟨a, b⟩ := interpolate_end_curvature n hn delta f spline
  refine ⟨a, b, ?_, ?_⟩
  · rw [a, neg_eq_zero]
  · rw [b, neg_eq_zero]

end Natural

/-! ## Re-gridding -/

section Regrid

variable {K : Type} [LinearOrderedField K] [FloorRing K]

theorem cTrunc_int (z : ℤ) (hz : 0 ≤ z) : cTrunc ((z : ℤ) : K) = z := by
  rw [cTrunc_of_nonneg (by exact_mod_cast hz), Int.floor_intCast]

theorem cTrunc_int_half (z : ℤ) (hz : 0 ≤ z) : cTrunc (((z : ℤ) : K) + 0.5) = z := by
  have h5 : (0.5 : K) = 1 / 2 := by norm_num
  have hz' : (0 : K) ≤ (z : K) := by exact_mod_cast hz
  rw [cTrunc_of_nonneg (by rw [h5]; positivity), Int.floor_int_add, h5]
  have : ⌊(1 / 2 : K)⌋ = 0 := by
    rw [Int.floor_eq_iff]
    constructor <;> norm_num
  rw [this, add_zero]

/-- Row and offset for a grid point of the file's own grid: the offset is the distance
from the clamped row, one of `-1`, `0`, `1`. -/
theorem regridRow_same (d : K) (hd : 0 < d) (fileN m : ℤ) (hN : 4 ≤ fileN) (h1 : 1 ≤ m)
    (h2 : m ≤ fileN - 1) :
    ∃ k : ℤ, regridRow d d fileN m = (k, ((m - k : ℤ) : K)) ∧ 2 ≤ k ∧ k ≤ fileN - 2 ∧
      (m - k = -1 ∨ m - k = 0 ∨ m - k = 1) := by
  have hp : ((m - 1 : ℤ) : K) * d / d + 1.0 = ((m : ℤ) : K) := by
    field_simp
    ring
  have hclamp : ∀ z : ℤ, (z = -1 ∨ z = 0 ∨ z = 1) →
      (if ((z : ℤ) : K) < 2.0 then ((z : ℤ) : K) else 2.0) = ((z : ℤ) : K) := by
    intro z hz
    rw [if_pos]
    rcases hz with rfl | rfl | rfl <;> norm_num
  unfold regridRow
  simp only [hp, cTrunc_int m (by omega)]
  by_cases c1 : m < fileN - 2
  · by_cases c2 : m > 2
    · refine ⟨m, ?_, by omega, by omega, by omega⟩
      rw [if_pos c1, if_pos c2, ← Int.cast_sub, hclamp _ (by omega)]
    · refine ⟨2, ?_, by omega, by omega, by omega⟩
      rw [if_pos c1, if_neg c2, ← Int.cast_sub, hclamp _ (by omega)]
  · have c2 : fileN - 2 > 2 ∨ fileN - 2 = 2 := by omega
    rcases c2 with c2 | c2
    · refine ⟨fileN - 2, ?_, by omega, by omega, by omega⟩
      rw [if_neg c1, if_pos c2, ← Int.cast_sub, hclamp _ (by omega)]
    · refine ⟨2, ?_, by omega, by omega, by omega⟩
      rw [if_neg c1, if_neg (by omega), ← Int.cast_sub, hclamp _ (by omega)]

/-- Re-gridding a table onto its own grid returns the table entry; the rows read,
`k-1 .. k+2`, lie inside `1 .. fileN`. -/
theorem regrid_same (d : K) (hd : 0 < d) (fileN m : ℤ) (hN : 4 ≤ fileN) (h1 : 1 ≤ m)
    (h2 : m ≤ fileN - 1) (table : ℤ → K) :
    regrid d d fileN table m = table m ∧
    1 ≤ (regridRow d d fileN m).1 - 1 ∧ (regridRow d d fileN m).1 + 2 ≤ fileN := by
  obtain ⟨k, hk, k1, k2, hz⟩ := regridRow_same d hd fileN m hN h1 h2
  unfold regrid
  simp only [hk]
  refine ⟨?_, by omega, by omega⟩
  rcases hz with hz | hz | hz
  · have : k - 1 = m := by omega
    rw [hz, this]
    norm_num
  · have : k = m := by omega
    rw [hz, this]
    norm_num
  · have : k + 1 = m := by omega
    rw [hz, this]
    norm_num

/-- The grid that `ForceEAM_file2array` sets for a file with positive spacings and at least
one point each way. -/
theorem file2array_grid (file : Funcfl K) (frho0 rhor0 z2r0 : ℤ → K) (hdr : 0 < file.dr)
    (hdrho : 0 < file.drho) (hnr : 1 ≤ file.nr) (hnrho : 1 ≤ file.nrho) :
    (ForceEAM_file2array file frho0 rhor0 z2r0).dr = file.dr ∧
    (ForceEAM_file2array file frho0 rhor0 z2r0).drho = file.drho ∧
    (ForceEAM_file2array file frho0 rhor0 z2r0).nr = file.nr - 1 ∧
    (ForceEAM_file2array file frho0 rhor0 z2r0).nrho = file.nrho - 1 := by
  have h0 : (0.0 : K) = 0 := by norm_num
  have e1 : ¬ ((0.0 : K) > file.dr) := by rw [h0]; exact not_lt.2 hdr.le
  have e2 : ¬ ((0.0 : K) > file.drho) := by rw [h0]; exact not_lt.2 hdrho.le
  have p1 : (0 : K) ≤ ((file.nr - 1 : ℤ) : K) := by exact_mod_cast (by omega : 0 ≤ file.nr - 1)
  have p2 : (0 : K) ≤ ((file.nrho - 1 : ℤ) : K) := by
    exact_mod_cast (by omega : 0 ≤ file.nrho - 1)
  have e3 : ¬ ((0.0 : K) > ((file.nr - 1 : ℤ) : K) * file.dr) := by
    rw [h0]; exact not_lt.2 (mul_nonneg p1 hdr.le)
  have e4 : ¬ ((0.0 : K) > ((file.nrho - 1 : ℤ) : K) * file.drho) := by
    rw [h0]; exact not_lt.2 (mul_nonneg p2 hdrho.le)
  have q1 : ((file.nr - 1 : ℤ) : K) * file.dr / file.dr = ((file.nr - 1 : ℤ) : K) := by
    field_simp
  have q2 : ((file.nrho - 1 : ℤ) : K) * file.drho / file.drho = ((file.nrho - 1 : ℤ) : K) := by
    field_simp
  unfold ForceEAM_file2array
  simp only [if_neg e1, if_neg e2, if_neg e3, if_neg e4, q1, q2,
    cTrunc_int_half (file.nr - 1) (by omega), cTrunc_int_half (file.nrho - 1) (by omega)]
  exact ⟨trivial, trivial, trivial, trivial⟩

/-- C26: for a file with `dr > 0`, `drho > 0`, `nr ≥ 1` and `nrho ≥ 1`,
`ForceEAM_file2array` sets `dr` and `drho` to the file's spacings, `nr` to the file's
`nr - 1` and `nrho` to the file's `nrho - 1`. -/
theorem file2array_one_point_fewer (file : Funcfl K) (frho0 rhor0 z2r0 : ℤ → K)
    (hdr : 0 < file.dr) (hdrho : 0 < file.drho) (hnr : 1 ≤ file.nr) (hnrho : 1 ≤ file.nrho) :
    (ForceEAM_file2array file frho0 rhor0 z2r0).dr = file.dr ∧
    (ForceEAM_file2array file frho0 rhor0 z2r0).drho = file.drho ∧
    (ForceEAM_file2array file frho0 rhor0 z2r0).nr = file.nr - 1 ∧
    (ForceEAM_file2array file frho0 rhor0 z2r0).nrho = file.nrho - 1 :=
  file2array_grid file frho0 rhor0 z2r0 hdr hdrho hnr hnrho

/-- The loops of `ForceEAM_file2array` leave in entry `m` the value computed for `m`. -/
theorem fill_loop_cell (n : ℤ) (g : ℤ → K) (a0 : ℤ → K) (m : ℤ) (h1 : 1 ≤ m) (h2 : m ≤ n) :
    forLoop 1 (n + 1) (fun m a => update a m (g m)) a0 m = g m := by
  rw [forLoop_cell_at h1 (by omega : m < n + 1)]
  · rw [update_same]
  · intro i hi _ s
    rw [update_noteq (by omega)]

/-- C27: for a file with positive spacings, `nr ≥ 4` and `nrho ≥ 4`, the arrays built by
`ForceEAM_file2array` repeat the file: `frho[m]` is the file's `frho[m]` for
`1 ≤ m ≤ nrho`, `rhor[m]` is the file's `rhor[m]` for `1 ≤ m ≤ nr`, and `z2r[m]` is
`27.2 * 0.529 * zr[m]^2`, which is not negative (`nr`, `nrho` are the new grid sizes, the
file's minus 1); the rows `k-1 .. k+2` of the file that are read lie inside `1 .. nrho` and
`1 .. nr` of the file. -/
theorem file2array_identity (file : Funcfl K) (frho0 rhor0 z2r0 : ℤ → K)
    (hdr : 0 < file.dr) (hdrho : 0 < file.drho) (hnr : 4 ≤ file.nr) (hnrho : 4 ≤ file.nrho) :
    (∀ m, 1 ≤ m → m ≤ (ForceEAM_file2array file frho0 rhor0 z2r0).nrho →
      (ForceEAM_file2array file frho0 rhor0 z2r0).frho m = file.frho m ∧
      1 ≤ (regridRow (ForceEAM_file2array file frho0 rhor0 z2r0).drho file.drho
        file.nrho m).1 - 1 ∧
      (regridRow (ForceEAM_file2array file frho0 rhor0 z2r0).drho file.drho
        file.nrho m).1 + 2 ≤ file.nrho) ∧
    (∀ m, 1 ≤ m → m ≤ (ForceEAM_file2array file frho0 rhor0 z2r0).nr →
      (ForceEAM_file2array file frho0 rhor0 z2r0).rhor m = file.rhor m ∧
      (ForceEAM_file2array file frho0 rhor0 z2r0).z2r m = 27.2 * 0.529 * file.zr m ^ 2 ∧
      0 ≤ (ForceEAM_file2array file frho0 rhor0 z2r0).z2r m ∧
      1 ≤ (regridRow (ForceEAM_file2array file frho0 rhor0 z2r0).dr file.dr
        file.nr m).1 - 1 ∧
      (regridRow (ForceEAM_file2array file frho0 rhor0 z2r0).dr file.dr
        file.nr m).1 + 2 ≤ file.nr) := by
  obtain ⟨g1, g2, g3, g4⟩ := file2array_grid file frho0 rhor0 z2r0 hdr hdrho (by omega) (by omega)
  have hfrho : ∀ m, (ForceEAM_file2array file frho0 rhor0 z2r0).frho m =
      forLoop 1 ((ForceEAM_file2array file frho0 rhor0 z2r0).nrho + 1)
        (fun m a => update a m
          (regrid (ForceEAM_file2array file frho0 rhor0 z2r0).drho file.drho file.nrho
            file.frho m)) frho0 m := fun _ => rfl
  have hrhor : ∀ m, (ForceEAM_file2array file frho0 rhor0 z2r0).rhor m =
      forLoop 1 ((ForceEAM_file2array file frho0 rhor0 z2r0).nr + 1)
        (fun m a => update a m
          (regrid (ForceEAM_file2array file frho0 rhor0 z2r0).dr file.dr file.nr
            file.rhor m)) rhor0 m := fun _ => rfl
  have hz2r : ∀ m, (ForceEAM_file2array file frho0 rhor0 z2r0).z2r m =
      forLoop 1 ((ForceEAM_file2array file frho0 rhor0 z2r0).nr + 1)
        (fun m a => update a m
          (27.2 * 0.529 * regrid (ForceEAM_file2array file frho0 rhor0 z2r0).dr file.dr file.nr
              file.zr m *
            regrid (ForceEAM_file2array file frho0 rhor0 z2r0).dr file.dr file.nr
              file.zr m)) z2r0 m := fun _ => rfl
  constructor
  · intro m h1 h2
    rw [hfrho, fill_loop_cell _ _ _ _ h1 h2, g2]
    rw [g4] at h2
    exact regrid_same file.drho hdrho file.nrho m hnrho h1 h2 file.frho
  · intro m h1 h2
    rw [hrhor, hz2r, fill_loop_cell _ _ _ _ h1 h2, fill_loop_cell _ _ _ _ h1 h2, g1]
    rw [g3] at h2
    obtain ⟨r1, r2, r3⟩ := regrid_same file.dr hdr file.nr m hnr h1 h2 file.rhor
    obtain ⟨z1, _, _⟩ := regrid_same file.dr hdr file.nr m hnr h1 h2 file.zr
    refine ⟨r1, ?_, ?_, r2, r3⟩
    · rw [z1]
      ring
    · rw [z1]
      have : (0 : K) ≤ file.zr m * file.zr m := mul_self_nonneg _
      have hc : (0 : K) ≤ 27.2 * 0.529 := by norm_num
      calc (0 : K) ≤ 27.2 * 0.529 * (file.zr m * file.zr m) := mul_nonneg hc this
        _ = 27.2 * 0.529 * file.zr m * file.zr m := by ring

end Regrid

/-! ## Accesses of the spline builder -/

section AccessLemmas

/-- A loop invariant that depends on the counter. -/
theorem forLoop_inv_idx {σ : Type} (Q : ℤ → σ → Prop) {lo hi : ℤ} (h : lo ≤ hi)
    (body : ℤ → σ → σ)
    (hstep : ∀ i, lo ≤ i → i < hi → ∀ s, Q i s → Q (i + 1) (body i s)) (s0 : σ)
    (h0 : Q lo s0) : Q hi (forLoop lo hi body s0) := by
  obtain ⟨d, rfl⟩ : ∃ d : ℕ, hi = lo + d := ⟨(hi - lo).toNat, by omega⟩
  induction d with
  | zero =>
    rw [forLoop_empty (by simp)]
    simpa using h0
  | succ d ih =>
    rw [show lo + ((d + 1 : ℕ) : ℤ) = lo + (d : ℤ) + 1 by push_cast; ring,
      forLoop_last (by omega)]
    apply hstep _ (by omega) (by omega)
    exact ih (by omega) (fun i h1 h2 s hs => hstep i h1 (by push_cast; omega) s hs)

/-- What an assignment does to the record of accesses. -/
theorem assign_spec (n : ℤ) (rs fs : List ℤ) (w : ℤ) (a : Access) :
    ((assign n rs fs w a).ok = true ↔
      a.ok = true ∧ (∀ r ∈ rs, (7 ≤ r ∧ r < 7 * (n + 1)) ∧ a.written r = true) ∧
        (∀ d ∈ fs, 1 ≤ d ∧ d ≤ n) ∧ (7 ≤ w ∧ w < 7 * (n + 1))) ∧
    ∀ t, (assign n rs fs w a).written t = true ↔ t = w ∨ a.written t = true := by
  constructor
  · simp only [assign, Bool.and_eq_true, List.all_eq_true, decide_eq_true_eq, and_assoc]
  · intro t
    simp only [assign]
    by_cases h : t = w
    · subst h
      simp
    · simp [update_noteq h, h]

/-- One checked assignment, from a state whose written cells are those with `P`. -/
theorem assign_step (n : ℤ) (rs fs : List ℤ) (w : ℤ) (a : Access) (P : ℤ → Prop)
    (ha : a.ok = true ∧ ∀ t, a.written t = true ↔ P t)
    (hr : ∀ r ∈ rs, (7 ≤ r ∧ r < 7 * (n + 1)) ∧ P r) (hf : ∀ d ∈ fs, 1 ≤ d ∧ d ≤ n)
    (hw : 7 ≤ w ∧ w < 7 * (n + 1)) :
    (assign n rs fs w a).ok = true ∧
      ∀ t, (assign n rs fs w a).written t = true ↔ (t = w ∨ P t) := by
  obtain ⟨h1, h2⟩ := assign_spec n rs fs w a
  refine ⟨h1.2 ⟨ha.1, fun r hr' => ⟨(hr r hr').1, (ha.2 r).2 (hr r hr').2⟩, hf, hw⟩, ?_⟩
  intro t
  rw [h2 t, ha.2 t]

theorem accessFill_spec (n : ℤ) (hn : 0 ≤ n) (a : Access)
    (ha : a.ok = true ∧ ∀ t, a.written t = true ↔ False) :
    (accessFill n a).ok = true ∧
      ∀ t, (accessFill n a).written t = true ↔ (7 ≤ t ∧ t < 7 * (n + 1) ∧ t % 7 = 6) := by
  unfold accessFill
  apply forLoop_inv_idx (fun m (a : Access) => a.ok = true ∧
    ∀ t, a.written t = true ↔ (7 ≤ t ∧ t < 7 * m ∧ t % 7 = 6)) (by omega)
  · intro m h1 h2 s hs
    obtain ⟨k1, k2⟩ := assign_step n [] [m] (m * 7 + 6) s _ hs (by simp)
      (by simp; omega) (by omega)
    refine ⟨k1, fun t => ?_⟩
    rw [k2 t]
    omega
  · refine ⟨ha.1, fun t => ?_⟩
    rw [ha.2 t]
    constructor
    · intro h
      exact h.elim
    · rintro ⟨h1, h2, _⟩
      omega

theorem accessEnds_spec (n : ℤ) (hn : 3 ≤ n) (a : Access)
    (ha : a.ok = true ∧ ∀ t, a.written t = true ↔ (7 ≤ t ∧ t < 7 * (n + 1) ∧ t % 7 = 6)) :
    (accessEnds n a).ok = true ∧
      ∀ t, (accessEnds n a).written t = true ↔
        (7 ≤ t ∧ t < 7 * (n + 1) ∧
          (t % 7 = 6 ∨ t = 1 * 7 + 5 ∨ t = 2 * 7 + 5 ∨ t = (n - 1) * 7 + 5 ∨ t = n * 7 + 5)) := by
  unfold accessEnds
  have s1 := assign_step n [2 * 7 + 6, 1 * 7 + 6] [] (1 * 7 + 5) a _ ha
    (by
      intro r hr
      simp only [List.mem_cons, List.mem_singleton, List.not_mem_nil, or_false] at hr
      rcases hr with rfl | rfl <;> omega) (by simp) (by omega)
  have s2 := assign_step n [3 * 7 + 6, 1 * 7 + 6] [] (2 * 7 + 5) _ _ s1
    (by
      intro r hr
      simp only [List.mem_cons, List.mem_singleton, List.not_mem_nil, or_false] at hr
      rcases hr with rfl | rfl <;> omega) (by simp) (by omega)
  have s3 := assign_step n [n * 7 + 6, (n - 2) * 7 + 6] [] ((n - 1) * 7 + 5) _ _ s2
    (by
      intro r hr
      simp only [List.mem_cons, List.mem_singleton, List.not_mem_nil, or_false] at hr
      rcases hr with rfl | rfl <;> omega) (by simp) (by omega)
  have s4 := assign_step n [n * 7 + 6, (n - 1) * 7 + 6] [] (n * 7 + 5) _ _ s3
    (by
      intro r hr
      simp only [List.mem_cons, List.mem_singleton, List.not_mem_nil, or_false] at hr
      rcases hr with rfl | rfl <;> omega) (by simp) (by omega)
  refine ⟨s4.1, fun t => ?_⟩
  rw [s4.2 t]
  omega

theorem accessInner_spec (n : ℤ) (hn : 3 ≤ n) (a : Access)
    (ha : a.ok = true ∧ ∀ t, a.written t = true ↔
        (7 ≤ t ∧ t < 7 * (n + 1) ∧
          (t % 7 = 6 ∨ t = 1 * 7 + 5 ∨ t = 2 * 7 + 5 ∨ t = (n - 1) * 7 + 5 ∨ t = n * 7 + 5))) :
    (accessInner n a).ok = true ∧
      ∀ t, (accessInner n a).written t = true ↔
        (7 ≤ t ∧ t < 7 * (n + 1) ∧ (t % 7 = 6 ∨ t % 7 = 5)) := by
  unfold accessInner
  rcases eq_or_lt_of_le hn with h3 | h4
  · subst h3
    rw [forLoop_empty (by norm_num)]
    refine ⟨ha.1, fun t => ?_⟩
    rw [ha.2 t]
    omega
  · have key := forLoop_inv_idx (fun m (a : Access) => a.ok = true ∧
      ∀ t, a.written t = true ↔ ((7 ≤ t ∧ t < 7 * (n + 1) ∧
          (t % 7 = 6 ∨ t = 1 * 7 + 5 ∨ t = 2 * 7 + 5 ∨ t = (n - 1) * 7 + 5 ∨ t = n * 7 + 5)) ∨
        (t % 7 = 5 ∧ 21 ≤ t ∧ t < 7 * m))) (show (3 : ℤ) ≤ n - 2 + 1 by omega)
      (fun m a =>
        assign n [(m - 2) * 7 + 6, (m + 2) * 7 + 6, (m + 1) * 7 + 6, (m - 1) * 7 + 6] []
          (m * 7 + 5) a)
      (by
        intro m h1 h2 s hs
        obtain ⟨k1, k2⟩ := assign_step n
          [(m - 2) * 7 + 6, (m + 2) * 7 + 6, (m + 1) * 7 + 6, (m - 1) * 7 + 6] []
          (m * 7 + 5) s _ hs
          (by
            intro r hr
            simp only [List.mem_cons, List.mem_singleton, List.not_mem_nil, or_false] at hr
            rcases hr with rfl | rfl | rfl | rfl <;> omega) (by simp) (by omega)
        refine ⟨k1, fun t => ?_⟩
        rw [k2 t]
        omega) a
      (by
        refine ⟨ha.1, fun t => ?_⟩
        rw [ha.2 t]
        omega)
    refine ⟨key.1, fun t => ?_⟩
    rw [key.2 t]
    omega

theorem accessCubic_spec (n : ℤ) (hn : 3 ≤ n) (a : Access)
    (ha : a.ok = true ∧ ∀ t, a.written t = true ↔
        (7 ≤ t ∧ t < 7 * (n + 1) ∧ (t % 7 = 6 ∨ t % 7 = 5))) :
    (accessCubic n a).ok = true ∧
      ∀ t, (accessCubic n a).written t = true ↔
        (7 ≤ t ∧ t < 7 * (n + 1) ∧ (t % 7 = 6 ∨ t % 7 = 5 ∨ t % 7 = 4 ∨ t % 7 = 3)) := by
  have key := forLoop_inv_idx (fun m (a : Access) => a.ok = true ∧
      ∀ t, a.written t = true ↔ ((7 ≤ t ∧ t < 7 * (n + 1) ∧ (t % 7 = 6 ∨ t % 7 = 5)) ∨
        ((t % 7 = 4 ∨ t % 7 = 3) ∧ 7 ≤ t ∧ t < 7 * m))) (show (1 : ℤ) ≤ n - 1 + 1 by omega)
      (fun m a =>
        assign n [m * 7 + 5, (m + 1) * 7 + 5, (m + 1) * 7 + 6, m * 7 + 6] [] (m * 7 + 3)
          (assign n [(m + 1) * 7 + 6, m * 7 + 6, m * 7 + 5, (m + 1) * 7 + 5] []
            (m * 7 + 4) a))
      (by
        intro m h1 h2 s hs
        have k1 := assign_step n [(m + 1) * 7 + 6, m * 7 + 6, m * 7 + 5, (m + 1) * 7 + 5] []
          (m * 7 + 4) s _ hs
          (by
            intro r hr
            simp only [List.mem_cons, List.mem_singleton, List.not_mem_nil, or_false] at hr
            rcases hr with rfl | rfl | rfl | rfl <;> omega) (by simp) (by omega)
        have k2 := assign_step n [m * 7 + 5, (m + 1) * 7 + 5, (m + 1) * 7 + 6, m * 7 + 6] []
          (m * 7 + 3) _ _ k1
          (by
            intro r hr
            simp only [List.mem_cons, List.mem_singleton, List.not_mem_nil, or_false] at hr
            rcases hr with rfl | rfl | rfl | rfl <;> omega) (by simp) (by omega)
        refine ⟨k2.1, fun t => ?_⟩
        rw [k2.2 t]
        omega) a
      (by
        refine ⟨ha.1, fun t => ?_⟩
        rw [ha.2 t]
        omega)
  have s1 := assign_step n [] [] (n * 7 + 4) _ _ key (by simp) (by simp) (by omega)
  have s2 := assign_step n [] [] (n * 7 + 3) _ _ s1 (by simp) (by simp) (by omega)
  unfold accessCubic
  refine ⟨s2.1, fun t => ?_⟩
  rw [s2.2 t]
  omega

theorem accessScale_spec (n : ℤ) (hn : 3 ≤ n) (a : Access)
    (ha : a.ok = true ∧ ∀ t, a.written t = true ↔
        (7 ≤ t ∧ t < 7 * (n + 1) ∧ (t % 7 = 6 ∨ t % 7 = 5 ∨ t % 7 = 4 ∨ t % 7 = 3))) :
    (accessScale n a).ok = true ∧
      ∀ t, (accessScale n a).written t = true ↔ (7 ≤ t ∧ t < 7 * (n + 1)) := by
  have key := forLoop_inv_idx (fun m (a : Access) => a.ok = true ∧
      ∀ t, a.written t = true ↔
        ((7 ≤ t ∧ t < 7 * (n + 1) ∧ (t % 7 = 6 ∨ t % 7 = 5 ∨ t % 7 = 4 ∨ t % 7 = 3)) ∨
        ((t % 7 = 2 ∨ t % 7 = 1 ∨ t % 7 = 0) ∧ 7 ≤ t ∧ t < 7 * m)))
      (show (1 : ℤ) ≤ n + 1 by omega)
      (fun m a =>
        assign n [m * 7 + 3] [] (m * 7 + 0)
          (assign n [m * 7 + 4] [] (m * 7 + 1) (assign n [m * 7 + 5] [] (m * 7 + 2) a)))
      (by
        intro m h1 h2 s hs
        have k1 := assign_step n [m * 7 + 5] [] (m * 7 + 2) s _ hs
          (by
            intro r hr
            simp only [List.mem_singleton] at hr
            subst hr
            omega) (by simp) (by omega)
        have k2 := assign_step n [m * 7 + 4] [] (m * 7 + 1) _ _ k1
          (by
            intro r hr
            simp only [List.mem_singleton] at hr
            subst hr
            omega) (by simp) (by omega)
        have k3 := assign_step n [m * 7 + 3] [] (m * 7 + 0) _ _ k2
          (by
            intro r hr
            simp only [List.mem_singleton] at hr
            subst hr
            omega) (by simp) (by omega)
        refine ⟨k3.1, fun t => ?_⟩
        rw [k3.2 t]
        omega) a
      (by
        refine ⟨ha.1, fun t => ?_⟩
        rw [ha.2 t]
        omega)
  unfold accessScale
  refine ⟨key.1, fun t => ?_⟩
  rw [key.2 t]
  omega

/-- C28: for `n ≥ 3`, in a call of `ForceEAM_interpolate` that starts with no cell of
`spline` written, every index read or written in `spline` lies in the offsets
`7 .. 7*(n+1) - 1` (rows `1 .. n`), every index read in `f` lies in `1 .. n`, and every cell
read was written before in the call (`ok`); on return the cells written are exactly the
seven slots of the rows `1 .. n`, so no cell of row 0 is written. -/
theorem interpolate_accesses_in_bounds (n : ℤ) (hn : 3 ≤ n) :
    (interpolateAccess n { written := fun _ => false, ok := true }).ok = true ∧
    (∀ t, (interpolateAccess n { written := fun _ => false, ok := true }).written t = true ↔
      (7 ≤ t ∧ t < 7 * (n + 1))) ∧
    (∀ m c, 1 ≤ m → m ≤ n → 0 ≤ c → c < 7 →
      (interpolateAccess n { written := fun _ => false, ok := true }).written (m * 7 + c)
        = true) ∧
    (∀ c, 0 ≤ c → c < 7 →
      (interpolateAccess n { written := fun _ => false, ok := true }).written (0 * 7 + c)
        = false) := by
  have h := accessScale_spec n hn _ (accessCubic_spec n hn _ (accessInner_spec n hn _
    (accessEnds_spec n hn _ (accessFill_spec n (by omega)
      { written := fun _ => false, ok := true } ⟨rfl, fun t => by simp⟩))))
  have hw : ∀ t, (interpolateAccess n { written := fun _ => false, ok := true }).written t
      = true ↔ (7 ≤ t ∧ t < 7 * (n + 1)) := h.2
  refine ⟨h.1, hw, ?_, ?_⟩
  · intro m c h1 h2 h3 h4
    rw [hw]
    omega
  · intro c h3 h4
    rw [← Bool.not_eq_true, hw]
    omega

end AccessLemmas

/-! ## Range strings -/

section BoundsLemmas

/-- The pointer `strchr(str, '*')` for a string without `*`: the null pointer. -/
theorem strchr_none (s : List Char) (h : '*' ∉ s) :
    s.dropWhile (fun c => c != '*') = [] := by
  induction s with
  | nil => rfl
  | cons c cs ih =>
    have hc : c ≠ '*' := fun e => h (by rw [e]; exact List.mem_cons_self _ _)
    have hcs : '*' ∉ cs := fun e => h (List.mem_cons_of_mem _ e)
    rw [List.dropWhile_cons_of_pos (by simpa using hc)]
    exact ih hcs

/-- The pointer `strchr(str, '*')` for a string with a first `*` after `N`. -/
theorem strchr_first (N M : List Char) (h : '*' ∉ N) :
    (N ++ '*' :: M).dropWhile (fun c => c != '*') = '*' :: M := by
  induction N with
  | nil => simp
  | cons c cs ih =>
    have hc : c ≠ '*' := fun e => h (by rw [e]; exact List.mem_cons_self _ _)
    have hcs : '*' ∉ cs := fun e => h (List.mem_cons_of_mem _ e)
    rw [List.cons_append, List.dropWhile_cons_of_pos (by simpa using hc)]
    exact ih hcs

/-- The results of `ForceEAM_bounds` for a string with a first `*` after `N`. -/
theorem bounds_star (atoi : List Char → ℤ) (N M : List Char) (h : '*' ∉ N) (nmax : ℤ) :
    ((ForceEAM_bounds atoi (N ++ '*' :: M) nmax).1 =
      if N = [] then 1 else atoi (N ++ '*' :: M)) ∧
    ((ForceEAM_bounds atoi (N ++ '*' :: M) nmax).2.1 = if M = [] then nmax else atoi M) := by
  unfold ForceEAM_bounds
  simp only [strchr_first N M h, List.tail_cons]
  have hne : ('*' :: M) ≠ [] := List.cons_ne_nil _ _
  rw [if_neg hne]
  by_cases hN : N = []
  · subst hN
    by_cases hM : M = []
    · subst hM
      simp
    · have hl : ([] ++ '*' :: M).length ≠ 1 := by
        cases M with
        | nil => exact absurd rfl hM
        | cons m ms => simp
      simp [hl, hM]
  · have hl : (N ++ '*' :: M).length ≠ 1 := by
      cases N with
      | nil => exact absurd rfl hN
      | cons c cs => simp
    have hp : ¬ ('*' :: M = N ++ '*' :: M) := by
      intro e
      have := congrArg List.length e
      simp only [List.length_cons, List.length_append] at this
      cases N with
      | nil => exact hN rfl
      | cons c cs => simp at this
    rw [if_neg hl, if_neg hp]
    by_cases hM : M = []
    · subst hM
      simp [hN]
    · have hlen : ¬ (M.length = 0) := by
        cases M with
        | nil => exact absurd rfl hM
        | cons m ms => simp
      simp [hN, hM, hlen]

/-- C29: with an `atoi` that reads no further than the first `*`, `ForceEAM_bounds` gives
`nlo = nhi = atoi(str)` for a string without `*`, `(1, nmax)` for `*`, `(1, atoi(M))` for
`*M`, `(atoi(N), nmax)` for `N*` and `(atoi(N), atoi(M))` for `N*M` (`N`, `M` not empty, no
`*` in `N`); the message is printed exactly when `nlo < 1` or `nhi > nmax`, and the values
returned are the same whether it is printed or not. -/
theorem bounds_parses (atoi : List Char → ℤ)
    (hatoi : ∀ a b : List Char, '*' ∉ a → atoi (a ++ '*' :: b) = atoi a) (nmax : ℤ) :
    (∀ s, '*' ∉ s → (ForceEAM_bounds atoi s nmax).1 = atoi s ∧
      (ForceEAM_bounds atoi s nmax).2.1 = atoi s) ∧
    ((ForceEAM_bounds atoi ['*'] nmax).1 = 1 ∧ (ForceEAM_bounds atoi ['*'] nmax).2.1 = nmax) ∧
    (∀ M, M ≠ [] → (ForceEAM_bounds atoi ('*' :: M) nmax).1 = 1 ∧
      (ForceEAM_bounds atoi ('*' :: M) nmax).2.1 = atoi M) ∧
    (∀ N, N ≠ [] → '*' ∉ N → (ForceEAM_bounds atoi (N ++ ['*']) nmax).1 = atoi N ∧
      (ForceEAM_bounds atoi (N ++ ['*']) nmax).2.1 = nmax) ∧
    (∀ N M, N ≠ [] → '*' ∉ N → M ≠ [] →
      (ForceEAM_bounds atoi (N ++ '*' :: M) nmax).1 = atoi N ∧
      (ForceEAM_bounds atoi (N ++ '*' :: M) nmax).2.1 = atoi M) ∧
    (∀ s, (ForceEAM_bounds atoi s nmax).2.2 = true ↔
      ((ForceEAM_bounds atoi s nmax).1 < 1 ∨ (ForceEAM_bounds atoi s nmax).2.1 > nmax)) := by
  refine ⟨?_, ?_, ?_, ?_, ?_, ?_⟩
  · intro s hs
    unfold ForceEAM_bounds
    simp only [strchr_none s hs, if_true]
    exact ⟨trivial, trivial⟩
  · have h := bounds_star atoi [] [] (by simp) nmax
    simpa using h
  · intro M hM
    have h := bounds_star atoi [] M (by simp) nmax
    simpa [hM] using h
  · intro N hN hs
    have h := bounds_star atoi N [] hs nmax
    rw [if_neg hN, if_pos rfl, hatoi N [] hs] at h
    exact h
  · intro N M hN hs hM
    have h := bounds_star atoi N M hs nmax
    rw [if_neg hN, if_neg hM, hatoi N M hs] at h
    exact h
  · intro s
    unfold ForceEAM_bounds
    simp only [decide_eq_true_eq]

/-- The example `atoi` reads no further than the first `*`. -/
theorem exDigits_star (a b : List Char) (h : '*' ∉ a) (acc : ℤ) :
    exDigits (a ++ '*' :: b) acc = exDigits a acc := by
  induction a generalizing acc with
  | nil =>
    have : ('*' : Char).isDigit = false := by decide
    simp [exDigits, this]
  | cons c cs ih =>
    have hcs : '*' ∉ cs := fun e => h (List.mem_cons_of_mem _ e)
    simp only [List.cons_append, exDigits]
    split_ifs
    · exact ih hcs _
    · rfl

theorem exAtoiChars_star (a b : List Char) (h : '*' ∉ a) :
    exAtoiChars (a ++ '*' :: b) = exAtoiChars a :=
  exDigits_star a b h 0

end BoundsLemmas

/-! ## The later claims on concrete inputs -/

theorem ex_fpair_fp :
    specFpair exEnv exForceFp.rdr exForceFp.nr exForceFp.rhor_spline exForceFp.z2r_spline
      exForceFp.fp exAtom.x 0 1 = -2 := by
  simp only [specFpair, ex_rsq]
  simp [exEnv, exForceFp, exForce, rat_sqrt_one, ex_lookup, splineValue, splineDeriv, exTable]
  norm_num

theorem ex_del : specDel exEnv exAtom.x 0 1 0 = -1 := by
  simp [specDel, exEnv, exAtom]

/-- C23, counterexample: two owned atoms at distance 1, atom 1 in the half list of atom 0,
`fp = 1`. The iteration of atom 0 changes the force cell `(1, 0)` of atom 1 from 0 to -2. -/
theorem halfneigh_iteration_writes_neighbour :
    (1 : ℤ) ≠ 0 ∧
    ((fun _ => 0, 0, 0) : (ℤ → ℚ) × ℚ × ℚ).1 (1 * exEnv.PAD + 0) = 0 ∧
    (halfForceAtom exEnv exForceFp exAtom.x exAtom.nlocal exNeighbor 0
      ((fun _ => 0, 0, 0) : (ℤ → ℚ) × ℚ × ℚ)).1 (1 * exEnv.PAD + 0) = -2 := by
  refine ⟨by decide, rfl, ?_⟩
  rw [halfForceAtom_cell exEnv (by decide) exForceFp exAtom.x exAtom.nlocal exNeighbor 0 _ 1 0
    (by decide)]
  have hw : withinCutoff exEnv exForceFp.cutforcesq exAtom.x 0 [1] = [1] := by
    simp [withinCutoff, ex_rsq, exForceFp, exForce]
  simp only [ex_half_list0, hw, List.map_cons, List.map_nil, List.sum_cons, List.sum_nil,
    ex_fpair_fp, ex_del]
  simp [exAtom]

/-- C24, counterexample: for the table of squares `1, 4, 9` the second derivative at the
first knot, `2*slot4` of row 1, is `-2`. -/
theorem interpolate_not_natural :
    2 * ForceEAM_interpolate 3 (1 : ℚ) exSquares exTable (1 * 7 + 4) = -2 ∧
    2 * ForceEAM_interpolate 3 (1 : ℚ) exSquares exTable (1 * 7 + 4) ≠ 0 := by
  have h := (interpolate_end_curvature 3 (by decide) (1 : ℚ) exSquares exTable).1
  have e : -(exSquares 1 - 2 * exSquares 2 + exSquares 3) = -2 := by
    simp [exSquares]
    norm_num
  rw [h, e]
  exact ⟨rfl, by norm_num⟩

/-- C22, witness: the two-atom configuration with its full lists. -/
theorem fullneigh_writes_owned_only_witness :
    (3 : ℤ) ≤ exEnv.PAD ∧
    ((∀ t, (∀ i d, 0 ≤ i → i < exAtom.nlocal → 0 ≤ d → d < 3 → t ≠ i * exEnv.PAD + d) →
      (ForceEAM_compute_fullneigh exEnv (exForce 0) exAtom exNeighbor exComm).2.1.d_f t = exAtom.d_f t) ∧
    (∀ k d, exAtom.nlocal ≤ k → 0 ≤ d → d < 3 →
      (ForceEAM_compute_fullneigh exEnv (exForce 0) exAtom exNeighbor exComm).2.1.d_f (k * exEnv.PAD + d) =
        exAtom.d_f (k * exEnv.PAD + d)) ∧
    (∀ i d, 0 ≤ i → i < exAtom.nlocal → 0 ≤ d → d < 3 → ∀ s,
      (ForceEAM_compute_fullneigh exEnv (exForce 0) exAtom exNeighbor exComm).2.1.d_f (i * exEnv.PAD + d) =
        (fullForceAtom exEnv (fullComm exEnv (exForce 0) exAtom exNeighbor exComm).1 exAtom.d_x exNeighbor i s).1 (i * exEnv.PAD + d)) ∧
    (ForceEAM_compute_fullneigh exEnv (exForce 0) exAtom exNeighbor exComm).2.1.x = exAtom.x ∧
    (ForceEAM_compute_fullneigh exEnv (exForce 0) exAtom exNeighbor exComm).2.1.d_x = exAtom.d_x ∧
    (ForceEAM_compute_fullneigh exEnv (exForce 0) exAtom exNeighbor exComm).2.1.f = exAtom.f) :=
  ⟨by decide, fullneigh_writes_owned_only exEnv (exForce 0) exAtom exNeighbor exComm (by decide)⟩

/-- C23, witness: in the two-atom configuration the iteration of atom 0 leaves the cells
of atom 2, which is not owned, as they were. -/
theorem halfneigh_iteration_writes_witness :
    (3 : ℤ) ≤ exEnv.PAD ∧ ((0 : ℤ) ≤ 0 ∧ (0 : ℤ) < 3) ∧ (2 : ℤ) ≠ 0 ∧
    (exAtom.nlocal ≤ 2 ∨
      (2 : ℤ) ∉ withinCutoff exEnv exForceFp.cutforcesq exAtom.x 0 (halfNeighList exNeighbor 0)) ∧
    (halfForceAtom exEnv exForceFp exAtom.x exAtom.nlocal exNeighbor 0
        ((fun _ => 0, 0, 0) : (ℤ → ℚ) × ℚ × ℚ)).1 (2 * exEnv.PAD + 0) =
      ((fun _ => 0, 0, 0) : (ℤ → ℚ) × ℚ × ℚ).1 (2 * exEnv.PAD + 0) :=
  ⟨by decide, by decide, by decide, Or.inl (by decide),
    halfneigh_iteration_writes exEnv (by decide) exForceFp exAtom.x exAtom.nlocal exNeighbor 0
      ((fun _ => 0, 0, 0) : (ℤ → ℚ) × ℚ × ℚ) 2 0 (by decide) (by decide) (Or.inl (by decide))⟩

/-- C24, witness: the table of squares `1, 4, 9`. -/
theorem interpolate_end_second_derivatives_witness :
    (3 : ℤ) ≤ 3 ∧
    (2 * ForceEAM_interpolate 3 (1 : ℚ) exSquares exTable (1 * 7 + 4) = -(exSquares 1 - 2 * exSquares 2 + exSquares 3) ∧
    6 * ForceEAM_interpolate 3 (1 : ℚ) exSquares exTable ((3 - 1) * 7 + 3) +
        2 * ForceEAM_interpolate 3 (1 : ℚ) exSquares exTable ((3 - 1) * 7 + 4) =
      -(exSquares (3 - 2) - 2 * exSquares (3 - 1) + exSquares 3) ∧
    (2 * ForceEAM_interpolate 3 (1 : ℚ) exSquares exTable (1 * 7 + 4) = 0 ↔ exSquares 1 - 2 * exSquares 2 + exSquares 3 = 0) ∧
    (6 * ForceEAM_interpolate 3 (1 : ℚ) exSquares exTable ((3 - 1) * 7 + 3) +
        2 * ForceEAM_interpolate 3 (1 : ℚ) exSquares exTable ((3 - 1) * 7 + 4) = 0 ↔
      exSquares (3 - 2) - 2 * exSquares (3 - 1) + exSquares 3 = 0)) :=
  ⟨by decide, interpolate_end_second_derivatives 3 (by decide) (1 : ℚ) exSquares exTable⟩

/-- C26, witness: a file with five points each way. -/
theorem file2array_one_point_fewer_witness :
    (0 : ℚ) < exFuncfl.dr ∧ (0 : ℚ) < exFuncfl.drho ∧ 1 ≤ exFuncfl.nr ∧ 1 ≤ exFuncfl.nrho ∧
    ((ForceEAM_file2array exFuncfl (fun _ => 0) (fun _ => 0) (fun _ => 0)).dr = exFuncfl.dr ∧
    (ForceEAM_file2array exFuncfl (fun _ => 0) (fun _ => 0) (fun _ => 0)).drho = exFuncfl.drho ∧
    (ForceEAM_file2array exFuncfl (fun _ => 0) (fun _ => 0) (fun _ => 0)).nr = exFuncfl.nr - 1 ∧
    (ForceEAM_file2array exFuncfl (fun _ => 0) (fun _ => 0) (fun _ => 0)).nrho = exFuncfl.nrho - 1) :=
  ⟨by decide, by decide, by decide, by decide,
    file2array_one_point_fewer exFuncfl (fun _ => 0) (fun _ => 0) (fun _ => 0) (by decide)
      (by decide) (by decide) (by decide)⟩

/-- C27, witness: a file with five points each way. -/
theorem file2array_identity_witness :
    (0 : ℚ) < exFuncfl.dr ∧ (0 : ℚ) < exFuncfl.drho ∧ 4 ≤ exFuncfl.nr ∧ 4 ≤ exFuncfl.nrho ∧
    ((∀ m, 1 ≤ m → m ≤ (ForceEAM_file2array exFuncfl (fun _ => 0) (fun _ => 0) (fun _ => 0)).nrho →
      (ForceEAM_file2array exFuncfl (fun _ => 0) (fun _ => 0) (fun _ => 0)).frho m = exFuncfl.frho m ∧
      1 ≤ (regridRow (ForceEAM_file2array exFuncfl (fun _ => 0) (fun _ => 0) (fun _ => 0)).drho exFuncfl.drho
        exFuncfl.nrho m).1 - 1 ∧
      (regridRow (ForceEAM_file2array exFuncfl (fun _ => 0) (fun _ => 0) (fun _ => 0)).drho exFuncfl.drho
        exFuncfl.nrho m).1 + 2 ≤ exFuncfl.nrho) ∧
    (∀ m, 1 ≤ m → m ≤ (ForceEAM_file2array exFuncfl (fun _ => 0) (fun _ => 0) (fun _ => 0)).nr →
      (ForceEAM_file2array exFuncfl (fun _ => 0) (fun _ => 0) (fun _ => 0)).rhor m = exFuncfl.rhor m ∧
      (ForceEAM_file2array exFuncfl (fun _ => 0) (fun _ => 0) (fun _ => 0)).z2r m = 27.2 * 0.529 * exFuncfl.zr m ^ 2 ∧
      0 ≤ (ForceEAM_file2array exFuncfl (fun _ => 0) (fun _ => 0) (fun _ => 0)).z2r m ∧
      1 ≤ (regridRow (ForceEAM_file2array exFuncfl (fun _ => 0) (fun _ => 0) (fun _ => 0)).dr exFuncfl.dr
        exFuncfl.nr m).1 - 1 ∧
      (regridRow (ForceEAM_file2array exFuncfl (fun _ => 0) (fun _ => 0) (fun _ => 0)).dr exFuncfl.dr
        exFuncfl.nr m).1 + 2 ≤ exFuncfl.nr)) :=
  ⟨by decide, by decide, by decide, by decide,
    file2array_identity exFuncfl (fun _ => 0) (fun _ => 0) (fun _ => 0) (by decide)
      (by decide) (by decide) (by decide)⟩

/-- C28, witness: a table of three rows. -/
theorem interpolate_accesses_in_bounds_witness :
    (3 : ℤ) ≤ 3 ∧
    ((interpolateAccess 3 { written := fun _ => false, ok := true }).ok = true ∧
    (∀ t, (interpolateAccess 3 { written := fun _ => false, ok := true }).written t = true ↔
      (7 ≤ t ∧ t < 7 * (3 + 1))) ∧
    (∀ m c, 1 ≤ m → m ≤ 3 → 0 ≤ c → c < 7 →
      (interpolateAccess 3 { written := fun _ => false, ok := true }).written (m * 7 + c)
        = true) ∧
    (∀ c, 0 ≤ c → c < 7 →
      (interpolateAccess 3 { written := fun _ => false, ok := true }).written (0 * 7 + c)
        = false)) :=
  ⟨by decide, interpolate_accesses_in_bounds 3 (by decide)⟩

/-- C29, witness: the decimal `atoi` of the examples and `nmax = 10`. -/
theorem bounds_parses_witness :
    (∀ a b : List Char, '*' ∉ a → exAtoiChars (a ++ '*' :: b) = exAtoiChars a) ∧
    ((∀ s, '*' ∉ s → (ForceEAM_bounds exAtoiChars s 10).1 = exAtoiChars s ∧
      (ForceEAM_bounds exAtoiChars s 10).2.1 = exAtoiChars s) ∧
    ((ForceEAM_bounds exAtoiChars ['*'] 10).1 = 1 ∧ (ForceEAM_bounds exAtoiChars ['*'] 10).2.1 = 10) ∧
    (∀ M, M ≠ [] → (ForceEAM_bounds exAtoiChars ('*' :: M) 10).1 = 1 ∧
      (ForceEAM_bounds exAtoiChars ('*' :: M) 10).2.1 = exAtoiChars M) ∧
    (∀ N, N ≠ [] → '*' ∉ N → (ForceEAM_bounds exAtoiChars (N ++ ['*']) 10).1 = exAtoiChars N ∧
      (ForceEAM_bounds exAtoiChars (N ++ ['*']) 10).2.1 = 10) ∧
    (∀ N M, N ≠ [] → '*' ∉ N → M ≠ [] →
      (ForceEAM_bounds exAtoiChars (N ++ '*' :: M) 10).1 = exAtoiChars N ∧
      (ForceEAM_bounds exAtoiChars (N ++ '*' :: M) 10).2.1 = exAtoiChars M) ∧
    (∀ s, (ForceEAM_bounds exAtoiChars s 10).2.2 = true ↔
      ((ForceEAM_bounds exAtoiChars s 10).1 < 1 ∨ (ForceEAM_bounds exAtoiChars s 10).2.1 > 10))) :=
  ⟨exAtoiChars_star, bounds_parses exAtoiChars exAtoiChars_star 10⟩

end MiniMD
